import Mathlib

/-!
# sacd_extract: option parsing and extraction-job planning

A shallow embedding of `tools/sacd_extract/main.c`.

* The global `opts` struct becomes the record `opts_s`, passed explicitly.
* `parse_options` becomes a fold over the values that `getopt_long` returns.
* The part of `main` that exports cue sheets and fills the output queue becomes
  `plan`, which returns the jobs in the order in which the code issues them.
  The file system, which `get_unique_path`, `get_unique_dir`, `write_cue_sheet`
  and `mkdir_wrap` read or change, is an explicit state of an arbitrary type `σ`.
* C `int` is `Int`; `uint32_t` is `Nat` with an explicit `% 2 ^ 32`; a C string is
  the list of its bytes (one `Char` per byte, without the terminating NUL).
-/

set_option autoImplicit false

namespace SacdExtract

/-! ## C strings and the libc functions used by `main.c` -/

/-- A C string: the bytes before the terminating NUL. -/
abbrev CString := List Char

/-- The characters for which `isspace` holds in the C locale. -/
def isspace (c : Char) : Bool :=
  c = ' ' || c = '\t' || c = '\n' || c.toNat = 11 || c.toNat = 12 || c = '\r'

/-- The test `isdigit` of libc. -/
def isdigit (c : Char) : Bool := '0' ≤ c && c ≤ '9'

/-- Value of the longest run of decimal digits at the start of a string,
with `acc` the value of the digits already read. -/
def atoi_digits : CString → Nat → Nat
  | [], acc => acc
  | c :: cs, acc => if isdigit c then atoi_digits cs (10 * acc + (c.toNat - '0'.toNat)) else acc

/-- Reduction of an integer to the range of a 32-bit two's complement `int`. -/
def wrap_int32 (x : Int) : Int := (x + 2 ^ 31) % 2 ^ 32 - 2 ^ 31

/-- The libc function `atoi`: skip white space, read an optional sign, then the
decimal digits; a string without digits gives 0.  The C standard leaves the
result undefined when the value does not fit an `int`; here it wraps. -/
def atoi (s : CString) : Int :=
  match s.dropWhile isspace with
  | '-' :: r => wrap_int32 (-(atoi_digits r 0 : Int))
  | '+' :: r => wrap_int32 (atoi_digits r 0 : Int)
  | r => wrap_int32 (atoi_digits r 0 : Int)

/-- Tokens of `s`, as the successive calls `strtok(s, delim)`, `strtok(0, delim)`, ...
return them: the maximal non-empty runs of bytes that are not in `delim`.
`cur` holds the bytes of the token being read, last byte first. -/
def strtok_all (delim : List Char) : CString → CString → List CString
  | [], cur => if cur = [] then [] else [cur.reverse]
  | c :: cs, cur =>
    if c ∈ delim then
      (if cur = [] then strtok_all delim cs [] else cur.reverse :: strtok_all delim cs [])
    else strtok_all delim cs (c :: cur)

/-- The conversion `%03d` of printf for a non-negative argument: decimal digits,
padded with zeros on the left to at least three characters. -/
def fmt_03d (i : Nat) : CString :=
  List.replicate (3 - (Nat.toDigits 10 i).length) '0' ++ Nat.toDigits 10 i

/-- The string `snprintf(buf, size, ...)` leaves in `buf`, given the full
formatted text: at most `size - 1` bytes are kept. -/
def snprintf (size : Nat) (formatted : CString) : CString := formatted.take (size - 1)

/-- The expression `x & 0xff` for a 32-bit `int` x, computed on the two's complement bit
pattern of `x`. -/
def and_0xff (x : Int) : Nat := (x % 2 ^ 32).toNat &&& 0xff

/-! ## The option record -/

/-- The struct `opts_s` in `main.c`. -/
structure opts_s where
  two_channel : Int
  multi_channel : Int
  output_dsf : Int
  output_dsdiff_em : Int
  output_dsdiff : Int
  output_iso : Int
  concurrent : Int
  convert_dst : Int
  export_cue_sheet : Int
  print : Int
  input_device : Option CString
  output_file : CString
  output_dir : Option CString
  output_dir_conc : Option CString
  select_tracks : Int
  selected_tracks : List Nat
  dsf_nopad : Int
  version : Int

/-- The value of the global `opts` after `init`: the fields that `init` assigns, and
zero (static storage) for `output_file`, `select_tracks`, `selected_tracks` and
`version`, which it does not assign. -/
def init : opts_s :=
  { two_channel := 0
    multi_channel := 0
    output_dsf := 0
    output_iso := 0
    output_dir := none
    output_dir_conc := none
    concurrent := 0
    output_dsdiff := 0
    output_dsdiff_em := 0
    convert_dst := 0
    export_cue_sheet := 0
    print := 0
    input_device := some "/dev/cdrom".toList
    dsf_nopad := 0
    output_file := []
    select_tracks := 0
    selected_tracks := List.replicate 256 0
    version := 0 }

/-! ## `parse_options` -/

/-- One value returned by `getopt_long`, with the `optarg` it set. -/
structure getopt_result where
  opt : Char
  optarg : CString

/-- The `while (track != 0)` loop of `case 't'`, over the tokens that `strtok`
returns, on the pair (`opts.selected_tracks`, `count`).  The counter `count` is
bounded by the number of tokens of one command-line argument, so it is not
reduced modulo 2 ^ 32. -/
def select_track_loop : List CString → List Nat × Int → List Nat × Int
  | [], s => s
  | track :: rest, (selected_tracks, count) =>
    let track_nr := atoi track
    if track_nr = 0 then select_track_loop rest (selected_tracks, count)
    else
      let track_nr := and_0xff (track_nr - 1)
      select_track_loop rest (selected_tracks.set track_nr 1, count + 1)

/-- The body of `case 't'`. -/
def parse_select_track (o : opts_s) (optarg : CString) : opts_s :=
  let r := select_track_loop (strtok_all [' ', ','] optarg []) (o.selected_tracks, 0)
  { o with selected_tracks := r.1, select_tracks := if r.2 ≠ 0 then 1 else 0 }

/-- The `switch (opt)` of `parse_options`, for the cases that fall out of the
switch with `break` (all but `'?'` and `'u'`). -/
def parse_options_case (o : opts_s) (opt : Char) (optarg : CString) : opts_s :=
  if opt = '2' then { o with two_channel := 1 }
  else if opt = 'm' then { o with multi_channel := 1 }
  else if opt = 'e' then
    { o with output_dsdiff_em := 1, output_dsdiff := 0, output_dsf := 0, output_iso := 0,
             export_cue_sheet := 1 }
  else if opt = 'p' then { o with output_dsdiff_em := 0, output_dsdiff := 1, output_dsf := 0 }
  else if opt = 's' then { o with output_dsdiff_em := 0, output_dsdiff := 0, output_dsf := 1 }
  else if opt = 't' then parse_select_track o optarg
  else if opt = 'z' then { o with dsf_nopad := 1 }
  else if opt = 'I' then { o with output_dsdiff_em := 0, output_iso := 1 }
  else if opt = 'w' then { o with concurrent := 1 }
  else if opt = 'c' then { o with convert_dst := 1 }
  else if opt = 'C' then { o with export_cue_sheet := 1 }
  else if opt = 'i' then { o with input_device := some optarg }
  else if opt = 'o' then { o with output_dir := some optarg }
  else if opt = 'y' then { o with output_dir_conc := some optarg }
  else if opt = 'P' then { o with print := 1 }
  else if opt = 'v' then { o with version := 1 }
  else o

/-- The `while ((opt = getopt_long(...)) >= 0)` loop of `parse_options` over the
values `getopt_long` returns before -1.  The first component is 0 when the
function returns 0 from inside the loop (`case '?'`, `case 'u'`) and 1 when the
loop runs to its end; the second is the global `opts` at that point. -/
def parse_options_loop : opts_s → List getopt_result → Int × opts_s
  | o, [] => (1, o)
  | o, r :: rest =>
    if r.opt = '?' ∨ r.opt = 'u' then (0, o)
    else parse_options_loop (parse_options_case o r.opt r.optarg) rest

/-- The function `parse_options`: its return value (0 or 1) and the global `opts` it
leaves.  `args` are the values of `getopt_long`, `remaining_arg` is `argv[optind]`
when `optind < argc`; it is copied to `output_file` with `strcpy`, which is defined
for arguments shorter than the 512 bytes of that field. -/
def parse_options (o : opts_s) (args : List getopt_result) (remaining_arg : Option CString) :
    Int × opts_s :=
  let r := parse_options_loop o args
  if r.1 = 0 then (0, r.2)
  else
    match remaining_arg with
    | some a => (1, { r.2 with output_file := a })
    | none => (1, r.2)

/-! ## The disc, the collaborators and the jobs -/

/-- The fields of `area_toc_t` that `main` reads. -/
structure area_toc_t where
  track_count : Nat
  frame_format : Nat

/-- The fields of `scarletbook_handle_t` that `main` reads; `area idx` stands for
`handle->area[idx].area_toc`. -/
structure scarletbook_handle_t where
  twoch_area_idx : Int
  mulch_area_idx : Int
  area : Int → area_toc_t

/-- The functions and constants that `main.c` takes from other compilation units,
as parameters.  `σ` is the state of the file system, `ρ` the type of an open
`sacd_reader_t`.  The functions that probe or change the file system take the
state and, when they change it, return the new one. -/
structure collaborators (σ ρ : Type) where
  FRAME_FORMAT_DST : Nat
  has_two_channel : scarletbook_handle_t → Bool
  has_multi_channel : scarletbook_handle_t → Bool
  get_album_dir : scarletbook_handle_t → CString
  get_music_filename : scarletbook_handle_t → Int → Nat → CString → CString
  make_filename : Option CString → Option CString → CString → CString → CString
  get_unique_path : σ → Option CString → CString → CString → CString
  get_unique_dir : σ → Option CString → CString → CString × σ
  write_cue_sheet : σ → scarletbook_handle_t → CString → Int → σ
  mkdir_wrap : σ → CString → σ
  stat_is_dir : σ → CString → Bool
  sacd_open : σ → Option CString → Option ρ
  sacd_get_total_sectors : ρ → Nat
  scarletbook_open : ρ → Option scarletbook_handle_t

/-- What `main` asks of the cue-sheet writer and of the output engine, with the
arguments it passes: `CueExport` is a call of `write_cue_sheet`, `RawSectorRange` a
call of `scarletbook_output_enqueue_raw_sectors`, `TrackTranscode` a call of
`scarletbook_output_enqueue_track` (its last three arguments in order). -/
inductive job where
  | CueExport (area : Int) (path : CString)
  | RawSectorRange (offset length : Nat) (path : CString) (kind : CString)
  | TrackTranscode (area : Int) (track_index : Nat) (path : CString) (format : CString)
      (decode_required : Int) (pad_required : Int) (pipeline_id : Int)
  deriving DecidableEq, Repr

/-! ## The planning part of `main` -/

/-- The channel-area selection of `main`: the used part of `area_idx`, whose
length is `n_areas`. -/
def select_areas {σ ρ : Type} (E : collaborators σ ρ) (o : opts_s) (h : scarletbook_handle_t) :
    List Int :=
  (if E.has_two_channel h = true ∧ o.two_channel ≠ 0 then [h.twoch_area_idx] else []) ++
  (if E.has_multi_channel h = true ∧ o.multi_channel ≠ 0 then [h.mulch_area_idx] else [])

/-- The content of `albumdir_loc` after `strcpy(albumdir_loc, albumdir)` and the
conditional `strcat` of the area qualifier, in the loop over `j`. -/
def albumdir_loc (albumdir : CString) (n_areas j : Nat) : CString :=
  if n_areas > 1 then albumdir ++ (if j ≠ 0 then " [multi]".toList else " [stereo]".toList)
  else albumdir

/-- The loop `for (j = 0; j < n_areas; j++)` of the cue-sheet export, from index
`j` on, `rest` being `area_idx[j .. n_areas)`. -/
def cue_loop {σ ρ : Type} (E : collaborators σ ρ) (o : opts_s) (h : scarletbook_handle_t)
    (albumdir : CString) (n_areas : Nat) : Nat → List Int → σ → List job × σ
  | _, [], w => ([], w)
  | j, a :: rest, w =>
    let file_path := E.get_unique_path w o.output_dir (albumdir_loc albumdir n_areas j) "cue".toList
    let w1 := E.write_cue_sheet w h file_path a
    let r := cue_loop E o h albumdir n_areas (j + 1) rest w1
    (job.CueExport a file_path :: r.1, r.2)

/-- The constant `FAT32_SECTOR_LIMIT`. -/
@[irreducible] def FAT32_SECTOR_LIMIT : Nat := 2090000

/-- The splitting loop `for (i = 1; total_sectors != 0; i++)` of the SECTOR_LIMIT
build, from the state (`i`, `sector_offset`, `total_sectors`) on. -/
def split_loop (file_path : CString) (i sector_offset total_sectors : Nat) : List job :=
  if h : total_sectors = 0 then []
  else
    let sector_size := min total_sectors FAT32_SECTOR_LIMIT
    let musicfilename := snprintf 512 (file_path ++ '.' :: fmt_03d i)
    job.RawSectorRange sector_offset sector_size musicfilename "iso".toList ::
      split_loop file_path (i + 1) ((sector_offset + sector_size) % 2 ^ 32)
        (total_sectors - sector_size)
termination_by total_sectors
decreasing_by
  unfold FAT32_SECTOR_LIMIT
  omega

/-- The sixth argument of `scarletbook_output_enqueue_track` for DSDIFF and edit-master
jobs: `(opts.convert_dst ? 1 : frame_format != FRAME_FORMAT_DST)`. -/
def decode_arg {σ ρ : Type} (E : collaborators σ ρ) (o : opts_s) (h : scarletbook_handle_t)
    (area : Int) : Int :=
  if o.convert_dst ≠ 0 then 1
  else if (h.area area).frame_format ≠ E.FRAME_FORMAT_DST then 1 else 0

/-- The seventh argument for DSF jobs: `opts.dsf_nopad && !opts.select_tracks`. -/
def pad_arg (o : opts_s) : Int :=
  if o.dsf_nopad ≠ 0 ∧ o.select_tracks = 0 then 1 else 0

/-- The loop `for (i = 0; i < track_count; i++)` over the tracks of one area.  It
occurs twice in `main`, in the concurrent branch with last argument 1 and in
the non-concurrent branch with last argument 0; `concurrent` is that argument
and `dir` the content of `albumdir_loc`.  The array `selected_tracks` has an entry
for every track an area can hold (`scarletbook is limited to 256 tracks`), so
`selected_tracks[i]` is read inside the array; outside it the model reads 0. -/
def track_loop {σ ρ : Type} (E : collaborators σ ρ) (o : opts_s) (h : scarletbook_handle_t)
    (area : Int) (dir : CString) (concurrent : Int) : List job :=
  (List.range (h.area area).track_count).filterMap fun i =>
    if o.select_tracks ≠ 0 ∧ o.selected_tracks.getD i 0 = 0 then none
    else
      let musicfilename := E.get_music_filename h area i o.output_file
      if o.output_dsf ≠ 0 then
        some (job.TrackTranscode area i
          (E.make_filename (some dir) none musicfilename "dsf".toList)
          "dsf".toList 1 (pad_arg o) concurrent)
      else if o.output_dsdiff ≠ 0 then
        some (job.TrackTranscode area i
          (E.make_filename (some dir) none musicfilename "dff".toList)
          "dsdiff".toList (decode_arg E o h area) 0 concurrent)
      else none

/-- The loop `for (j = 0; j < n_areas; j++)` that fills the queue with track jobs,
from index `j` on: in the concurrent branch `output_dir` is
`opts.output_dir_conc` and `concurrent` is 1, in the non-concurrent branch they
are `opts.output_dir` and 0. -/
def track_area_loop {σ ρ : Type} (E : collaborators σ ρ) (o : opts_s) (h : scarletbook_handle_t)
    (albumdir : CString) (n_areas : Nat) (output_dir : Option CString) (concurrent : Int) :
    Nat → List Int → σ → List job × σ
  | _, [], w => ([], w)
  | j, a :: rest, w =>
    let d := E.get_unique_dir w output_dir (albumdir_loc albumdir n_areas j)
    let w1 := E.mkdir_wrap d.2 d.1
    let r := track_area_loop E o h albumdir n_areas output_dir concurrent (j + 1) rest w1
    (track_loop E o h a d.1 concurrent ++ r.1, r.2)

/-- The loop `for (j = 0; j < n_areas; j++)` of the edit-master branch, from
index `j` on. -/
def edit_master_loop {σ ρ : Type} (E : collaborators σ ρ) (o : opts_s) (h : scarletbook_handle_t)
    (albumdir : CString) (n_areas : Nat) (w : σ) : Nat → List Int → List job
  | _, [] => []
  | j, a :: rest =>
    let file_path := E.get_unique_path w o.output_dir (albumdir_loc albumdir n_areas j) "dff".toList
    job.TrackTranscode a 0 file_path "dsdiff_edit_master".toList (decode_arg E o h a) 0 0 ::
      edit_master_loop E o h albumdir n_areas w (j + 1) rest

/-- The `if (opts.output_iso)` branch of `main`: the raw-image jobs and, in
concurrent mode, the track jobs.  `SECTOR_LIMIT` tells whether the program was
compiled with that symbol defined. -/
def plan_iso {σ ρ : Type} (E : collaborators σ ρ) (SECTOR_LIMIT : Bool) (o : opts_s)
    (h : scarletbook_handle_t) (albumdir : CString) (area_idx : List Int)
    (total_sectors : Nat) (w : σ) : List job × σ :=
  if SECTOR_LIMIT = true ∧ total_sectors > FAT32_SECTOR_LIMIT then
    (split_loop (E.make_filename o.output_dir none albumdir "iso".toList) 1 0 total_sectors, w)
  else
    let file_path := E.get_unique_path w o.output_dir albumdir "iso".toList
    let raw := job.RawSectorRange 0 total_sectors file_path "iso".toList
    if o.concurrent ≠ 0 ∧ (o.output_dsf ≠ 0 ∨ o.output_dsdiff ≠ 0) then
      let r := track_area_loop E o h albumdir area_idx.length o.output_dir_conc 1 0 area_idx w
      (raw :: r.1, r.2)
    else ([raw], w)

/-- The queue-filling chain `if (opts.output_iso) ... else if (opts.output_dsdiff_em) ...
else if (!(opts.output_iso && opts.concurrent) && (opts.output_dsf || opts.output_dsdiff))`. -/
def plan_queue {σ ρ : Type} (E : collaborators σ ρ) (SECTOR_LIMIT : Bool) (o : opts_s)
    (h : scarletbook_handle_t) (albumdir : CString) (area_idx : List Int)
    (total_sectors : Nat) (w : σ) : List job × σ :=
  if o.output_iso ≠ 0 then plan_iso E SECTOR_LIMIT o h albumdir area_idx total_sectors w
  else if o.output_dsdiff_em ≠ 0 then
    (edit_master_loop E o h albumdir area_idx.length w 0 area_idx, w)
  else if ¬ (o.output_iso ≠ 0 ∧ o.concurrent ≠ 0) ∧ (o.output_dsf ≠ 0 ∨ o.output_dsdiff ≠ 0) then
    track_area_loop E o h albumdir area_idx.length o.output_dir 0 0 area_idx w
  else ([], w)

/-- The value of `albumdir` in `main`:
`strlen(opts.output_file) > 0 ? strdup(opts.output_file) : get_album_dir(handle)`. -/
def albumdir_of {σ ρ : Type} (E : collaborators σ ρ) (o : opts_s) (h : scarletbook_handle_t) :
    CString :=
  if o.output_file.length > 0 then o.output_file else E.get_album_dir h

/-- The body of `if (opts.output_dsf || opts.output_iso || ...)` in `main` up to the
call of `scarletbook_output_start`: area selection, album name, cue-sheet export
and queue filling.  The result lists the cue exports and the enqueued jobs in
the order in which `main` issues them. -/
def plan {σ ρ : Type} (E : collaborators σ ρ) (SECTOR_LIMIT : Bool) (o : opts_s)
    (h : scarletbook_handle_t) (total_sectors : Nat) (w : σ) : List job × σ :=
  let area_idx := select_areas E o h
  let albumdir := albumdir_of E o h
  let c := if o.export_cue_sheet ≠ 0 then cue_loop E o h albumdir area_idx.length 0 area_idx w
           else ([], w)
  let q := plan_queue E SECTOR_LIMIT o h albumdir area_idx total_sectors c.2
  (c.1 ++ q.1, q.2)

/-- The default to two-channel in `main`:
`if (opts.two_channel == 0 && opts.multi_channel == 0) opts.two_channel = 1`. -/
def default_channel (o : opts_s) : opts_s :=
  if o.two_channel = 0 ∧ o.multi_channel = 0 then { o with two_channel := 1 } else o

/-- The value of `nogo` in `main` before `sacd_open` is tried: set by the version
option, by an output directory that does not exist or is not a directory, and,
in concurrent mode with a per-track format, by such an `output_dir_conc`. -/
def nogo_checks {σ ρ : Type} (E : collaborators σ ρ) (o : opts_s) (w : σ) : Bool :=
  let nogo0 : Bool := decide (o.version ≠ 0)
  let nogo1 : Bool :=
    match o.output_dir with
    | some d => nogo0 || !E.stat_is_dir w d
    | none => nogo0
  match o.output_dir_conc with
  | some d =>
    if o.concurrent ≠ 0 ∧ (o.output_dsf ≠ 0 ∨ o.output_dsdiff ≠ 0) then
      nogo1 || !E.stat_is_dir w d
    else nogo1
  | none => nogo1

/-- The part of `main` after the checks of `nogo_checks`: open the reader and the
disc, and plan when an output was requested. -/
def main_open {σ ρ : Type} (E : collaborators σ ρ) (SECTOR_LIMIT : Bool) (o : opts_s) (w : σ) :
    List job × Bool :=
  match E.sacd_open w o.input_device with
  | none => ([], false)
  | some sacd_reader =>
    match E.scarletbook_open sacd_reader with
    | none => ([], false)
    | some handle =>
      if o.output_dsf ≠ 0 ∨ o.output_iso ≠ 0 ∨ o.output_dsdiff ≠ 0 ∨ o.output_dsdiff_em ≠ 0
          ∨ o.export_cue_sheet ≠ 0 then
        ((plan E SECTOR_LIMIT o handle (E.sacd_get_total_sectors sacd_reader % 2 ^ 32) w).1,
          true)
      else ([], false)

/-- The function `main` from `init` to the call of `scarletbook_output_start`: the cue
exports and enqueued jobs in order, and whether `scarletbook_output_start` is
called.  `w` is the state of the file system when the program starts. -/
def main {σ ρ : Type} (E : collaborators σ ρ) (SECTOR_LIMIT : Bool) (args : List getopt_result)
    (remaining_arg : Option CString) (w : σ) : List job × Bool :=
  let p := parse_options init args remaining_arg
  if p.1 = 0 then ([], false)
  else
    let o : opts_s := default_channel p.2
    if nogo_checks E o w = true then ([], false)
    else main_open E SECTOR_LIMIT o w

/-! ## Views of a job list used to state the properties -/

/-- Whether a job is a `RawSectorRange` job. -/
def is_raw : job → Bool
  | job.RawSectorRange _ _ _ _ => true
  | _ => false

/-- Whether a job is a `TrackTranscode` job. -/
def is_track : job → Bool
  | job.TrackTranscode _ _ _ _ _ _ _ => true
  | _ => false

/-- Whether a job is a `CueExport` job. -/
def is_cue : job → Bool
  | job.CueExport _ _ => true
  | _ => false

/-- The `RawSectorRange` jobs of a list, in order. -/
def raw_jobs (js : List job) : List job := js.filter is_raw

/-- The `TrackTranscode` jobs of a list, in order. -/
def track_jobs (js : List job) : List job := js.filter is_track

/-- The (offset, length) pairs of the `RawSectorRange` jobs, in order. -/
def raw_ranges (js : List job) : List (Nat × Nat) :=
  js.filterMap fun j =>
    match j with
    | job.RawSectorRange offset length _ _ => some (offset, length)
    | _ => none

/-- The output paths of the `RawSectorRange` jobs, in order. -/
def raw_paths (js : List job) : List CString :=
  js.filterMap fun j =>
    match j with
    | job.RawSectorRange _ _ path _ => some path
    | _ => none

/-- The (area, track index) pairs of the `TrackTranscode` jobs, in order. -/
def track_ids (js : List job) : List (Int × Nat) :=
  js.filterMap fun j =>
    match j with
    | job.TrackTranscode a i _ _ _ _ _ => some (a, i)
    | _ => none

/-- The padding arguments (seventh argument of `scarletbook_output_enqueue_track`) of
the `TrackTranscode` jobs, in order. -/
def pad_args (js : List job) : List Int :=
  js.filterMap fun j =>
    match j with
    | job.TrackTranscode _ _ _ _ _ pad_required _ => some pad_required
    | _ => none

/-- The area argument of a cue export or track job. -/
def job_area : job → Option Int
  | job.CueExport a _ => some a
  | job.TrackTranscode a _ _ _ _ _ _ => some a
  | job.RawSectorRange _ _ _ _ => none

/-- The output path of a job is built from the base name `base`: for a cue export
it is the path `get_unique_path` returns for `base` and the extension `cue`; for a
track job it is the path `get_unique_path` returns for `base` and `dff` (edit
master), or `make_filename` of the track's music file name in the directory
`get_unique_dir` returns for `base` (per-track job); for a raw-image job it is the
path `get_unique_path` returns for `base` and `iso`, or the volume name that
`snprintf` forms from `make_filename` of `base` and `iso` and a volume number. -/
def named_from {σ ρ : Type} (E : collaborators σ ρ) (o : opts_s) (h : scarletbook_handle_t)
    (base : CString) : job → Prop
  | job.CueExport _ p => ∃ w1 : σ, p = E.get_unique_path w1 o.output_dir base "cue".toList
  | job.TrackTranscode a i p _ _ _ _ =>
    (∃ w1 : σ, p = E.get_unique_path w1 o.output_dir base "dff".toList) ∨
    (∃ (w1 : σ) (dir : Option CString) (ext : CString),
      p = E.make_filename (some (E.get_unique_dir w1 dir base).1) none
        (E.get_music_filename h a i o.output_file) ext)
  | job.RawSectorRange _ _ p _ =>
    (∃ w1 : σ, p = E.get_unique_path w1 o.output_dir base "iso".toList) ∨
    (∃ i : Nat, p = snprintf 512
      (E.make_filename o.output_dir none base "iso".toList ++ '.' :: fmt_03d i))

/-- The exclusivity of the output modes: at most one of `output_dsdiff_em`,
`output_dsdiff`, `output_dsf` is set, and `output_dsdiff_em` comes with
`export_cue_sheet` set and with `output_iso`, `output_dsdiff`, `output_dsf` clear. -/
def mode_invariant (o : opts_s) : Prop :=
  (o.output_dsdiff_em = 0 ∧ o.output_dsdiff = 0 ∨
    o.output_dsdiff_em = 0 ∧ o.output_dsf = 0 ∨
    o.output_dsdiff = 0 ∧ o.output_dsf = 0) ∧
  (o.output_dsdiff_em ≠ 0 →
    o.export_cue_sheet ≠ 0 ∧ o.output_iso = 0 ∧ o.output_dsdiff = 0 ∧ o.output_dsf = 0)

/-- Whether the ranges are non-empty, each starts where the one before it ends,
the first starts at `start` and the last ends at `stop`. -/
def covers : Nat → List (Nat × Nat) → Nat → Bool
  | start, [], stop => start = stop
  | start, (offset, length) :: rs, stop =>
    offset = start && 0 < length && covers (start + length) rs stop

/-- The job that the splitting loop is expected to emit in iteration number `k`
(counted from 0) when it starts with file number `i`, offset `off` and `T`
sectors to go. -/
def nth_split_job (fp : CString) (i off T k : Nat) : job :=
  job.RawSectorRange ((off + k * FAT32_SECTOR_LIMIT) % 2 ^ 32)
    (min (T - k * FAT32_SECTOR_LIMIT) FAT32_SECTOR_LIMIT)
    (snprintf 512 (fp ++ '.' :: fmt_03d (i + k))) "iso".toList

/-! ## A concrete set of collaborators, to evaluate the definitions -/

/-- Modelled from the spec: `make_filename` of `fileutils` is not in `main.c`; this
stand-in joins directory, file name and extension as `dir/file.ext`. -/
def example_make_filename (path : Option CString) (_dir : Option CString) (file : CString)
    (extension : CString) : CString :=
  (match path with
   | some p => p ++ ['/']
   | none => []) ++ file ++ ['.'] ++ extension

/-- A disc with a two-channel area (index 0, 14 tracks, DST coded) and a
multi-channel area (index 1, 10 tracks, plain DSD, frame format 2). -/
def example_disc : scarletbook_handle_t where
  twoch_area_idx := 0
  mulch_area_idx := 1
  area idx := if idx = 0 then { track_count := 14, frame_format := 0 }
              else { track_count := 10, frame_format := 2 }

/-- Modelled from the spec: stand-ins for the functions of the other compilation
units, on an empty file system (state `Unit`) in which no probed path exists, so
that `get_unique_path` and `get_unique_dir` return their first candidate.  An open
reader is the sector count of its image paired with the disc structure; the
device holds `example_disc` in an image of 3,000,000 sectors. -/
def example_collaborators : collaborators Unit (Nat × scarletbook_handle_t) where
  FRAME_FORMAT_DST := 0
  has_two_channel h := decide (h.twoch_area_idx ≠ -1)
  has_multi_channel h := decide (h.mulch_area_idx ≠ -1)
  get_album_dir _ := "Album".toList
  get_music_filename _ _ i _ := fmt_03d (i + 1)
  make_filename := example_make_filename
  get_unique_path _ dir file ext := example_make_filename dir none file ext
  get_unique_dir w dir file :=
    ((match dir with
      | some p => p ++ ['/']
      | none => []) ++ file, w)
  write_cue_sheet w _ _ _ := w
  mkdir_wrap w _ := w
  stat_is_dir _ _ := true
  sacd_open _ _ := some (3000000, example_disc)
  sacd_get_total_sectors r := r.1
  scarletbook_open r := some r.2

/-- The options with which `main` plans for the command line
`sacd_extract -t 1,5,13 -s`: the result of `parse_options`, with the two-channel
default applied. -/
def example_track_opts : opts_s :=
  default_channel (parse_options init [⟨'t', "1,5,13".toList⟩, ⟨'s', []⟩] none).2

/-- A disc with a two-channel area only (index 0, 14 tracks, DST coded): there is
no multi-channel area, `mulch_area_idx` is -1. -/
def example_stereo_disc : scarletbook_handle_t where
  twoch_area_idx := 0
  mulch_area_idx := -1
  area _ := { track_count := 14, frame_format := 0 }

/-- Modelled from the spec: the stand-ins of `example_collaborators`, with the
device holding `example_stereo_disc` in an image of 3,000,000 sectors. -/
def example_stereo_collaborators : collaborators Unit (Nat × scarletbook_handle_t) :=
  { example_collaborators with sacd_open := fun _ _ => some (3000000, example_stereo_disc) }

/-! # Theorems -/

/-! ## The splitting loop -/

theorem FAT32_SECTOR_LIMIT_eq : FAT32_SECTOR_LIMIT = 2090000 := by
  unfold FAT32_SECTOR_LIMIT; rfl

theorem split_loop_zero (fp : CString) (i off : Nat) : split_loop fp i off 0 = [] := by
  rw [split_loop]; simp

theorem split_loop_pos (fp : CString) (i off T : Nat) (hT : T ≠ 0) :
    split_loop fp i off T =
      job.RawSectorRange off (min T FAT32_SECTOR_LIMIT) (snprintf 512 (fp ++ '.' :: fmt_03d i))
        "iso".toList ::
      split_loop fp (i + 1) ((off + min T FAT32_SECTOR_LIMIT) % 2 ^ 32)
        (T - min T FAT32_SECTOR_LIMIT) := by
  rw [split_loop]; simp [hT]

/-- The splitting loop in closed form: iteration `k` emits `nth_split_job k`, and
there are `⌈T / FAT32_SECTOR_LIMIT⌉` iterations. -/
theorem split_loop_closed (fp : CString) (T : Nat) : ∀ (i off : Nat), off < 2 ^ 32 →
    split_loop fp i off T =
      (List.range ((T + (FAT32_SECTOR_LIMIT - 1)) / FAT32_SECTOR_LIMIT)).map
        (nth_split_job fp i off T) := by
  have hC := FAT32_SECTOR_LIMIT_eq
  induction T using Nat.strong_induction_on with
  | _ T ih =>
    intro i off hoff
    have hoff2 : off % 2 ^ 32 = off := Nat.mod_eq_of_lt hoff
    by_cases hT : T = 0
    · subst hT
      rw [split_loop_zero]
      have : (0 + (FAT32_SECTOR_LIMIT - 1)) / FAT32_SECTOR_LIMIT = 0 := by
        rw [hC]
      rw [this]; rfl
    · rw [split_loop_pos fp i off T hT]
      have hdec : T - min T FAT32_SECTOR_LIMIT < T := by omega
      rw [ih _ hdec (i + 1) _ (Nat.mod_lt _ (by norm_num))]
      have hn : (T + (FAT32_SECTOR_LIMIT - 1)) / FAT32_SECTOR_LIMIT =
          (T - min T FAT32_SECTOR_LIMIT + (FAT32_SECTOR_LIMIT - 1)) / FAT32_SECTOR_LIMIT + 1 := by
        rw [hC]; omega
      rw [hn, List.range_succ_eq_map, List.map_cons, List.map_map]
      congr 1
      · simp only [nth_split_job, Nat.zero_mul, Nat.add_zero, Nat.sub_zero, hoff2]
      · apply List.map_congr_left
        intro k hk
        rw [List.mem_range] at hk
        have hgt : FAT32_SECTOR_LIMIT < T := by
          by_contra hcon
          rw [hC] at hk hcon
          omega
        have e1 : min T FAT32_SECTOR_LIMIT = FAT32_SECTOR_LIMIT := by omega
        simp only [nth_split_job, Function.comp, e1]
        have a1 : ((off + FAT32_SECTOR_LIMIT) % 2 ^ 32 + k * FAT32_SECTOR_LIMIT) % 2 ^ 32 =
            (off + (k + 1) * FAT32_SECTOR_LIMIT) % 2 ^ 32 := by
          rw [Nat.add_mod, Nat.mod_mod, ← Nat.add_mod]; congr 1; ring
        have a2 : T - FAT32_SECTOR_LIMIT - k * FAT32_SECTOR_LIMIT =
            T - (k + 1) * FAT32_SECTOR_LIMIT := by
          rw [Nat.sub_sub]; congr 1; ring
        have a3 : i + 1 + k = i + (k + 1) := by ring
        rw [a1, a2, a3]

theorem raw_ranges_cons_raw (offset length : Nat) (path kind : CString) (js : List job) :
    raw_ranges (job.RawSectorRange offset length path kind :: js) =
      (offset, length) :: raw_ranges js := rfl

theorem raw_paths_cons_raw (offset length : Nat) (path kind : CString) (js : List job) :
    raw_paths (job.RawSectorRange offset length path kind :: js) = path :: raw_paths js := rfl

/-- The ranges of the splitting loop are non-empty and adjacent, from the start
offset to the start offset plus the sector count. -/
theorem split_loop_covers (fp : CString) (T : Nat) : ∀ (i off : Nat), off + T < 2 ^ 32 →
    covers off (raw_ranges (split_loop fp i off T)) (off + T) = true := by
  have hC := FAT32_SECTOR_LIMIT_eq
  induction T using Nat.strong_induction_on with
  | _ T ih =>
    intro i off hoff
    by_cases hT : T = 0
    · subst hT
      rw [split_loop_zero]
      simp [raw_ranges, covers]
    · rw [split_loop_pos fp i off T hT]
      have hdec : T - min T FAT32_SECTOR_LIMIT < T := by omega
      have hm : (off + min T FAT32_SECTOR_LIMIT) % 2 ^ 32 = off + min T FAT32_SECTOR_LIMIT := by
        apply Nat.mod_eq_of_lt; omega
      have ih2 := ih _ hdec (i + 1) (off + min T FAT32_SECTOR_LIMIT) (by omega)
      have hsum : off + min T FAT32_SECTOR_LIMIT + (T - min T FAT32_SECTOR_LIMIT) = off + T := by
        omega
      rw [hsum] at ih2
      have hpos : 0 < min T FAT32_SECTOR_LIMIT := by omega
      rw [raw_ranges_cons_raw, hm]
      simp only [covers, ih2, hpos, decide_True, Bool.and_self]

/-- The lengths of the jobs of the splitting loop add up to the sector count, and
none exceeds the limit. -/
theorem split_loop_lengths (fp : CString) (T : Nat) : ∀ (i off : Nat),
    ((raw_ranges (split_loop fp i off T)).map Prod.snd).sum = T ∧
    ∀ r ∈ raw_ranges (split_loop fp i off T), r.2 ≤ FAT32_SECTOR_LIMIT := by
  induction T using Nat.strong_induction_on with
  | _ T ih =>
    intro i off
    by_cases hT : T = 0
    · subst hT
      rw [split_loop_zero]
      simp [raw_ranges]
    · rw [split_loop_pos fp i off T hT]
      have hC := FAT32_SECTOR_LIMIT_eq
      have hdec : T - min T FAT32_SECTOR_LIMIT < T := by omega
      obtain ⟨h1, h2⟩ := ih _ hdec (i + 1) ((off + min T FAT32_SECTOR_LIMIT) % 2 ^ 32)
      refine ⟨?_, ?_⟩
      · rw [raw_ranges_cons_raw]
        simp only [List.map_cons, List.sum_cons, h1]
        omega
      · intro r hr
        rw [raw_ranges_cons_raw, List.mem_cons] at hr
        rcases hr with rfl | hr
        · exact Nat.min_le_right _ _
        · exact h2 r hr

/-- The file names of the splitting loop: the job of iteration `k` is named by
`snprintf(musicfilename, 512, "%s.%03d", file_path, i + k)`. -/
theorem split_loop_paths (fp : CString) (T : Nat) (i off : Nat) :
    raw_paths (split_loop fp i off T) =
      (List.range ((T + (FAT32_SECTOR_LIMIT - 1)) / FAT32_SECTOR_LIMIT)).map
        (fun k => snprintf 512 (fp ++ '.' :: fmt_03d (i + k))) := by
  have hC := FAT32_SECTOR_LIMIT_eq
  induction T using Nat.strong_induction_on generalizing i off with
  | _ T ih =>
    by_cases hT : T = 0
    · subst hT
      rw [split_loop_zero]
      have : (0 + (FAT32_SECTOR_LIMIT - 1)) / FAT32_SECTOR_LIMIT = 0 := by
        rw [hC]
      rw [this]; rfl
    · rw [split_loop_pos fp i off T hT]
      have hdec : T - min T FAT32_SECTOR_LIMIT < T := by omega
      have hn : (T + (FAT32_SECTOR_LIMIT - 1)) / FAT32_SECTOR_LIMIT =
          (T - min T FAT32_SECTOR_LIMIT + (FAT32_SECTOR_LIMIT - 1)) / FAT32_SECTOR_LIMIT + 1 := by
        rw [hC]; omega
      rw [raw_paths_cons_raw, ih _ hdec (i + 1), hn, List.range_succ_eq_map, List.map_cons,
        List.map_map]
      congr 1
      apply List.map_congr_left
      intro k _
      simp only [Function.comp]
      have a3 : i + 1 + k = i + (k + 1) := by ring
      rw [a3]

/-! ## Kinds of jobs in the parts of a plan -/

theorem filterMap_none {α β : Type} (f : α → Option β) (l : List α)
    (hl : ∀ x ∈ l, f x = none) : l.filterMap f = [] := by
  induction l with
  | nil => rfl
  | cons x xs ih =>
    have hx : f x = none := hl x (List.mem_cons_self x xs)
    rw [List.filterMap_cons, hx]
    exact ih (fun y hy => hl y (List.mem_cons_of_mem x hy))

theorem cue_loop_is_cue {σ ρ : Type} (E : collaborators σ ρ) (o : opts_s)
    (h : scarletbook_handle_t) (albumdir : CString) (n : Nat) (areas : List Int) :
    ∀ (j : Nat) (w : σ), ∀ x ∈ (cue_loop E o h albumdir n j areas w).1, is_cue x = true := by
  induction areas with
  | nil => intro j w x hx; simp [cue_loop] at hx
  | cons a rest ih =>
    intro j w x hx
    simp only [cue_loop, List.mem_cons] at hx
    rcases hx with rfl | hx
    · rfl
    · exact ih _ _ x hx

theorem track_loop_is_track {σ ρ : Type} (E : collaborators σ ρ) (o : opts_s)
    (h : scarletbook_handle_t) (a : Int) (dir : CString) (c : Int) :
    ∀ x ∈ track_loop E o h a dir c, is_track x = true := by
  intro x hx
  simp only [track_loop, List.mem_filterMap] at hx
  obtain ⟨i, _, hi⟩ := hx
  split at hi
  · simp at hi
  · split at hi
    · simp only [Option.some.injEq] at hi; subst hi; rfl
    · split at hi
      · simp only [Option.some.injEq] at hi; subst hi; rfl
      · simp at hi

theorem track_area_loop_is_track {σ ρ : Type} (E : collaborators σ ρ) (o : opts_s)
    (h : scarletbook_handle_t) (albumdir : CString) (n : Nat) (dir : Option CString) (c : Int)
    (areas : List Int) :
    ∀ (j : Nat) (w : σ), ∀ x ∈ (track_area_loop E o h albumdir n dir c j areas w).1,
      is_track x = true := by
  induction areas with
  | nil => intro j w x hx; simp [track_area_loop] at hx
  | cons a rest ih =>
    intro j w x hx
    simp only [track_area_loop, List.mem_append] at hx
    rcases hx with hx | hx
    · exact track_loop_is_track E o h a _ c x hx
    · exact ih _ _ x hx

theorem edit_master_loop_is_track {σ ρ : Type} (E : collaborators σ ρ) (o : opts_s)
    (h : scarletbook_handle_t) (albumdir : CString) (n : Nat) (w : σ) (areas : List Int) :
    ∀ (j : Nat), ∀ x ∈ edit_master_loop E o h albumdir n w j areas, is_track x = true := by
  induction areas with
  | nil => intro j x hx; simp [edit_master_loop] at hx
  | cons a rest ih =>
    intro j x hx
    simp only [edit_master_loop, List.mem_cons] at hx
    rcases hx with rfl | hx
    · rfl
    · exact ih _ x hx

theorem split_loop_is_raw (fp : CString) (T : Nat) :
    ∀ (i off : Nat), ∀ x ∈ split_loop fp i off T, is_raw x = true := by
  induction T using Nat.strong_induction_on with
  | _ T ih =>
    intro i off x hx
    by_cases hT : T = 0
    · subst hT; rw [split_loop_zero] at hx; simp at hx
    · rw [split_loop_pos fp i off T hT] at hx
      have hC := FAT32_SECTOR_LIMIT_eq
      have hdec : T - min T FAT32_SECTOR_LIMIT < T := by omega
      simp only [List.mem_cons] at hx
      rcases hx with rfl | hx
      · rfl
      · exact ih _ hdec _ _ x hx

theorem raw_ranges_of_not_raw (l : List job) (hl : ∀ x ∈ l, is_raw x = false) :
    raw_ranges l = [] := by
  apply filterMap_none
  intro x hx
  have := hl x hx
  cases x <;> simp_all [is_raw]

theorem raw_paths_of_not_raw (l : List job) (hl : ∀ x ∈ l, is_raw x = false) :
    raw_paths l = [] := by
  apply filterMap_none
  intro x hx
  have := hl x hx
  cases x <;> simp_all [is_raw]

theorem raw_jobs_of_not_raw (l : List job) (hl : ∀ x ∈ l, is_raw x = false) :
    raw_jobs l = [] := by
  unfold raw_jobs
  rw [List.filter_eq_nil_iff]
  intro x hx
  simp [hl x hx]

theorem track_jobs_of_track (l : List job) (hl : ∀ x ∈ l, is_track x = true) :
    track_jobs l = l := by
  unfold track_jobs
  rw [List.filter_eq_self]
  exact hl

theorem track_jobs_of_not_track (l : List job) (hl : ∀ x ∈ l, is_track x = false) :
    track_jobs l = [] := by
  unfold track_jobs
  rw [List.filter_eq_nil_iff]
  intro x hx
  simp [hl x hx]

theorem not_raw_of_cue (x : job) (hx : is_cue x = true) : is_raw x = false := by
  cases x <;> simp_all [is_cue, is_raw]

theorem not_raw_of_track (x : job) (hx : is_track x = true) : is_raw x = false := by
  cases x <;> simp_all [is_track, is_raw]

theorem not_track_of_cue (x : job) (hx : is_cue x = true) : is_track x = false := by
  cases x <;> simp_all [is_cue, is_track]

theorem not_track_of_raw (x : job) (hx : is_raw x = true) : is_track x = false := by
  cases x <;> simp_all [is_raw, is_track]

/-! ## The raw-image branch -/

theorem raw_ranges_append (a b : List job) :
    raw_ranges (a ++ b) = raw_ranges a ++ raw_ranges b := by
  unfold raw_ranges; exact List.filterMap_append _ _ _

theorem raw_paths_append (a b : List job) :
    raw_paths (a ++ b) = raw_paths a ++ raw_paths b := by
  unfold raw_paths; exact List.filterMap_append _ _ _

theorem raw_jobs_append (a b : List job) : raw_jobs (a ++ b) = raw_jobs a ++ raw_jobs b := by
  unfold raw_jobs; exact List.filter_append _ _

theorem track_jobs_append (a b : List job) :
    track_jobs (a ++ b) = track_jobs a ++ track_jobs b := by
  unfold track_jobs; exact List.filter_append _ _

/-- The plan is the cue exports followed by the queue that `plan_queue` fills, the
latter from the file-system state that the cue exports leave. -/
theorem plan_eq {σ ρ : Type} (E : collaborators σ ρ) (SL : Bool) (o : opts_s)
    (h : scarletbook_handle_t) (T : Nat) (w : σ) :
    ∃ (cue : List job) (w1 : σ), (∀ x ∈ cue, is_cue x = true) ∧
      (o.export_cue_sheet = 0 → cue = [] ∧ w1 = w) ∧
      (plan E SL o h T w).1 =
        cue ++ (plan_queue E SL o h (albumdir_of E o h) (select_areas E o h) T w1).1 := by
  by_cases hc : o.export_cue_sheet = 0
  · refine ⟨[], w, by simp, fun _ => ⟨rfl, rfl⟩, ?_⟩
    simp [plan, hc]
  · refine ⟨(cue_loop E o h (albumdir_of E o h) (select_areas E o h).length 0
        (select_areas E o h) w).1, (cue_loop E o h (albumdir_of E o h)
        (select_areas E o h).length 0 (select_areas E o h) w).2, ?_, fun h0 => absurd h0 hc, ?_⟩
    · exact cue_loop_is_cue E o h _ _ _ 0 w
    · simp [plan, hc]

theorem plan_iso_split {σ ρ : Type} (E : collaborators σ ρ) (o : opts_s)
    (h : scarletbook_handle_t) (albumdir : CString) (areas : List Int) (T : Nat) (w : σ)
    (hT : FAT32_SECTOR_LIMIT < T) :
    (plan_iso E true o h albumdir areas T w).1 =
      split_loop (E.make_filename o.output_dir none albumdir "iso".toList) 1 0 T := by
  simp [plan_iso, hT]

theorem plan_iso_single {σ ρ : Type} (E : collaborators σ ρ) (SL : Bool) (o : opts_s)
    (h : scarletbook_handle_t) (albumdir : CString) (areas : List Int) (T : Nat) (w : σ)
    (hT : ¬ (SL = true ∧ FAT32_SECTOR_LIMIT < T)) :
    ∃ tracks : List job, (∀ x ∈ tracks, is_track x = true) ∧
      (¬ (o.concurrent ≠ 0 ∧ (o.output_dsf ≠ 0 ∨ o.output_dsdiff ≠ 0)) → tracks = []) ∧
      (o.concurrent ≠ 0 ∧ (o.output_dsf ≠ 0 ∨ o.output_dsdiff ≠ 0) →
        tracks = (track_area_loop E o h albumdir areas.length o.output_dir_conc 1 0 areas w).1) ∧
      (plan_iso E SL o h albumdir areas T w).1 =
        job.RawSectorRange 0 T (E.get_unique_path w o.output_dir albumdir "iso".toList)
          "iso".toList :: tracks := by
  by_cases hc : o.concurrent ≠ 0 ∧ (o.output_dsf ≠ 0 ∨ o.output_dsdiff ≠ 0)
  · refine ⟨(track_area_loop E o h albumdir areas.length o.output_dir_conc 1 0 areas w).1,
      track_area_loop_is_track E o h albumdir _ _ 1 areas 0 w, fun hn => absurd hc hn,
      fun _ => rfl, ?_⟩
    unfold plan_iso
    rw [if_neg (by simpa using hT), if_pos hc]
  · refine ⟨[], by simp, fun _ => rfl, fun hn => absurd hn hc, ?_⟩
    unfold plan_iso
    rw [if_neg (by simpa using hT), if_neg hc]

/-- The raw-image jobs of a plan with `output_iso` set are those of `plan_iso`. -/
theorem plan_raw_view {σ ρ : Type} (E : collaborators σ ρ) (SL : Bool) (o : opts_s)
    (h : scarletbook_handle_t) (T : Nat) (w : σ) (hiso : o.output_iso ≠ 0) :
    ∃ w1 : σ, (o.export_cue_sheet = 0 → w1 = w) ∧
      raw_ranges (plan E SL o h T w).1 =
        raw_ranges (plan_iso E SL o h (albumdir_of E o h) (select_areas E o h) T w1).1 ∧
      raw_paths (plan E SL o h T w).1 =
        raw_paths (plan_iso E SL o h (albumdir_of E o h) (select_areas E o h) T w1).1 ∧
      raw_jobs (plan E SL o h T w).1 =
        raw_jobs (plan_iso E SL o h (albumdir_of E o h) (select_areas E o h) T w1).1 := by
  obtain ⟨cue, w1, hcue, hw, hp⟩ := plan_eq E SL o h T w
  have hnr : ∀ x ∈ cue, is_raw x = false := fun x hx => not_raw_of_cue x (hcue x hx)
  refine ⟨w1, fun h0 => (hw h0).2, ?_, ?_, ?_⟩
  · rw [hp, raw_ranges_append, raw_ranges_of_not_raw cue hnr, List.nil_append, plan_queue,
      if_pos hiso]
  · rw [hp, raw_paths_append, raw_paths_of_not_raw cue hnr, List.nil_append, plan_queue,
      if_pos hiso]
  · rw [hp, raw_jobs_append, raw_jobs_of_not_raw cue hnr, List.nil_append, plan_queue,
      if_pos hiso]

/-- Lengths and names of the raw-image jobs in the SECTOR_LIMIT build: for every
total sector count `T` the lengths add up to `T` and none exceeds
`FAT32_SECTOR_LIMIT`; when `T` exceeds the limit the job number `k` (from 1) is named
by `snprintf(musicfilename, 512, "%s.%03d", file_path, k)`. -/
theorem raw_split_lengths_and_names {σ ρ : Type} (E : collaborators σ ρ) (o : opts_s)
    (h : scarletbook_handle_t) (T : Nat) (w : σ) (hiso : o.output_iso ≠ 0) :
    ((raw_ranges (plan E true o h T w).1).map Prod.snd).sum = T ∧
    (∀ r ∈ raw_ranges (plan E true o h T w).1, r.2 ≤ FAT32_SECTOR_LIMIT) ∧
    (FAT32_SECTOR_LIMIT < T →
      raw_paths (plan E true o h T w).1 =
        (List.range ((T + (FAT32_SECTOR_LIMIT - 1)) / FAT32_SECTOR_LIMIT)).map
          (fun k => snprintf 512
            (E.make_filename o.output_dir none (albumdir_of E o h) "iso".toList ++
              '.' :: fmt_03d (1 + k)))) := by
  obtain ⟨w1, _, hr, hp, _⟩ := plan_raw_view E true o h T w hiso
  rw [hr, hp]
  by_cases hT : FAT32_SECTOR_LIMIT < T
  · rw [plan_iso_split E o h _ _ T w1 hT]
    exact ⟨(split_loop_lengths _ T 1 0).1, (split_loop_lengths _ T 1 0).2,
      fun _ => split_loop_paths _ T 1 0⟩
  · obtain ⟨tracks, htr, _, _, hsingle⟩ :=
      plan_iso_single E true o h (albumdir_of E o h) (select_areas E o h) T w1 (by simp [hT])
    have hnr : raw_ranges tracks = [] :=
      raw_ranges_of_not_raw tracks (fun x hx => not_raw_of_track x (htr x hx))
    rw [hsingle, raw_ranges_cons_raw, hnr]
    refine ⟨by simp, ?_, fun hgt => absurd hgt hT⟩
    intro r hr
    simp only [List.mem_singleton] at hr
    subst hr
    exact Nat.le_of_not_lt hT

theorem raw_jobs_of_raw (l : List job) (hl : ∀ x ∈ l, is_raw x = true) : raw_jobs l = l := by
  unfold raw_jobs
  rw [List.filter_eq_self]
  exact hl

/-- The raw-image jobs of a SECTOR_LIMIT build for an image above the limit, in
closed form. -/
theorem raw_jobs_split {σ ρ : Type} (E : collaborators σ ρ) (o : opts_s)
    (h : scarletbook_handle_t) (T : Nat) (w : σ) (hiso : o.output_iso ≠ 0)
    (hT : FAT32_SECTOR_LIMIT < T) :
    raw_jobs (plan E true o h T w).1 =
      (List.range ((T + (FAT32_SECTOR_LIMIT - 1)) / FAT32_SECTOR_LIMIT)).map
        (nth_split_job (E.make_filename o.output_dir none (albumdir_of E o h) "iso".toList)
          1 0 T) := by
  obtain ⟨w1, _, _, _, hj⟩ := plan_raw_view E true o h T w hiso
  rw [hj, plan_iso_split E o h _ _ T w1 hT, raw_jobs_of_raw _ (split_loop_is_raw _ T 1 0)]
  exact split_loop_closed _ T 1 0 (by norm_num)

/-- A file path of 511 bytes or more fills the 512-byte buffer: whatever volume
number is formatted after it, `snprintf` leaves the first 511 bytes of the path. -/
theorem snprintf_long_path (fp suffix : CString) (hfp : 511 ≤ fp.length) :
    snprintf 512 (fp ++ suffix) = fp.take 511 := by
  unfold snprintf
  exact List.take_append_of_le_length hfp

/-- The claim's own example, on a path that fits the buffer: 3,000,000 sectors
give the volumes `Album.iso.001` (2,090,000 sectors) and `Album.iso.002`
(910,000 sectors). -/
theorem raw_split_example :
    raw_jobs (main example_collaborators true [⟨'I', []⟩] none ()).1 =
      [job.RawSectorRange 0 2090000 "Album.iso.001".toList "iso".toList,
       job.RawSectorRange 2090000 910000 "Album.iso.002".toList "iso".toList] := by
  have h1 : (main example_collaborators true [⟨'I', []⟩] none ()).1 =
      (plan example_collaborators true { init with output_iso := 1, two_channel := 1 }
        example_disc 3000000 ()).1 := rfl
  rw [h1, raw_jobs_split example_collaborators _ example_disc 3000000 () (by decide)
    (by rw [FAT32_SECTOR_LIMIT_eq]; decide)]
  unfold nth_split_job
  simp only [FAT32_SECTOR_LIMIT_eq]
  decide

set_option maxRecDepth 100000 in
/-- C1 (code defect): in the SECTOR_LIMIT build, `sacd_extract -I -o DIR` with an
output directory `DIR` of 507 bytes on a disc of 3,000,000 sectors enqueues two
raw-image jobs of 2,090,000 and 910,000 sectors whose file names are equal: both
are the first 511 bytes of `DIR/Album.iso`, since `snprintf` cuts the text at the
size of the 512-byte buffer, so neither carries the suffix `.001` or `.002`. -/
theorem split_names_lost_on_long_path :
    raw_jobs (main example_collaborators true
        [⟨'I', []⟩, ⟨'o', List.replicate 507 'd'⟩] none ()).1 =
      [job.RawSectorRange 0 2090000 (List.replicate 507 'd' ++ "/Alb".toList) "iso".toList,
       job.RawSectorRange 2090000 910000 (List.replicate 507 'd' ++ "/Alb".toList)
         "iso".toList] := by
  have h1 : (main example_collaborators true
        [⟨'I', []⟩, ⟨'o', List.replicate 507 'd'⟩] none ()).1 =
      (plan example_collaborators true
        { init with output_iso := 1, output_dir := some (List.replicate 507 'd'),
                    two_channel := 1 }
        example_disc 3000000 ()).1 := rfl
  rw [h1, raw_jobs_split example_collaborators _ example_disc 3000000 () (by decide)
    (by rw [FAT32_SECTOR_LIMIT_eq]; decide)]
  unfold nth_split_job
  simp only [FAT32_SECTOR_LIMIT_eq]
  decide

/-- C2: raw-image splitting in the SECTOR_LIMIT build covers the image exactly.  For a
32-bit sector count `T` above `FAT32_SECTOR_LIMIT` the loop ends and the raw-image
job number `k` (from 0 here, so `k + 1` in the numbering from 1) has offset
`k * FAT32_SECTOR_LIMIT` and length `min (T - k * FAT32_SECTOR_LIMIT) FAT32_SECTOR_LIMIT`;
there are `⌈T / FAT32_SECTOR_LIMIT⌉` jobs; their ranges are non-empty and
adjacent, the first starts at sector 0 and the last ends at sector `T`.  For
`T` up to the limit (the limit included) there is exactly one raw-image job, with
offset 0 and length `T`, and its name is the path `get_unique_path` returns for
the album name and the extension `iso`, with no volume number appended. -/
theorem raw_split_covers_image {σ ρ : Type} (E : collaborators σ ρ) (o : opts_s)
    (h : scarletbook_handle_t) (T : Nat) (w : σ) (hiso : o.output_iso ≠ 0)
    (hT : T < 2 ^ 32) :
    (FAT32_SECTOR_LIMIT < T →
      raw_ranges (plan E true o h T w).1 =
        (List.range ((T + (FAT32_SECTOR_LIMIT - 1)) / FAT32_SECTOR_LIMIT)).map
          (fun k => (k * FAT32_SECTOR_LIMIT,
            min (T - k * FAT32_SECTOR_LIMIT) FAT32_SECTOR_LIMIT)) ∧
      (raw_ranges (plan E true o h T w).1).length =
        (T + (FAT32_SECTOR_LIMIT - 1)) / FAT32_SECTOR_LIMIT ∧
      ((T + (FAT32_SECTOR_LIMIT - 1)) / FAT32_SECTOR_LIMIT - 1) * FAT32_SECTOR_LIMIT < T ∧
      T ≤ (T + (FAT32_SECTOR_LIMIT - 1)) / FAT32_SECTOR_LIMIT * FAT32_SECTOR_LIMIT ∧
      covers 0 (raw_ranges (plan E true o h T w).1) T = true) ∧
    (T ≤ FAT32_SECTOR_LIMIT →
      ∃ w1 : σ, raw_jobs (plan E true o h T w).1 =
        [job.RawSectorRange 0 T
          (E.get_unique_path w1 o.output_dir (albumdir_of E o h) "iso".toList)
          "iso".toList]) := by
  have hC := FAT32_SECTOR_LIMIT_eq
  obtain ⟨w1, _, hr, _, hj⟩ := plan_raw_view E true o h T w hiso
  constructor
  · intro hgt
    have hform : raw_ranges (plan E true o h T w).1 =
        (List.range ((T + (FAT32_SECTOR_LIMIT - 1)) / FAT32_SECTOR_LIMIT)).map
          (fun k => (k * FAT32_SECTOR_LIMIT,
            min (T - k * FAT32_SECTOR_LIMIT) FAT32_SECTOR_LIMIT)) := by
      rw [hr, plan_iso_split E o h _ _ T w1 hgt, split_loop_closed _ T 1 0 (by norm_num)]
      unfold raw_ranges
      rw [List.filterMap_map]
      rw [← List.filterMap_eq_map]
      apply List.filterMap_congr
      intro k hk
      rw [List.mem_range] at hk
      have hk2 : (0 + k * FAT32_SECTOR_LIMIT) % 2 ^ 32 = k * FAT32_SECTOR_LIMIT := by
        rw [hC] at hk ⊢
        omega
      simp only [Function.comp, nth_split_job, hk2]
    refine ⟨hform, ?_, ?_, ?_, ?_⟩
    · rw [hform, List.length_map, List.length_range]
    · rw [hC] at hgt ⊢; omega
    · rw [hC]; omega
    · rw [hr, plan_iso_split E o h _ _ T w1 hgt]
      have := split_loop_covers (E.make_filename o.output_dir none (albumdir_of E o h)
        "iso".toList) T 1 0 (by omega)
      simpa using this
  · intro hle
    obtain ⟨tracks, htr, _, _, hsingle⟩ :=
      plan_iso_single E true o h (albumdir_of E o h) (select_areas E o h) T w1
        (by simp only [not_and, not_lt]; exact fun _ => hle)
    refine ⟨w1, ?_⟩
    rw [hj, hsingle]
    have hnr : raw_jobs tracks = [] :=
      raw_jobs_of_not_raw tracks (fun x hx => not_raw_of_track x (htr x hx))
    have : raw_jobs (job.RawSectorRange 0 T (E.get_unique_path w1 o.output_dir
        (albumdir_of E o h) "iso".toList) "iso".toList :: tracks) =
        job.RawSectorRange 0 T (E.get_unique_path w1 o.output_dir
        (albumdir_of E o h) "iso".toList) "iso".toList :: raw_jobs tracks := by
      unfold raw_jobs
      rw [List.filter_cons_of_pos]
      rfl
    rw [this, hnr]

/-- Instance of C2 at a disc of 3,000,000 sectors read with `-I`. -/
theorem raw_split_covers_image_witness :
    ({ init with output_iso := 1 } : opts_s).output_iso ≠ 0 ∧ 3000000 < 2 ^ 32 ∧
    ((FAT32_SECTOR_LIMIT < 3000000 →
      raw_ranges (plan example_collaborators true { init with output_iso := 1 } example_disc
          3000000 ()).1 =
        (List.range ((3000000 + (FAT32_SECTOR_LIMIT - 1)) / FAT32_SECTOR_LIMIT)).map
          (fun k => (k * FAT32_SECTOR_LIMIT,
            min (3000000 - k * FAT32_SECTOR_LIMIT) FAT32_SECTOR_LIMIT)) ∧
      (raw_ranges (plan example_collaborators true { init with output_iso := 1 } example_disc
          3000000 ()).1).length =
        (3000000 + (FAT32_SECTOR_LIMIT - 1)) / FAT32_SECTOR_LIMIT ∧
      ((3000000 + (FAT32_SECTOR_LIMIT - 1)) / FAT32_SECTOR_LIMIT - 1) * FAT32_SECTOR_LIMIT
        < 3000000 ∧
      3000000 ≤ (3000000 + (FAT32_SECTOR_LIMIT - 1)) / FAT32_SECTOR_LIMIT * FAT32_SECTOR_LIMIT ∧
      covers 0 (raw_ranges (plan example_collaborators true { init with output_iso := 1 }
          example_disc 3000000 ()).1) 3000000 = true) ∧
    (3000000 ≤ FAT32_SECTOR_LIMIT →
      ∃ w1 : Unit, raw_jobs (plan example_collaborators true { init with output_iso := 1 }
          example_disc 3000000 ()).1 =
        [job.RawSectorRange 0 3000000
          (example_collaborators.get_unique_path w1 ({ init with output_iso := 1 } : opts_s).output_dir
            (albumdir_of example_collaborators { init with output_iso := 1 } example_disc)
            "iso".toList)
          "iso".toList])) :=
  ⟨by decide, by norm_num,
    raw_split_covers_image example_collaborators { init with output_iso := 1 } example_disc
      3000000 () (by decide) (by norm_num)⟩

/-! ## Track selection (`case 't'`) -/

/-- The mask `& 0xff` on a 32-bit `int` is the reduction modulo 256 to the range 0..255. -/
theorem and_0xff_eq (x : Int) : and_0xff x = (x % 256).toNat := by
  unfold and_0xff
  rw [show (0xff : Nat) = 2 ^ 8 - 1 from rfl, Nat.and_pow_two_sub_one_eq_mod]
  omega

theorem and_0xff_lt (x : Int) : and_0xff x < 256 := by
  rw [and_0xff_eq]; omega

theorem select_track_loop_nil (s : List Nat × Int) : select_track_loop [] s = s := by
  cases s; rfl

theorem select_track_loop_cons (t : CString) (rest : List CString) (sel : List Nat)
    (count : Int) :
    select_track_loop (t :: rest) (sel, count) =
      if atoi t = 0 then select_track_loop rest (sel, count)
      else select_track_loop rest (sel.set (and_0xff (atoi t - 1)) 1, count + 1) := rfl

theorem getD_set_eq (l : List Nat) (m i : Nat) (v : Nat) :
    (l.set m v).getD i 0 = if m = i ∧ i < l.length then v else l.getD i 0 := by
  simp only [List.getD_eq_getElem?_getD, List.getElem?_set]
  by_cases h1 : m = i
  · by_cases h2 : i < l.length
    · simp [h1, h2]
    · simp [h1, h2, List.getElem?_eq_none (Nat.le_of_not_lt h2)]
  · simp [h1]

/-- What the token loop of `case 't'` computes, for any tokens and any start:
the array keeps its length, the flag at `i` becomes 1 when a token with non-zero
value has index `i`, every other flag is unchanged, and `count` grows by the
number of tokens with non-zero value. -/
theorem select_track_loop_spec (toks : List CString) :
    ∀ (sel : List Nat) (count : Int),
      (select_track_loop toks (sel, count)).1.length = sel.length ∧
      (select_track_loop toks (sel, count)).2 =
        count + ((toks.filter (fun t => decide (atoi t ≠ 0))).length : Int) ∧
      ∀ i : Nat, (select_track_loop toks (sel, count)).1.getD i 0 =
        if i < sel.length ∧ ∃ t ∈ toks, atoi t ≠ 0 ∧ and_0xff (atoi t - 1) = i then 1
        else sel.getD i 0 := by
  induction toks with
  | nil =>
    intro sel count
    simp [select_track_loop_nil]
  | cons t rest ih =>
    intro sel count
    rw [select_track_loop_cons]
    by_cases h0 : atoi t = 0
    · rw [if_pos h0]
      obtain ⟨h1, h2, h3⟩ := ih sel count
      refine ⟨h1, ?_, ?_⟩
      · rw [h2]; simp [h0]
      · intro i
        rw [h3 i]
        simp [h0]
    · rw [if_neg h0]
      obtain ⟨h1, h2, h3⟩ := ih (sel.set (and_0xff (atoi t - 1)) 1) (count + 1)
      refine ⟨by rw [h1, List.length_set], ?_, ?_⟩
      · rw [h2]; simp [h0]; ring
      · intro i
        rw [h3 i, List.length_set, getD_set_eq]
        by_cases hi : i < sel.length
        · by_cases hx : ∃ t' ∈ rest, atoi t' ≠ 0 ∧ and_0xff (atoi t' - 1) = i
          · have hx2 : ∃ t' ∈ t :: rest, atoi t' ≠ 0 ∧ and_0xff (atoi t' - 1) = i := by
              obtain ⟨t', ht', hh⟩ := hx
              exact ⟨t', List.mem_cons_of_mem _ ht', hh⟩
            rw [if_pos ⟨hi, hx⟩, if_pos ⟨hi, hx2⟩]
          · rw [if_neg (fun hh => hx hh.2)]
            by_cases ht : and_0xff (atoi t - 1) = i
            · rw [if_pos ⟨ht, hi⟩, if_pos ⟨hi, t, List.mem_cons_self _ _, h0, ht⟩]
            · rw [if_neg (fun hh => ht hh.1)]
              rw [if_neg]
              rintro ⟨_, t', ht', hh1, hh2⟩
              rcases List.mem_cons.mp ht' with rfl | hmem
              · exact ht hh2
              · exact hx ⟨t', hmem, hh1, hh2⟩
        · rw [if_neg (fun hh => hi hh.1), if_neg (fun hh => hi hh.2), if_neg (fun hh => hi hh.1)]

set_option maxRecDepth 100000 in
/-- C3: the `-t` case of `parse_options`.  For every list of tokens and every state of
the 256-entry array: a token whose value `atoi` is 0 (zero or not a number)
changes neither the array nor `count`; a token with value `n ≠ 0` sets the flag at
index `(n - 1) mod 256`, which is below 256 and so inside the array, changes no
other flag and adds one to `count`; after the loop the array still has 256
entries, the flags set are those set before together with the indices
`(n - 1) mod 256` of the tokens with `n ≠ 0`, and `count` has grown by the number
of these tokens.  The option argument `1,5,13` on the initial options sets the
flags 0, 4 and 12 and no other. -/
theorem track_selection_parsing (toks : List CString) (sel : List Nat) (count : Int)
    (hlen : sel.length = 256) :
    (∀ t : CString, atoi t = 0 → select_track_loop [t] (sel, count) = (sel, count)) ∧
    (∀ t : CString, atoi t ≠ 0 →
      ((atoi t - 1) % 256).toNat < sel.length ∧
      select_track_loop [t] (sel, count) = (sel.set ((atoi t - 1) % 256).toNat 1, count + 1) ∧
      ∀ i : Nat, (sel.set ((atoi t - 1) % 256).toNat 1).getD i 0 =
        if i = ((atoi t - 1) % 256).toNat then 1 else sel.getD i 0) ∧
    (select_track_loop toks (sel, count)).1.length = 256 ∧
    (∀ i : Nat, i < 256 →
      ((select_track_loop toks (sel, count)).1.getD i 0 ≠ 0 ↔
        sel.getD i 0 ≠ 0 ∨ ∃ t ∈ toks, atoi t ≠ 0 ∧ i = ((atoi t - 1) % 256).toNat)) ∧
    (select_track_loop toks (sel, count)).2 =
      count + ((toks.filter (fun t => decide (atoi t ≠ 0))).length : Int) ∧
    (∀ (o : opts_s) (optarg : CString),
      (parse_options_case o 't' optarg).selected_tracks =
        (select_track_loop (strtok_all [' ', ','] optarg []) (o.selected_tracks, 0)).1) ∧
    strtok_all [' ', ','] "1,5,13".toList [] = ["1".toList, "5".toList, "13".toList] ∧
    (List.range 256).filter
      (fun i => decide ((parse_options_case init 't' "1,5,13".toList).selected_tracks.getD i 0 ≠ 0))
      = [0, 4, 12] := by
  refine ⟨?_, ?_, ?_, ?_, ?_, ?_, by decide, by decide⟩
  · intro t ht
    rw [select_track_loop_cons, if_pos ht, select_track_loop_nil]
  · intro t ht
    have hidx : and_0xff (atoi t - 1) = ((atoi t - 1) % 256).toNat := and_0xff_eq _
    refine ⟨by rw [hlen]; omega, ?_, ?_⟩
    · rw [select_track_loop_cons, if_neg ht, select_track_loop_nil, hidx]
    · intro i
      rw [getD_set_eq]
      by_cases hi : i = ((atoi t - 1) % 256).toNat
      · rw [if_pos hi, if_pos ⟨hi.symm, by rw [hlen]; omega⟩]
      · rw [if_neg hi, if_neg (fun hh => hi hh.1.symm)]
  · rw [(select_track_loop_spec toks sel count).1, hlen]
  · intro i hi
    rw [(select_track_loop_spec toks sel count).2.2 i]
    by_cases hx : ∃ t ∈ toks, atoi t ≠ 0 ∧ and_0xff (atoi t - 1) = i
    · rw [if_pos ⟨by rw [hlen]; exact hi, hx⟩]
      obtain ⟨t, ht, h1, h2⟩ := hx
      simp only [ne_eq, one_ne_zero, not_false_eq_true, true_iff]
      exact Or.inr ⟨t, ht, h1, by rw [← h2, and_0xff_eq]⟩
    · rw [if_neg (fun hh => hx hh.2)]
      constructor
      · intro h; exact Or.inl h
      · rintro (h | ⟨t, ht, h1, h2⟩)
        · exact h
        · exact absurd ⟨t, ht, h1, by rw [h2, and_0xff_eq]⟩ hx
  · exact (select_track_loop_spec toks sel count).2.1
  · intro o optarg
    simp [parse_options_case, parse_select_track]

set_option maxRecDepth 100000 in
/-- Instance of C3 at the tokens of `1,5,13` on the cleared array. -/
theorem track_selection_parsing_witness :
    (List.replicate 256 0).length = 256 ∧
    (select_track_loop ["1".toList, "5".toList, "13".toList] (List.replicate 256 0, 0)).2 =
      0 + ((["1".toList, "5".toList, "13".toList].filter
        (fun t => decide (atoi t ≠ 0))).length : Int) :=
  ⟨by decide,
    (track_selection_parsing ["1".toList, "5".toList, "13".toList] (List.replicate 256 0) 0
      (by decide)).2.2.2.2.1⟩

/-! ## Invariants of `parse_options` -/

/-- Case analysis on the `switch` of `parse_options`: a property that holds of the
options each case leaves holds of the result; `case 't'` is only reached with
`opt = 't'`. -/
theorem parse_options_case_cases (P : opts_s → Prop) (o : opts_s) (opt : Char)
    (optarg : CString)
    (h_2 : P { o with two_channel := 1 })
    (h_m : P { o with multi_channel := 1 })
    (h_e : P { o with output_dsdiff_em := 1, output_dsdiff := 0, output_dsf := 0,
                      output_iso := 0, export_cue_sheet := 1 })
    (h_p : P { o with output_dsdiff_em := 0, output_dsdiff := 1, output_dsf := 0 })
    (h_s : P { o with output_dsdiff_em := 0, output_dsdiff := 0, output_dsf := 1 })
    (h_t : opt = 't' → P (parse_select_track o optarg))
    (h_z : P { o with dsf_nopad := 1 })
    (h_I : P { o with output_dsdiff_em := 0, output_iso := 1 })
    (h_w : P { o with concurrent := 1 })
    (h_c : P { o with convert_dst := 1 })
    (h_C : P { o with export_cue_sheet := 1 })
    (h_i : P { o with input_device := some optarg })
    (h_o : P { o with output_dir := some optarg })
    (h_y : P { o with output_dir_conc := some optarg })
    (h_P : P { o with print := 1 })
    (h_v : P { o with version := 1 })
    (h_other : P o) : P (parse_options_case o opt optarg) := by
  unfold parse_options_case
  by_cases c_2 : opt = '2'
  · rw [if_pos c_2]; exact h_2
  rw [if_neg c_2]
  by_cases c_m : opt = 'm'
  · rw [if_pos c_m]; exact h_m
  rw [if_neg c_m]
  by_cases c_e : opt = 'e'
  · rw [if_pos c_e]; exact h_e
  rw [if_neg c_e]
  by_cases c_p : opt = 'p'
  · rw [if_pos c_p]; exact h_p
  rw [if_neg c_p]
  by_cases c_s : opt = 's'
  · rw [if_pos c_s]; exact h_s
  rw [if_neg c_s]
  by_cases c_t : opt = 't'
  · rw [if_pos c_t]; exact h_t c_t
  rw [if_neg c_t]
  by_cases c_z : opt = 'z'
  · rw [if_pos c_z]; exact h_z
  rw [if_neg c_z]
  by_cases c_I : opt = 'I'
  · rw [if_pos c_I]; exact h_I
  rw [if_neg c_I]
  by_cases c_w : opt = 'w'
  · rw [if_pos c_w]; exact h_w
  rw [if_neg c_w]
  by_cases c_c : opt = 'c'
  · rw [if_pos c_c]; exact h_c
  rw [if_neg c_c]
  by_cases c_C : opt = 'C'
  · rw [if_pos c_C]; exact h_C
  rw [if_neg c_C]
  by_cases c_i : opt = 'i'
  · rw [if_pos c_i]; exact h_i
  rw [if_neg c_i]
  by_cases c_o : opt = 'o'
  · rw [if_pos c_o]; exact h_o
  rw [if_neg c_o]
  by_cases c_y : opt = 'y'
  · rw [if_pos c_y]; exact h_y
  rw [if_neg c_y]
  by_cases c_P : opt = 'P'
  · rw [if_pos c_P]; exact h_P
  rw [if_neg c_P]
  by_cases c_v : opt = 'v'
  · rw [if_pos c_v]; exact h_v
  rw [if_neg c_v]
  exact h_other

theorem parse_options_case_modes (o : opts_s) (opt : Char) (optarg : CString)
    (ho : mode_invariant o) : mode_invariant (parse_options_case o opt optarg) := by
  unfold mode_invariant at ho
  obtain ⟨h1, h2⟩ := ho
  apply parse_options_case_cases mode_invariant <;> unfold mode_invariant <;>
    try unfold parse_select_track
  all_goals (try intro _)
  all_goals (try dsimp only)
  all_goals omega

theorem parse_options_loop_modes (args : List getopt_result) :
    ∀ o : opts_s, mode_invariant o → mode_invariant (parse_options_loop o args).2 := by
  induction args with
  | nil => intro o ho; exact ho
  | cons r rest ih =>
    intro o ho
    unfold parse_options_loop
    split_ifs
    · exact ho
    · exact ih _ (parse_options_case_modes o r.opt r.optarg ho)

theorem parse_options_modes (o : opts_s) (args : List getopt_result)
    (remaining_arg : Option CString) (ho : mode_invariant o) :
    mode_invariant (parse_options o args remaining_arg).2 := by
  have hl := parse_options_loop_modes args o ho
  unfold parse_options
  dsimp only
  split_ifs
  · exact hl
  · cases remaining_arg with
    | none => exact hl
    | some a => exact hl

/-- C7: output-mode exclusivity after option parsing.  Starting from the defaults of
`init`, after `parse_options` has processed any sequence of options in any
order (whether it returns 1 or, on a help or usage option, 0): at most one of
`output_dsdiff_em`, `output_dsdiff` and `output_dsf` is set, and if
`output_dsdiff_em` is set then `export_cue_sheet` is set and `output_iso`,
`output_dsdiff` and `output_dsf` are clear. -/
theorem output_mode_exclusive (args : List getopt_result) (remaining_arg : Option CString) :
    ((parse_options init args remaining_arg).2.output_dsdiff_em = 0 ∧
        (parse_options init args remaining_arg).2.output_dsdiff = 0 ∨
      (parse_options init args remaining_arg).2.output_dsdiff_em = 0 ∧
        (parse_options init args remaining_arg).2.output_dsf = 0 ∨
      (parse_options init args remaining_arg).2.output_dsdiff = 0 ∧
        (parse_options init args remaining_arg).2.output_dsf = 0) ∧
    ((parse_options init args remaining_arg).2.output_dsdiff_em ≠ 0 →
      (parse_options init args remaining_arg).2.export_cue_sheet ≠ 0 ∧
      (parse_options init args remaining_arg).2.output_iso = 0 ∧
      (parse_options init args remaining_arg).2.output_dsdiff = 0 ∧
      (parse_options init args remaining_arg).2.output_dsf = 0) := by
  have hi : mode_invariant init := by
    unfold mode_invariant init
    simp
  have h := parse_options_modes init args remaining_arg hi
  unfold mode_invariant at h
  exact h

/-! ## Track jobs -/

/-- The job that the track loop enqueues for track `i` of area `a` when the track is
not skipped. -/
theorem track_loop_mem {σ ρ : Type} (E : collaborators σ ρ) (o : opts_s)
    (h : scarletbook_handle_t) (a : Int) (dir : CString) (c : Int) (x : job)
    (hx : x ∈ track_loop E o h a dir c) :
    ∃ i : Nat, i < (h.area a).track_count ∧
      (o.select_tracks = 0 ∨ o.selected_tracks.getD i 0 ≠ 0) ∧
      ((o.output_dsf ≠ 0 ∧
          x = job.TrackTranscode a i
            (E.make_filename (some dir) none (E.get_music_filename h a i o.output_file)
              "dsf".toList) "dsf".toList 1 (pad_arg o) c) ∨
       (o.output_dsf = 0 ∧ o.output_dsdiff ≠ 0 ∧
          x = job.TrackTranscode a i
            (E.make_filename (some dir) none (E.get_music_filename h a i o.output_file)
              "dff".toList) "dsdiff".toList (decode_arg E o h a) 0 c)) := by
  simp only [track_loop, List.mem_filterMap, List.mem_range] at hx
  obtain ⟨i, hi, hx⟩ := hx
  refine ⟨i, hi, ?_⟩
  by_cases hs : o.select_tracks ≠ 0 ∧ o.selected_tracks.getD i 0 = 0
  · rw [if_pos hs] at hx; exact absurd hx (by simp)
  · rw [if_neg hs] at hx
    refine ⟨by omega, ?_⟩
    by_cases hd : o.output_dsf ≠ 0
    · rw [if_pos hd] at hx
      exact Or.inl ⟨hd, (Option.some.inj hx).symm⟩
    · rw [if_neg hd] at hx
      by_cases hp : o.output_dsdiff ≠ 0
      · rw [if_pos hp] at hx
        exact Or.inr ⟨by omega, hp, (Option.some.inj hx).symm⟩
      · rw [if_neg hp] at hx; exact absurd hx (by simp)

theorem filterMap_ite_eq {α β : Type} (p : α → Bool) (g : α → β) (l : List α) :
    l.filterMap (fun x => if p x = true then some (g x) else none) = (l.filter p).map g := by
  induction l with
  | nil => rfl
  | cons x xs ih =>
    by_cases hp : p x = true
    · rw [List.filterMap_cons, if_pos hp, List.filter_cons_of_pos hp, List.map_cons, ih]
    · rw [List.filterMap_cons, if_neg hp, List.filter_cons_of_neg hp, ih]

/-- The tracks for which the track loop enqueues a job: in ascending order, those
with `select_tracks` clear or their flag set. -/
theorem track_ids_track_loop {σ ρ : Type} (E : collaborators σ ρ) (o : opts_s)
    (h : scarletbook_handle_t) (a : Int) (dir : CString) (c : Int)
    (hfmt : o.output_dsf ≠ 0 ∨ o.output_dsdiff ≠ 0) :
    track_ids (track_loop E o h a dir c) =
      ((List.range (h.area a).track_count).filter
        (fun i => decide (o.select_tracks = 0 ∨ o.selected_tracks.getD i 0 ≠ 0))).map
        (fun i => (a, i)) := by
  unfold track_ids track_loop
  rw [List.filterMap_filterMap, ← filterMap_ite_eq]
  apply List.filterMap_congr
  intro i _
  by_cases hs : o.select_tracks ≠ 0 ∧ o.selected_tracks.getD i 0 = 0
  · have hq : ¬ (o.select_tracks = 0 ∨ o.selected_tracks.getD i 0 ≠ 0) := by omega
    rw [if_pos hs, decide_eq_false hq]
    rfl
  · have hq : o.select_tracks = 0 ∨ o.selected_tracks.getD i 0 ≠ 0 := by omega
    rw [if_neg hs, decide_eq_true hq, if_pos rfl]
    by_cases hd : o.output_dsf ≠ 0
    · rw [if_pos hd]; rfl
    · rw [if_neg hd]
      have hp : o.output_dsdiff ≠ 0 := by
        rcases hfmt with h1 | h1
        · exact absurd h1 hd
        · exact h1
      rw [if_pos hp]; rfl

theorem track_ids_append (a b : List job) :
    track_ids (a ++ b) = track_ids a ++ track_ids b := by
  unfold track_ids; exact List.filterMap_append _ _ _

theorem track_ids_of_not_track (l : List job) (hl : ∀ x ∈ l, is_track x = false) :
    track_ids l = [] := by
  apply filterMap_none
  intro x hx
  have := hl x hx
  cases x <;> simp_all [is_track]

theorem track_ids_track_area_loop {σ ρ : Type} (E : collaborators σ ρ) (o : opts_s)
    (h : scarletbook_handle_t) (albumdir : CString) (n : Nat) (dir : Option CString) (c : Int)
    (hfmt : o.output_dsf ≠ 0 ∨ o.output_dsdiff ≠ 0) (areas : List Int) :
    ∀ (j : Nat) (w : σ),
      track_ids (track_area_loop E o h albumdir n dir c j areas w).1 =
        areas.flatMap (fun a =>
          ((List.range (h.area a).track_count).filter
            (fun i => decide (o.select_tracks = 0 ∨ o.selected_tracks.getD i 0 ≠ 0))).map
            (fun i => (a, i))) := by
  induction areas with
  | nil => intro j w; rfl
  | cons a rest ih =>
    intro j w
    simp only [track_area_loop, List.flatMap_cons]
    rw [track_ids_append, ih, track_ids_track_loop E o h a _ c hfmt]

/-- Every job of the loop over the areas comes from the track loop of one area
`areas[k]`, run on the directory that `get_unique_dir` returned for the album name
with the qualifier of position `j + k`. -/
theorem track_area_loop_mem {σ ρ : Type} (E : collaborators σ ρ) (o : opts_s)
    (h : scarletbook_handle_t) (albumdir : CString) (n : Nat) (dir : Option CString) (c : Int)
    (areas : List Int) :
    ∀ (j : Nat) (w : σ) (x : job),
      x ∈ (track_area_loop E o h albumdir n dir c j areas w).1 →
      ∃ (k : Nat) (a : Int) (w1 : σ), areas[k]? = some a ∧
        x ∈ track_loop E o h a (E.get_unique_dir w1 dir (albumdir_loc albumdir n (j + k))).1
          c := by
  induction areas with
  | nil => intro j w x hx; simp [track_area_loop] at hx
  | cons a rest ih =>
    intro j w x hx
    simp only [track_area_loop, List.mem_append] at hx
    rcases hx with hx | hx
    · refine ⟨0, a, w, by simp, ?_⟩
      rw [Nat.add_zero]; exact hx
    · obtain ⟨k, a1, w1, hk, hmem⟩ := ih _ _ x hx
      refine ⟨k + 1, a1, w1, by simpa using hk, ?_⟩
      have e : j + (k + 1) = j + 1 + k := by ring
      rw [e]; exact hmem

theorem track_jobs_cons_raw (offset length : Nat) (path kind : CString) (js : List job) :
    track_jobs (job.RawSectorRange offset length path kind :: js) = track_jobs js := rfl

/-- The track jobs of a plan are those of the queue-filling chain. -/
theorem plan_track_view {σ ρ : Type} (E : collaborators σ ρ) (SL : Bool) (o : opts_s)
    (h : scarletbook_handle_t) (T : Nat) (w : σ) :
    ∃ w1 : σ, (o.export_cue_sheet = 0 → w1 = w) ∧
      track_jobs (plan E SL o h T w).1 =
        track_jobs (plan_queue E SL o h (albumdir_of E o h) (select_areas E o h) T w1).1 := by
  obtain ⟨cue, w1, hcue, hw, hp⟩ := plan_eq E SL o h T w
  refine ⟨w1, fun h0 => (hw h0).2, ?_⟩
  rw [hp, track_jobs_append,
    track_jobs_of_not_track cue (fun x hx => not_track_of_cue x (hcue x hx)), List.nil_append]

/-- In either per-track branch the track jobs of the plan are the result of the
loop over the areas: with `opts.output_dir` and last argument 0 in the
non-concurrent branch, with `opts.output_dir_conc` and last argument 1 in the
concurrent branch. -/
theorem plan_per_track {σ ρ : Type} (E : collaborators σ ρ) (SL : Bool) (o : opts_s)
    (h : scarletbook_handle_t) (T : Nat) (w : σ)
    (hfmt : o.output_dsf ≠ 0 ∨ o.output_dsdiff ≠ 0)
    (hbranch : (o.output_iso = 0 ∧ o.output_dsdiff_em = 0) ∨
      (o.output_iso ≠ 0 ∧ o.concurrent ≠ 0 ∧ ¬ (SL = true ∧ FAT32_SECTOR_LIMIT < T))) :
    ∃ w1 : σ, track_jobs (plan E SL o h T w).1 =
      (track_area_loop E o h (albumdir_of E o h) (select_areas E o h).length
        (if o.output_iso ≠ 0 then o.output_dir_conc else o.output_dir)
        (if o.output_iso ≠ 0 then 1 else 0) 0 (select_areas E o h) w1).1 := by
  obtain ⟨w1, _, hv⟩ := plan_track_view E SL o h T w
  refine ⟨w1, ?_⟩
  rw [hv]
  rcases hbranch with ⟨hiso, hem⟩ | ⟨hiso, hconc, hsplit⟩
  · have h1 : ¬ o.output_iso ≠ 0 := by omega
    have h2 : ¬ o.output_dsdiff_em ≠ 0 := by omega
    have h3 : ¬ (o.output_iso ≠ 0 ∧ o.concurrent ≠ 0) ∧
        (o.output_dsf ≠ 0 ∨ o.output_dsdiff ≠ 0) := ⟨fun hh => h1 hh.1, hfmt⟩
    unfold plan_queue
    rw [if_neg h1, if_neg h2, if_pos h3, if_neg h1, if_neg h1]
    exact track_jobs_of_track _ (track_area_loop_is_track E o h _ _ _ 0 _ 0 w1)
  · obtain ⟨tracks, htr, _, hyes, hsingle⟩ :=
      plan_iso_single E SL o h (albumdir_of E o h) (select_areas E o h) T w1 hsplit
    unfold plan_queue
    rw [if_pos hiso, hsingle, track_jobs_cons_raw, track_jobs_of_track tracks htr,
      hyes ⟨hconc, hfmt⟩, if_pos hiso, if_pos hiso]

theorem track_ids_track_jobs (l : List job) : track_ids (track_jobs l) = track_ids l := by
  induction l with
  | nil => rfl
  | cons x xs ih =>
    cases x with
    | CueExport a p => exact ih
    | RawSectorRange a b c d => exact ih
    | TrackTranscode a i p f d g c =>
      show (a, i) :: track_ids (track_jobs xs) = (a, i) :: track_ids xs
      rw [ih]

set_option maxRecDepth 100000 in
theorem example_track_opts_flag (i : Nat) :
    example_track_opts.selected_tracks.getD i 0 ≠ 0 ↔ i = 0 ∨ i = 4 ∨ i = 12 := by
  have hsel : example_track_opts.selected_tracks =
      (select_track_loop ["1".toList, "5".toList, "13".toList] (List.replicate 256 0, 0)).1 := by
    decide
  have a1 : atoi "1".toList = 1 := by decide
  have a5 : atoi "5".toList = 5 := by decide
  have a13 : atoi "13".toList = 13 := by decide
  have b1 : and_0xff (1 - 1) = 0 := by decide
  have b5 : and_0xff (5 - 1) = 4 := by decide
  have b13 : and_0xff (13 - 1) = 12 := by decide
  rw [hsel, (select_track_loop_spec _ _ _).2.2 i]
  have hz : (List.replicate 256 0).getD i 0 = 0 := by
    rw [List.getD_eq_getElem?_getD]
    by_cases hi : i < 256
    · rw [List.getElem?_eq_getElem (by rw [List.length_replicate]; exact hi),
        List.getElem_replicate]
      rfl
    · rw [List.getElem?_eq_none (by rw [List.length_replicate]; omega)]; rfl
  rw [hz]
  simp only [List.length_replicate, List.mem_cons, List.mem_singleton, exists_eq_or_imp,
    a1, a5, a13, b1, b5, b13, List.not_mem_nil, false_and, exists_false, or_false,
    exists_eq_left]
  constructor
  · intro hne
    by_contra hcon
    apply hne
    rw [if_neg]
    rintro ⟨_, hh⟩
    apply hcon
    rcases hh with ⟨_, hh⟩ | ⟨_, hh⟩ | ⟨_, hh⟩
    · exact Or.inl hh.symm
    · exact Or.inr (Or.inl hh.symm)
    · exact Or.inr (Or.inr hh.symm)
  · intro hi
    rw [if_pos]
    · simp
    · rcases hi with rfl | rfl | rfl
      · exact ⟨by norm_num, Or.inl ⟨by norm_num, rfl⟩⟩
      · exact ⟨by norm_num, Or.inr (Or.inl ⟨by norm_num, rfl⟩)⟩
      · exact ⟨by norm_num, Or.inr (Or.inr ⟨by norm_num, rfl⟩)⟩

theorem example_track_filter (n : Nat) (hn : 13 ≤ n) :
    (List.range n).filter
      (fun i => decide (example_track_opts.select_tracks = 0 ∨
        example_track_opts.selected_tracks.getD i 0 ≠ 0)) = [0, 4, 12] := by
  have hst : example_track_opts.select_tracks = 1 := by decide
  have hp : ∀ i : Nat, decide (example_track_opts.select_tracks = 0 ∨
      example_track_opts.selected_tracks.getD i 0 ≠ 0) = decide (i = 0 ∨ i = 4 ∨ i = 12) := by
    intro i
    rw [decide_eq_decide, example_track_opts_flag, hst]
    simp
  simp only [hp]
  obtain ⟨m, rfl⟩ : ∃ m, n = 13 + m := ⟨n - 13, by omega⟩
  rw [List.range_add, List.filter_append]
  have h2 : ((List.range m).map (fun x => 13 + x)).filter
      (fun i => decide (i = 0 ∨ i = 4 ∨ i = 12)) = [] := by
    rw [List.filter_eq_nil_iff]
    intro x hx
    rw [List.mem_map] at hx
    obtain ⟨k, _, rfl⟩ := hx
    simp only [decide_eq_true_eq]
    omega
  rw [h2]
  decide

/-- C4: per-track planning (DSF or DSDIFF), in the non-concurrent branch (`output_iso`
and `output_dsdiff_em` clear) and in the concurrent branch (`output_iso` and
`concurrent` set, image not split).  The track jobs of the plan are, area after
area in the order of the selected areas, one job for each track index `i` in
`0..n-1` (`n` the track count of the area) with `select_tracks = 0` or
`selected_tracks[i]` set, in ascending order of `i`; with `select_tracks = 0`
every track of every selected area has its job.  For the options of
`sacd_extract -t 1,5,13 -s` on a disc whose two-channel area has at least 13
tracks the track jobs are those of the tracks 0, 4 and 12, in that order. -/
theorem per_track_planning {σ ρ : Type} (E : collaborators σ ρ) (SL : Bool) (o : opts_s)
    (h : scarletbook_handle_t) (T : Nat) (w : σ)
    (hfmt : o.output_dsf ≠ 0 ∨ o.output_dsdiff ≠ 0)
    (hbranch : (o.output_iso = 0 ∧ o.output_dsdiff_em = 0) ∨
      (o.output_iso ≠ 0 ∧ o.concurrent ≠ 0 ∧ ¬ (SL = true ∧ FAT32_SECTOR_LIMIT < T))) :
    track_ids (plan E SL o h T w).1 =
      (select_areas E o h).flatMap (fun a =>
        ((List.range (h.area a).track_count).filter
          (fun i => decide (o.select_tracks = 0 ∨ o.selected_tracks.getD i 0 ≠ 0))).map
          (fun i => (a, i))) ∧
    (o.select_tracks = 0 →
      track_ids (plan E SL o h T w).1 =
        (select_areas E o h).flatMap (fun a =>
          (List.range (h.area a).track_count).map (fun i => (a, i)))) ∧
    (∀ h1 : scarletbook_handle_t, E.has_two_channel h1 = true →
      13 ≤ (h1.area h1.twoch_area_idx).track_count →
      track_ids (plan E SL example_track_opts h1 T w).1 =
        [(h1.twoch_area_idx, 0), (h1.twoch_area_idx, 4), (h1.twoch_area_idx, 12)]) := by
  have key : ∀ (o1 : opts_s) (h1 : scarletbook_handle_t),
      (o1.output_dsf ≠ 0 ∨ o1.output_dsdiff ≠ 0) →
      ((o1.output_iso = 0 ∧ o1.output_dsdiff_em = 0) ∨
        (o1.output_iso ≠ 0 ∧ o1.concurrent ≠ 0 ∧ ¬ (SL = true ∧ FAT32_SECTOR_LIMIT < T))) →
      track_ids (plan E SL o1 h1 T w).1 =
        (select_areas E o1 h1).flatMap (fun a =>
          ((List.range (h1.area a).track_count).filter
            (fun i => decide (o1.select_tracks = 0 ∨ o1.selected_tracks.getD i 0 ≠ 0))).map
            (fun i => (a, i))) := by
    intro o1 h1 hf hb
    obtain ⟨w1, hw1⟩ := plan_per_track E SL o1 h1 T w hf hb
    rw [← track_ids_track_jobs, hw1, track_ids_track_area_loop E o1 h1 _ _ _ _ hf]
  refine ⟨key o h hfmt hbranch, ?_, ?_⟩
  · intro hs
    rw [key o h hfmt hbranch]
    congr 1
    funext a
    congr 1
    rw [List.filter_eq_self]
    intro i _
    exact decide_eq_true (Or.inl hs)
  · intro h1 h2ch hn
    rw [key example_track_opts h1 (Or.inl (by decide)) (Or.inl ⟨by decide, by decide⟩)]
    have hareas : select_areas E example_track_opts h1 = [h1.twoch_area_idx] := by
      have t1 : example_track_opts.two_channel ≠ 0 := by decide
      have t2 : ¬ (E.has_multi_channel h1 = true ∧ example_track_opts.multi_channel ≠ 0) := by
        have : example_track_opts.multi_channel = 0 := by decide
        omega
      unfold select_areas
      rw [if_pos ⟨h2ch, t1⟩, if_neg t2]
      rfl
    rw [hareas, List.flatMap_cons, List.flatMap_nil, List.append_nil,
      example_track_filter _ hn]
    rfl

/-- Instance of C4: `sacd_extract -t 1,5,13 -s` on the example disc, whose
two-channel area has 14 tracks. -/
theorem per_track_planning_witness :
    (example_track_opts.output_dsf ≠ 0 ∨ example_track_opts.output_dsdiff ≠ 0) ∧
    ((example_track_opts.output_iso = 0 ∧ example_track_opts.output_dsdiff_em = 0) ∨
      (example_track_opts.output_iso ≠ 0 ∧ example_track_opts.concurrent ≠ 0 ∧
        ¬ (false = true ∧ FAT32_SECTOR_LIMIT < 3000000))) ∧
    track_ids (plan example_collaborators false example_track_opts example_disc 3000000 ()).1 =
      [(0, 0), (0, 4), (0, 12)] :=
  ⟨Or.inl (by decide), Or.inl ⟨by decide, by decide⟩,
    (per_track_planning example_collaborators false example_track_opts example_disc 3000000 ()
      (Or.inl (by decide)) (Or.inl ⟨by decide, by decide⟩)).2.2 example_disc (by decide)
      (by decide)⟩

/-! ## Edit-master jobs -/

theorem edit_master_loop_eq {σ ρ : Type} (E : collaborators σ ρ) (o : opts_s)
    (h : scarletbook_handle_t) (albumdir : CString) (n : Nat) (w : σ) (areas : List Int) :
    ∀ j : Nat, edit_master_loop E o h albumdir n w j areas =
      (areas.enumFrom j).map (fun p =>
        job.TrackTranscode p.2 0
          (E.get_unique_path w o.output_dir (albumdir_loc albumdir n p.1) "dff".toList)
          "dsdiff_edit_master".toList (decode_arg E o h p.2) 0 0) := by
  induction areas with
  | nil => intro j; rfl
  | cons a rest ih =>
    intro j
    simp only [edit_master_loop, List.enumFrom_cons, List.map_cons, ih]

theorem plan_edit_master {σ ρ : Type} (E : collaborators σ ρ) (SL : Bool) (o : opts_s)
    (h : scarletbook_handle_t) (T : Nat) (w : σ)
    (hiso : o.output_iso = 0) (hem : o.output_dsdiff_em ≠ 0) :
    ∃ (cue : List job) (w1 : σ), (∀ x ∈ cue, is_cue x = true) ∧
      (plan E SL o h T w).1 = cue ++
        (select_areas E o h).enum.map (fun p =>
          job.TrackTranscode p.2 0
            (E.get_unique_path w1 o.output_dir
              (albumdir_loc (albumdir_of E o h) (select_areas E o h).length p.1) "dff".toList)
            "dsdiff_edit_master".toList (decode_arg E o h p.2) 0 0) := by
  obtain ⟨cue, w1, hcue, _, hp⟩ := plan_eq E SL o h T w
  refine ⟨cue, w1, hcue, ?_⟩
  have h1 : ¬ o.output_iso ≠ 0 := by omega
  rw [hp, plan_queue, if_neg h1, if_pos hem, edit_master_loop_eq]
  rfl

/-- C5: edit-master planning.  With `output_dsdiff_em` set and `output_iso` clear, the
jobs that `main` enqueues are exactly one `TrackTranscode` job per selected area,
in the order of the areas: the job of the area at position `k` has track index
0, format `dsdiff_edit_master`, last argument (pipeline) 0 and the path
`get_unique_path` returns for the album name (with the area qualifier of position
`k` when there are several areas) and the extension `dff`.  So their number is
the number of selected areas, no raw-image job is enqueued, and neither the
track counts nor the track selection enter: the same jobs are enqueued for any
other value of `select_tracks` and `selected_tracks`. -/
theorem edit_master_planning {σ ρ : Type} (E : collaborators σ ρ) (SL : Bool) (o : opts_s)
    (h : scarletbook_handle_t) (T : Nat) (w : σ)
    (hiso : o.output_iso = 0) (hem : o.output_dsdiff_em ≠ 0) :
    (∃ w1 : σ, track_jobs (plan E SL o h T w).1 =
      (select_areas E o h).enum.map (fun p =>
        job.TrackTranscode p.2 0
          (E.get_unique_path w1 o.output_dir
            (albumdir_loc (albumdir_of E o h) (select_areas E o h).length p.1) "dff".toList)
          "dsdiff_edit_master".toList (decode_arg E o h p.2) 0 0)) ∧
    (track_jobs (plan E SL o h T w).1).length = (select_areas E o h).length ∧
    track_ids (plan E SL o h T w).1 = (select_areas E o h).map (fun a => (a, 0)) ∧
    raw_jobs (plan E SL o h T w).1 = [] ∧
    (∀ (st : Int) (sel : List Nat),
      (plan E SL { o with select_tracks := st, selected_tracks := sel } h T w).1 =
        (plan E SL o h T w).1) := by
  obtain ⟨cue, w1, hcue, hp⟩ := plan_edit_master E SL o h T w hiso hem
  have htr : ∀ x ∈ (select_areas E o h).enum.map (fun p =>
        job.TrackTranscode p.2 0
          (E.get_unique_path w1 o.output_dir
            (albumdir_loc (albumdir_of E o h) (select_areas E o h).length p.1) "dff".toList)
          "dsdiff_edit_master".toList (decode_arg E o h p.2) 0 0), is_track x = true := by
    intro x hx
    rw [List.mem_map] at hx
    obtain ⟨p, _, rfl⟩ := hx
    rfl
  have hjobs : track_jobs (plan E SL o h T w).1 =
      (select_areas E o h).enum.map (fun p =>
        job.TrackTranscode p.2 0
          (E.get_unique_path w1 o.output_dir
            (albumdir_loc (albumdir_of E o h) (select_areas E o h).length p.1) "dff".toList)
          "dsdiff_edit_master".toList (decode_arg E o h p.2) 0 0) := by
    rw [hp, track_jobs_append,
      track_jobs_of_not_track cue (fun x hx => not_track_of_cue x (hcue x hx)),
      List.nil_append, track_jobs_of_track _ htr]
  refine ⟨⟨w1, hjobs⟩, ?_, ?_, ?_, ?_⟩
  · rw [hjobs, List.length_map, List.enum_length]
  · rw [← track_ids_track_jobs, hjobs]
    unfold track_ids
    rw [List.filterMap_map]
    have : (select_areas E o h).map (fun a => (a, (0 : Nat))) =
        (select_areas E o h).enum.map (fun p => (p.2, (0 : Nat))) := by
      conv_lhs => rw [← List.enum_map_snd (select_areas E o h)]
      rw [List.map_map]
      rfl
    rw [this, ← List.filterMap_eq_map]
    rfl
  · rw [hp, raw_jobs_append, raw_jobs_of_not_raw cue (fun x hx => not_raw_of_cue x (hcue x hx)),
      raw_jobs_of_not_raw _ (fun x hx => not_raw_of_track x (htr x hx))]
    rfl
  · intro st sel
    have h1 : ¬ o.output_iso ≠ 0 := by omega
    have e1 : ∀ (n : Nat) (areas : List Int) (j : Nat) (w0 : σ),
        cue_loop E { o with select_tracks := st, selected_tracks := sel } h
          (albumdir_of E o h) n j areas w0 = cue_loop E o h (albumdir_of E o h) n j areas w0 := by
      intro n areas
      induction areas with
      | nil => intro j w0; rfl
      | cons a rest ih => intro j w0; simp only [cue_loop, ih]
    have e2 : ∀ (n : Nat) (areas : List Int) (j : Nat) (w0 : σ),
        edit_master_loop E { o with select_tracks := st, selected_tracks := sel } h
          (albumdir_of E o h) n w0 j areas =
        edit_master_loop E o h (albumdir_of E o h) n w0 j areas := by
      intro n areas
      induction areas with
      | nil => intro j w0; rfl
      | cons a rest ih => intro j w0; simp only [edit_master_loop, ih]; rfl
    have q1 : ∀ w0 : σ,
        plan_queue E SL { o with select_tracks := st, selected_tracks := sel } h
          (albumdir_of E o h) (select_areas E o h) T w0 =
        plan_queue E SL o h (albumdir_of E o h) (select_areas E o h) T w0 := by
      intro w0
      show (if o.output_iso ≠ 0 then _ else if o.output_dsdiff_em ≠ 0 then _ else _) =
        (if o.output_iso ≠ 0 then _ else if o.output_dsdiff_em ≠ 0 then _ else _)
      rw [if_neg h1, if_pos hem, if_neg h1, if_pos hem, e2]
    show ((if o.export_cue_sheet ≠ 0 then
          cue_loop E { o with select_tracks := st, selected_tracks := sel } h (albumdir_of E o h)
            (select_areas E o h).length 0 (select_areas E o h) w
        else ([], w)).1 ++
        (plan_queue E SL { o with select_tracks := st, selected_tracks := sel } h
          (albumdir_of E o h) (select_areas E o h) T
          (if o.export_cue_sheet ≠ 0 then
            cue_loop E { o with select_tracks := st, selected_tracks := sel } h (albumdir_of E o h)
              (select_areas E o h).length 0 (select_areas E o h) w
          else ([], w)).2).1) = _
    rw [e1, q1]
    rfl

/-- Instance of C5: `sacd_extract -e -2 -m` on the example disc. -/
theorem edit_master_planning_witness :
    (parse_options init [⟨'e', []⟩, ⟨'2', []⟩, ⟨'m', []⟩] none).2.output_iso = 0 ∧
    (parse_options init [⟨'e', []⟩, ⟨'2', []⟩, ⟨'m', []⟩] none).2.output_dsdiff_em ≠ 0 ∧
    track_ids (plan example_collaborators false
        (parse_options init [⟨'e', []⟩, ⟨'2', []⟩, ⟨'m', []⟩] none).2 example_disc 3000000 ()).1 =
      (select_areas example_collaborators
        (parse_options init [⟨'e', []⟩, ⟨'2', []⟩, ⟨'m', []⟩] none).2 example_disc).map
        (fun a => (a, 0)) :=
  ⟨by decide, by decide,
    (edit_master_planning example_collaborators false
      (parse_options init [⟨'e', []⟩, ⟨'2', []⟩, ⟨'m', []⟩] none).2 example_disc 3000000 ()
      (by decide) (by decide)).2.2.1⟩

/-! ## Where the track jobs of a plan come from -/

/-- Every `TrackTranscode` job of a plan comes from one of three places: the
edit-master loop, the non-concurrent track loop (last argument 0, directories
under `opts.output_dir`) or the concurrent track loop (last argument 1,
directories under `opts.output_dir_conc`); `k` is the position of the job's area
in the list of selected areas. -/
theorem plan_track_job_cases {σ ρ : Type} (E : collaborators σ ρ) (SL : Bool) (o : opts_s)
    (h : scarletbook_handle_t) (T : Nat) (w : σ) (x : job)
    (hx : x ∈ (plan E SL o h T w).1) (htrack : is_track x = true) :
    ∃ (k : Nat) (a : Int) (w1 : σ), (select_areas E o h)[k]? = some a ∧
      ((o.output_iso = 0 ∧ o.output_dsdiff_em ≠ 0 ∧
          x = job.TrackTranscode a 0
            (E.get_unique_path w1 o.output_dir
              (albumdir_loc (albumdir_of E o h) (select_areas E o h).length k) "dff".toList)
            "dsdiff_edit_master".toList (decode_arg E o h a) 0 0) ∨
       (o.output_iso = 0 ∧ o.output_dsdiff_em = 0 ∧
          x ∈ track_loop E o h a
            (E.get_unique_dir w1 o.output_dir
              (albumdir_loc (albumdir_of E o h) (select_areas E o h).length k)).1 0) ∨
       (o.output_iso ≠ 0 ∧ o.concurrent ≠ 0 ∧ ¬ (SL = true ∧ FAT32_SECTOR_LIMIT < T) ∧
          x ∈ track_loop E o h a
            (E.get_unique_dir w1 o.output_dir_conc
              (albumdir_loc (albumdir_of E o h) (select_areas E o h).length k)).1 1)) := by
  obtain ⟨cue, w1, hcue, _, hp⟩ := plan_eq E SL o h T w
  rw [hp, List.mem_append] at hx
  rcases hx with hx | hx
  · have := not_track_of_cue x (hcue x hx)
    rw [htrack] at this; exact absurd this (by simp)
  · unfold plan_queue at hx
    by_cases hiso : o.output_iso ≠ 0
    · rw [if_pos hiso] at hx
      by_cases hsplit : SL = true ∧ FAT32_SECTOR_LIMIT < T
      · obtain ⟨hsl, hgt⟩ := hsplit
        subst hsl
        rw [plan_iso_split E o h _ _ T w1 hgt] at hx
        have := not_track_of_raw x (split_loop_is_raw _ T 1 0 x hx)
        rw [htrack] at this; exact absurd this (by simp)
      · obtain ⟨tracks, _, hno, hyes, hsingle⟩ :=
          plan_iso_single E SL o h (albumdir_of E o h) (select_areas E o h) T w1 hsplit
        rw [hsingle, List.mem_cons] at hx
        rcases hx with rfl | hx
        · exact absurd htrack (by simp [is_track])
        · by_cases hc : o.concurrent ≠ 0 ∧ (o.output_dsf ≠ 0 ∨ o.output_dsdiff ≠ 0)
          · rw [hyes hc] at hx
            obtain ⟨k, a, w2, hk, hmem⟩ := track_area_loop_mem E o h _ _ _ _ _ 0 w1 x hx
            rw [Nat.zero_add] at hmem
            exact ⟨k, a, w2, hk, Or.inr (Or.inr ⟨hiso, hc.1, hsplit, hmem⟩)⟩
          · rw [hno hc] at hx; exact absurd hx (by simp)
    · rw [if_neg hiso] at hx
      have hiso0 : o.output_iso = 0 := by omega
      by_cases hem : o.output_dsdiff_em ≠ 0
      · rw [if_pos hem, edit_master_loop_eq] at hx
        simp only [List.mem_map] at hx
        obtain ⟨p, hp1, hp2⟩ := hx
        obtain ⟨k, a⟩ := p
        have hk : (select_areas E o h)[k]? = some a := List.mk_mem_enum_iff_getElem?.mp hp1
        exact ⟨k, a, w1, hk, Or.inl ⟨hiso0, hem, hp2.symm⟩⟩
      · rw [if_neg hem] at hx
        have hem0 : o.output_dsdiff_em = 0 := by omega
        by_cases hf : ¬ (o.output_iso ≠ 0 ∧ o.concurrent ≠ 0) ∧
            (o.output_dsf ≠ 0 ∨ o.output_dsdiff ≠ 0)
        · rw [if_pos hf] at hx
          obtain ⟨k, a, w2, hk, hmem⟩ := track_area_loop_mem E o h _ _ _ _ _ 0 w1 x hx
          rw [Nat.zero_add] at hmem
          exact ⟨k, a, w2, hk, Or.inr (Or.inl ⟨hiso0, hem0, hmem⟩)⟩
        · rw [if_neg hf] at hx; exact absurd hx (by simp)

/-- Without concurrency a plan does not hold both raw-image jobs and track jobs. -/
theorem plan_raw_or_tracks {σ ρ : Type} (E : collaborators σ ρ) (SL : Bool) (o : opts_s)
    (h : scarletbook_handle_t) (T : Nat) (w : σ) (hconc : o.concurrent = 0) :
    (∀ x ∈ (plan E SL o h T w).1, is_raw x = false) ∨
    (∀ x ∈ (plan E SL o h T w).1, is_track x = false) := by
  by_cases hiso : o.output_iso ≠ 0
  · right
    intro x hx
    by_contra hcon
    have htrack : is_track x = true := by simpa using hcon
    obtain ⟨k, a, w1, _, hcase⟩ := plan_track_job_cases E SL o h T w x hx htrack
    rcases hcase with ⟨h0, _⟩ | ⟨h0, _⟩ | ⟨_, hc, _⟩
    · exact hiso h0
    · exact hiso h0
    · exact hc hconc
  · left
    intro x hx
    obtain ⟨cue, w1, hcue, _, hp⟩ := plan_eq E SL o h T w
    rw [hp, List.mem_append] at hx
    rcases hx with hx | hx
    · exact not_raw_of_cue x (hcue x hx)
    · unfold plan_queue at hx
      rw [if_neg hiso] at hx
      by_cases hem : o.output_dsdiff_em ≠ 0
      · rw [if_pos hem] at hx
        exact not_raw_of_track x (edit_master_loop_is_track E o h _ _ w1 _ 0 x hx)
      · rw [if_neg hem] at hx
        by_cases hf : ¬ (o.output_iso ≠ 0 ∧ o.concurrent ≠ 0) ∧
            (o.output_dsf ≠ 0 ∨ o.output_dsdiff ≠ 0)
        · rw [if_pos hf] at hx
          exact not_raw_of_track x (track_area_loop_is_track E o h _ _ _ _ _ 0 w1 x hx)
        · rw [if_neg hf] at hx; exact absurd hx (by simp)

/-- The last argument of a job of the track loop is the one the loop was run with. -/
theorem track_loop_pipeline {σ ρ : Type} (E : collaborators σ ρ) (o : opts_s)
    (h : scarletbook_handle_t) (a0 : Int) (dir : CString) (c0 : Int)
    (a : Int) (i : Nat) (p f : CString) (d g c : Int)
    (hx : job.TrackTranscode a i p f d g c ∈ track_loop E o h a0 dir c0) : c = c0 := by
  obtain ⟨i1, _, _, hcase⟩ := track_loop_mem E o h a0 dir c0 _ hx
  rcases hcase with ⟨_, heq⟩ | ⟨_, _, heq⟩
  · injection heq
  · injection heq

/-! ## Pipeline identifiers and the order of raw-image and track jobs -/

/-- A plan that holds a raw-image job at position `m` and a track job at position
`n` is the plan of a concurrent raw-image run with a per-track format and an
image that is not split, and `m < n`. -/
theorem plan_raw_before_tracks {σ ρ : Type} (E : collaborators σ ρ) (SL : Bool) (o : opts_s)
    (h : scarletbook_handle_t) (T : Nat) (w : σ) (m n : Nat) (x y : job)
    (hm : (plan E SL o h T w).1[m]? = some x) (hn : (plan E SL o h T w).1[n]? = some y)
    (hxr : is_raw x = true) (hyt : is_track y = true) :
    m < n ∧ o.output_iso ≠ 0 ∧ o.concurrent ≠ 0 ∧ (o.output_dsf ≠ 0 ∨ o.output_dsdiff ≠ 0) ∧
      ¬ (SL = true ∧ FAT32_SECTOR_LIMIT < T) := by
  have hym : y ∈ (plan E SL o h T w).1 := List.getElem?_mem hn
  obtain ⟨k, a, w2, _, hcase⟩ := plan_track_job_cases E SL o h T w y hym hyt
  have hxm : x ∈ (plan E SL o h T w).1 := List.getElem?_mem hm
  have hiso : o.output_iso ≠ 0 := by
    intro h0
    obtain ⟨cue, w1, hcue, _, hp⟩ := plan_eq E SL o h T w
    rw [hp, List.mem_append] at hxm
    have hnr : is_raw x = false := by
      rcases hxm with hx | hx
      · exact not_raw_of_cue x (hcue x hx)
      · unfold plan_queue at hx
        rw [if_neg (by simpa using h0)] at hx
        by_cases hem : o.output_dsdiff_em ≠ 0
        · rw [if_pos hem] at hx
          exact not_raw_of_track x (edit_master_loop_is_track E o h _ _ w1 _ 0 x hx)
        · rw [if_neg hem] at hx
          by_cases hf : ¬ (o.output_iso ≠ 0 ∧ o.concurrent ≠ 0) ∧
              (o.output_dsf ≠ 0 ∨ o.output_dsdiff ≠ 0)
          · rw [if_pos hf] at hx
            exact not_raw_of_track x (track_area_loop_is_track E o h _ _ _ _ _ 0 w1 x hx)
          · rw [if_neg hf] at hx; exact absurd hx (by simp)
    rw [hxr] at hnr; exact absurd hnr (by simp)
  rcases hcase with ⟨h0, _⟩ | ⟨h0, _⟩ | ⟨_, hc, hsplit, hmem⟩
  · exact absurd h0 hiso
  · exact absurd h0 hiso
  · have hfmt : o.output_dsf ≠ 0 ∨ o.output_dsdiff ≠ 0 := by
      obtain ⟨i, _, _, hfm⟩ := track_loop_mem E o h a _ 1 y hmem
      rcases hfm with ⟨hd, _⟩ | ⟨_, hp, _⟩
      · exact Or.inl hd
      · exact Or.inr hp
    refine ⟨?_, hiso, hc, hfmt, hsplit⟩
    obtain ⟨cue, w1, hcue, _, hp⟩ := plan_eq E SL o h T w
    obtain ⟨tracks, htracks, _, _, hsingle⟩ :=
      plan_iso_single E SL o h (albumdir_of E o h) (select_areas E o h) T w1 hsplit
    have hq : (plan_queue E SL o h (albumdir_of E o h) (select_areas E o h) T w1).1 =
        job.RawSectorRange 0 T
          (E.get_unique_path w1 o.output_dir (albumdir_of E o h) "iso".toList) "iso".toList ::
            tracks := by
      unfold plan_queue
      rw [if_pos hiso, hsingle]
    rw [hp, hq] at hm hn
    by_contra hle
    have hnm : n ≤ m := by omega
    by_cases hnc : n < cue.length
    · rw [List.getElem?_append_left hnc] at hn
      have := not_track_of_cue y (hcue y (List.getElem?_mem hn))
      rw [hyt] at this; exact absurd this (by simp)
    · have hcn : cue.length ≤ n := by omega
      have hcm : cue.length ≤ m := by omega
      rw [List.getElem?_append_right hcn] at hn
      rw [List.getElem?_append_right hcm] at hm
      cases hmc : m - cue.length with
      | zero =>
        have hn0 : n - cue.length = 0 := by omega
        rw [hn0, List.getElem?_cons_zero] at hn
        have hy : y = job.RawSectorRange 0 T
            (E.get_unique_path w1 o.output_dir (albumdir_of E o h) "iso".toList)
            "iso".toList := by
          injection hn with e; exact e.symm
        rw [hy] at hyt
        exact absurd hyt (by simp [is_track])
      | succ j =>
        rw [hmc, List.getElem?_cons_succ] at hm
        have := not_raw_of_track x (htracks x (List.getElem?_mem hm))
        rw [hxr] at this; exact absurd this (by simp)

/-- C6, the claim as stated fails for the runs it describes with concurrency
disabled: `sacd_extract -I -s` and `sacd_extract -I -p` request the raw image and a
per-track format without `-w`, and `main` enqueues the raw-image job only and
starts the engine; no track job follows the raw-image job, although the same
disc yields 14 track jobs for `sacd_extract -s`. -/
theorem pipeline_order_counterexample :
    (parse_options init [⟨'I', []⟩, ⟨'s', []⟩] none).2.output_iso ≠ 0 ∧
    (parse_options init [⟨'I', []⟩, ⟨'s', []⟩] none).2.output_dsf ≠ 0 ∧
    (parse_options init [⟨'I', []⟩, ⟨'s', []⟩] none).2.concurrent = 0 ∧
    main example_collaborators false [⟨'I', []⟩, ⟨'s', []⟩] none () =
      ([job.RawSectorRange 0 3000000 "Album.iso".toList "iso".toList], true) ∧
    track_jobs (main example_collaborators false [⟨'I', []⟩, ⟨'s', []⟩] none ()).1 = [] ∧
    (parse_options init [⟨'I', []⟩, ⟨'p', []⟩] none).2.output_iso ≠ 0 ∧
    (parse_options init [⟨'I', []⟩, ⟨'p', []⟩] none).2.output_dsdiff ≠ 0 ∧
    (parse_options init [⟨'I', []⟩, ⟨'p', []⟩] none).2.concurrent = 0 ∧
    main example_collaborators false [⟨'I', []⟩, ⟨'p', []⟩] none () =
      ([job.RawSectorRange 0 3000000 "Album.iso".toList "iso".toList], true) ∧
    track_ids (main example_collaborators false [⟨'s', []⟩] none ()).1 =
      (List.range 14).map (fun i => ((0 : Int), i)) := by
  decide

/-- C6 as amended: pipeline tagging and the order of the jobs.  When raw-image
output and a per-track format are both requested with concurrency enabled, the
plan contains a raw-image job and every track job has last argument (pipeline)
1; in every run that is not a concurrent raw-image run every track job has last
argument 0, so the two identifiers differ.  A plan holds a raw-image job and a
track job together only in a concurrent raw-image run with a per-track format
and an image that is not split, and there the raw-image job stands before the
track job.  With concurrency disabled a plan with `output_iso` set has a
raw-image job and no track job, and no plan holds both kinds of job. -/
theorem pipeline_tagging_rule {σ ρ : Type} (E : collaborators σ ρ) (SL : Bool) (o : opts_s)
    (h : scarletbook_handle_t) (T : Nat) (w : σ) :
    (o.output_iso ≠ 0 → o.concurrent ≠ 0 → (o.output_dsf ≠ 0 ∨ o.output_dsdiff ≠ 0) →
      raw_jobs (plan E SL o h T w).1 ≠ [] ∧
      ∀ (a : Int) (i : Nat) (p f : CString) (d g c : Int),
        job.TrackTranscode a i p f d g c ∈ (plan E SL o h T w).1 → c = 1) ∧
    (¬ (o.output_iso ≠ 0 ∧ o.concurrent ≠ 0) →
      ∀ (a : Int) (i : Nat) (p f : CString) (d g c : Int),
        job.TrackTranscode a i p f d g c ∈ (plan E SL o h T w).1 → c = 0 ∧ c ≠ 1) ∧
    (∀ (m n : Nat) (x y : job), (plan E SL o h T w).1[m]? = some x →
      (plan E SL o h T w).1[n]? = some y → is_raw x = true → is_track y = true →
        m < n ∧ o.output_iso ≠ 0 ∧ o.concurrent ≠ 0 ∧
          (o.output_dsf ≠ 0 ∨ o.output_dsdiff ≠ 0) ∧
          ¬ (SL = true ∧ FAT32_SECTOR_LIMIT < T)) ∧
    (o.concurrent = 0 → o.output_iso ≠ 0 →
      track_jobs (plan E SL o h T w).1 = [] ∧ raw_jobs (plan E SL o h T w).1 ≠ []) ∧
    (o.concurrent = 0 →
      (∀ x ∈ (plan E SL o h T w).1, is_raw x = false) ∨
      (∀ x ∈ (plan E SL o h T w).1, is_track x = false)) := by
  have hraw : o.output_iso ≠ 0 → raw_jobs (plan E SL o h T w).1 ≠ [] := by
    intro hiso
    obtain ⟨w1, _, _, _, hj⟩ := plan_raw_view E SL o h T w hiso
    rw [hj]
    by_cases hsplit : SL = true ∧ FAT32_SECTOR_LIMIT < T
    · obtain ⟨hsl, hgt⟩ := hsplit
      subst hsl
      have hT : T ≠ 0 := by
        have := FAT32_SECTOR_LIMIT_eq
        omega
      rw [plan_iso_split E o h _ _ T w1 hgt, split_loop_pos _ 1 0 T hT]
      simp [raw_jobs, is_raw]
    · obtain ⟨tracks, _, _, _, hsingle⟩ :=
        plan_iso_single E SL o h (albumdir_of E o h) (select_areas E o h) T w1 hsplit
      rw [hsingle]
      simp [raw_jobs, is_raw]
  refine ⟨?_, ?_, ?_, ?_, ?_⟩
  · intro hiso hconc hfmt
    refine ⟨hraw hiso, ?_⟩
    intro a i p f d g c hx
    obtain ⟨k, a1, w1, _, hcase⟩ := plan_track_job_cases E SL o h T w _ hx rfl
    rcases hcase with ⟨h0, _⟩ | ⟨h0, _⟩ | ⟨_, _, _, hmem⟩
    · exact absurd h0 hiso
    · exact absurd h0 hiso
    · exact track_loop_pipeline E o h _ _ 1 a i p f d g c hmem
  · intro hnot a i p f d g c hx
    obtain ⟨k, a1, w1, _, hcase⟩ := plan_track_job_cases E SL o h T w _ hx rfl
    have hc0 : c = 0 := by
      rcases hcase with ⟨_, _, heq⟩ | ⟨_, _, hmem⟩ | ⟨h1, h2, _⟩
      · injection heq
      · exact track_loop_pipeline E o h _ _ 0 a i p f d g c hmem
      · exact absurd ⟨h1, h2⟩ hnot
    exact ⟨hc0, by omega⟩
  · intro m n x y hm hn hxr hyt
    exact plan_raw_before_tracks E SL o h T w m n x y hm hn hxr hyt
  · intro hconc hiso
    refine ⟨?_, hraw hiso⟩
    apply track_jobs_of_not_track
    intro x hx
    by_contra hcon
    have htrack : is_track x = true := by simpa using hcon
    obtain ⟨k, a, w1, _, hcase⟩ := plan_track_job_cases E SL o h T w x hx htrack
    rcases hcase with ⟨h0, _⟩ | ⟨h0, _⟩ | ⟨_, hc, _⟩
    · exact hiso h0
    · exact hiso h0
    · exact hc hconc
  · intro hconc
    exact plan_raw_or_tracks E SL o h T w hconc

/-- Instance of the amended C6: `sacd_extract -I -w -s` (a build without
SECTOR_LIMIT) on the example disc.  The plan has a raw-image job, the DSF job of
track 1 carries pipeline 1 as every track job does, and the raw-image job at
position 0 stands before that track job at position 1. -/
theorem pipeline_tagging_rule_witness :
    (parse_options init [⟨'I', []⟩, ⟨'w', []⟩, ⟨'s', []⟩] none).2.output_iso ≠ 0 ∧
    (parse_options init [⟨'I', []⟩, ⟨'w', []⟩, ⟨'s', []⟩] none).2.concurrent ≠ 0 ∧
    (parse_options init [⟨'I', []⟩, ⟨'w', []⟩, ⟨'s', []⟩] none).2.output_dsf ≠ 0 ∧
    (plan example_collaborators false
        (default_channel (parse_options init [⟨'I', []⟩, ⟨'w', []⟩, ⟨'s', []⟩] none).2)
        example_disc 3000000 ()).1[0]? =
      some (job.RawSectorRange 0 3000000 "Album.iso".toList "iso".toList) ∧
    (plan example_collaborators false
        (default_channel (parse_options init [⟨'I', []⟩, ⟨'w', []⟩, ⟨'s', []⟩] none).2)
        example_disc 3000000 ()).1[1]? =
      some (job.TrackTranscode 0 0 "Album/001.dsf".toList "dsf".toList 1 0 1) ∧
    (raw_jobs (plan example_collaborators false
        (default_channel (parse_options init [⟨'I', []⟩, ⟨'w', []⟩, ⟨'s', []⟩] none).2)
        example_disc 3000000 ()).1 ≠ [] ∧
      ∀ (a : Int) (i : Nat) (p f : CString) (d g c : Int),
        job.TrackTranscode a i p f d g c ∈ (plan example_collaborators false
          (default_channel (parse_options init [⟨'I', []⟩, ⟨'w', []⟩, ⟨'s', []⟩] none).2)
          example_disc 3000000 ()).1 → c = 1) ∧
    (0 < 1 ∧
      (default_channel
        (parse_options init [⟨'I', []⟩, ⟨'w', []⟩, ⟨'s', []⟩] none).2).output_iso ≠ 0 ∧
      (default_channel
        (parse_options init [⟨'I', []⟩, ⟨'w', []⟩, ⟨'s', []⟩] none).2).concurrent ≠ 0 ∧
      ((default_channel
          (parse_options init [⟨'I', []⟩, ⟨'w', []⟩, ⟨'s', []⟩] none).2).output_dsf ≠ 0 ∨
        (default_channel
          (parse_options init [⟨'I', []⟩, ⟨'w', []⟩, ⟨'s', []⟩] none).2).output_dsdiff ≠ 0) ∧
      ¬ (false = true ∧ FAT32_SECTOR_LIMIT < 3000000)) :=
  ⟨by decide, by decide, by decide, by decide, by decide,
    (pipeline_tagging_rule example_collaborators false
      (default_channel (parse_options init [⟨'I', []⟩, ⟨'w', []⟩, ⟨'s', []⟩] none).2)
      example_disc 3000000 ()).1 (by decide) (by decide) (Or.inl (by decide)),
    (pipeline_tagging_rule example_collaborators false
      (default_channel (parse_options init [⟨'I', []⟩, ⟨'w', []⟩, ⟨'s', []⟩] none).2)
      example_disc 3000000 ()).2.2.1 0 1
      (job.RawSectorRange 0 3000000 "Album.iso".toList "iso".toList)
      (job.TrackTranscode 0 0 "Album/001.dsf".toList "dsf".toList 1 0 1)
      (by decide) (by decide) rfl rfl⟩

/-! ## The decode argument -/

/-- The arguments of a track job in a plan: for a job of the track loop the format,
decode and padding arguments are those of the DSF case or those of the DSDIFF
case; an edit-master job has track 0, the decode argument of its area and
padding 0. -/
theorem plan_track_job_args {σ ρ : Type} (E : collaborators σ ρ) (SL : Bool) (o : opts_s)
    (h : scarletbook_handle_t) (T : Nat) (w : σ)
    (a : Int) (i : Nat) (p f : CString) (d g c : Int)
    (hx : job.TrackTranscode a i p f d g c ∈ (plan E SL o h T w).1) :
    (f = "dsf".toList ∧ o.output_dsf ≠ 0 ∧ d = 1 ∧ g = pad_arg o) ∨
    (f = "dsdiff".toList ∧ o.output_dsdiff ≠ 0 ∧ d = decode_arg E o h a ∧ g = 0) ∨
    (f = "dsdiff_edit_master".toList ∧ o.output_dsdiff_em ≠ 0 ∧ d = decode_arg E o h a ∧
      g = 0 ∧ i = 0) := by
  obtain ⟨k, a1, w1, _, hcase⟩ := plan_track_job_cases E SL o h T w _ hx rfl
  have hloop : ∀ (dir : CString) (c0 : Int),
      job.TrackTranscode a i p f d g c ∈ track_loop E o h a1 dir c0 →
      (f = "dsf".toList ∧ o.output_dsf ≠ 0 ∧ d = 1 ∧ g = pad_arg o) ∨
      (f = "dsdiff".toList ∧ o.output_dsdiff ≠ 0 ∧ d = decode_arg E o h a ∧ g = 0) := by
    intro dir c0 hmem
    obtain ⟨i1, _, _, hc⟩ := track_loop_mem E o h a1 dir c0 _ hmem
    rcases hc with ⟨hd, heq⟩ | ⟨_, hp, heq⟩
    · injection heq with e1 e2 e3 e4 e5 e6 e7
      exact Or.inl ⟨e4, hd, e5, e6⟩
    · injection heq with e1 e2 e3 e4 e5 e6 e7
      subst e1
      exact Or.inr ⟨e4, hp, e5, e6⟩
  rcases hcase with ⟨_, hem, heq⟩ | ⟨_, _, hmem⟩ | ⟨_, _, _, hmem⟩
  · injection heq with e1 e2 e3 e4 e5 e6 e7
    subst e1
    exact Or.inr (Or.inr ⟨e4, hem, e5, e6, e2⟩)
  · rcases hloop _ _ hmem with hh | hh
    · exact Or.inl hh
    · exact Or.inr (Or.inl hh)
  · rcases hloop _ _ hmem with hh | hh
    · exact Or.inl hh
    · exact Or.inr (Or.inl hh)

/-- C8, the claim as stated fails: `sacd_extract -e` on the example disc enqueues the
edit-master job of the two-channel area, which is DST coded, with
`decode_required = 0`, although this is not the case "passthrough and
uncompressed"; and `sacd_extract -e -m` enqueues the job of the multi-channel
area, which is plain DSD, with `decode_required = 1`, although `convert_dst` is 0
and the area is uncompressed. -/
theorem decode_required_counterexample :
    (job.TrackTranscode 0 0 "Album.dff".toList "dsdiff_edit_master".toList 0 0 0 ∈
        (main example_collaborators false [⟨'e', []⟩] none ()).1 ∧
      (parse_options init [⟨'e', []⟩] none).2.convert_dst = 0 ∧
      (example_disc.area 0).frame_format = example_collaborators.FRAME_FORMAT_DST) ∧
    (job.TrackTranscode 1 0 "Album.dff".toList "dsdiff_edit_master".toList 1 0 0 ∈
        (main example_collaborators false [⟨'e', []⟩, ⟨'m', []⟩] none ()).1 ∧
      (parse_options init [⟨'e', []⟩, ⟨'m', []⟩] none).2.convert_dst = 0 ∧
      (example_disc.area 1).frame_format ≠ example_collaborators.FRAME_FORMAT_DST) := by
  decide

/-- C8 as amended: the decode argument of every track job is 0 or 1.  It is 1 for
every DSF job.  For every edit-master job and every DSDIFF per-track job it is 1
when `convert_dst` is set or the frame format of the job's area is not DST, and
it is 0 exactly when `convert_dst` is 0 and the frame format of the area is DST:
a compressed area without `-c` is the one case in which it is false. -/
theorem decode_required_rule {σ ρ : Type} (E : collaborators σ ρ) (SL : Bool) (o : opts_s)
    (h : scarletbook_handle_t) (T : Nat) (w : σ)
    (a : Int) (i : Nat) (p f : CString) (d g c : Int)
    (hx : job.TrackTranscode a i p f d g c ∈ (plan E SL o h T w).1) :
    (d = 0 ∨ d = 1) ∧
    (f = "dsf".toList ∨ f = "dsdiff".toList ∨ f = "dsdiff_edit_master".toList) ∧
    (f = "dsf".toList → d = 1) ∧
    (f ≠ "dsf".toList →
      (d = 1 ↔ o.convert_dst ≠ 0 ∨ (h.area a).frame_format ≠ E.FRAME_FORMAT_DST) ∧
      (d = 0 ↔ o.convert_dst = 0 ∧ (h.area a).frame_format = E.FRAME_FORMAT_DST)) := by
  have hdec : (decode_arg E o h a = 0 ∨ decode_arg E o h a = 1) ∧
      (decode_arg E o h a = 1 ↔
        o.convert_dst ≠ 0 ∨ (h.area a).frame_format ≠ E.FRAME_FORMAT_DST) ∧
      (decode_arg E o h a = 0 ↔
        o.convert_dst = 0 ∧ (h.area a).frame_format = E.FRAME_FORMAT_DST) := by
    unfold decode_arg
    by_cases h1 : o.convert_dst ≠ 0
    · rw [if_pos h1]
      exact ⟨Or.inr rfl, ⟨fun _ => Or.inl h1, fun _ => rfl⟩,
        ⟨fun hh => absurd hh (by decide), fun hh => absurd hh.1 h1⟩⟩
    · rw [if_neg h1]
      have h1' : o.convert_dst = 0 := by omega
      by_cases h2 : (h.area a).frame_format ≠ E.FRAME_FORMAT_DST
      · rw [if_pos h2]
        exact ⟨Or.inr rfl, ⟨fun _ => Or.inr h2, fun _ => rfl⟩,
          ⟨fun hh => absurd hh (by decide), fun hh => absurd hh.2 h2⟩⟩
      · rw [if_neg h2]
        have h2' : (h.area a).frame_format = E.FRAME_FORMAT_DST := by omega
        refine ⟨Or.inl rfl, ⟨fun hh => absurd hh (by decide), ?_⟩,
          ⟨fun _ => ⟨h1', h2'⟩, fun _ => rfl⟩⟩
        rintro (hh | hh)
        · exact absurd h1' hh
        · exact absurd h2' hh
  have hne1 : "dsdiff".toList ≠ "dsf".toList := by decide
  have hne2 : "dsdiff_edit_master".toList ≠ "dsf".toList := by decide
  rcases plan_track_job_args E SL o h T w a i p f d g c hx with
    ⟨hf, _, hd, _⟩ | ⟨hf, _, hd, _⟩ | ⟨hf, _, hd, _⟩
  · subst hf hd
    exact ⟨Or.inr rfl, Or.inl rfl, fun _ => rfl, fun hh => absurd rfl hh⟩
  · subst hf hd
    exact ⟨hdec.1, Or.inr (Or.inl rfl), fun hh => absurd hh hne1, fun _ => hdec.2⟩
  · subst hf hd
    exact ⟨hdec.1, Or.inr (Or.inr rfl), fun hh => absurd hh hne2, fun _ => hdec.2⟩

/-- Instance of the amended C8 at the edit-master job of `sacd_extract -e`. -/
theorem decode_required_rule_witness :
    job.TrackTranscode 0 0 "Album.dff".toList "dsdiff_edit_master".toList 0 0 0 ∈
      (plan example_collaborators false
        (default_channel (parse_options init [⟨'e', []⟩] none).2)
        example_disc 3000000 ()).1 ∧
    ((0 : Int) = 0 ↔
      (default_channel (parse_options init [⟨'e', []⟩] none).2).convert_dst = 0 ∧
      (example_disc.area 0).frame_format = example_collaborators.FRAME_FORMAT_DST) :=
  ⟨by decide,
    ((decode_required_rule example_collaborators false
      (default_channel (parse_options init [⟨'e', []⟩] none).2)
      example_disc 3000000 () 0 0 "Album.dff".toList "dsdiff_edit_master".toList 0 0 0
      (by decide)).2.2.2 (by decide)).2⟩

/-! ## The padding argument -/

theorem select_track_loop_count_nonneg (toks : List CString) (sel : List Nat) (count : Int)
    (hc : 0 ≤ count) :
    count ≤ (select_track_loop toks (sel, count)).2 ∧
    ((∃ t ∈ toks, atoi t ≠ 0) → (select_track_loop toks (sel, count)).2 ≠ 0) := by
  rw [(select_track_loop_spec toks sel count).2.1]
  refine ⟨by omega, ?_⟩
  rintro ⟨t, ht, hne⟩
  have hpos : 0 < (toks.filter (fun t => decide (atoi t ≠ 0))).length := by
    apply List.length_pos_of_mem (a := t)
    rw [List.mem_filter]
    exact ⟨ht, decide_eq_true hne⟩
  omega

/-- After `case 't'`, `select_tracks` is 1 when some token has a non-zero value and 0
otherwise. -/
theorem parse_select_track_flag (o : opts_s) (optarg : CString) :
    ((∃ t ∈ strtok_all [' ', ','] optarg [], atoi t ≠ 0) →
      (parse_options_case o 't' optarg).select_tracks = 1) ∧
    ((¬ ∃ t ∈ strtok_all [' ', ','] optarg [], atoi t ≠ 0) →
      (parse_options_case o 't' optarg).select_tracks = 0) := by
  have hcase : parse_options_case o 't' optarg = parse_select_track o optarg := by
    simp [parse_options_case]
  rw [hcase]
  unfold parse_select_track
  constructor
  · intro hex
    have := (select_track_loop_count_nonneg (strtok_all [' ', ','] optarg [])
      o.selected_tracks 0 (le_refl 0)).2 hex
    simp only [this, ne_eq, not_false_eq_true, if_true]
  · intro hno
    have h2 := (select_track_loop_spec (strtok_all [' ', ','] optarg []) o.selected_tracks 0).2.1
    have hnil : (strtok_all [' ', ','] optarg []).filter (fun t => decide (atoi t ≠ 0)) = [] := by
      rw [List.filter_eq_nil_iff]
      intro t ht hdec
      exact hno ⟨t, ht, of_decide_eq_true hdec⟩
    rw [hnil] at h2
    simp only [h2, List.length_nil, Nat.cast_zero, add_zero, ne_eq, not_true_eq_false, if_false]

/-- Options other than `-t` leave `select_tracks` as it is. -/
theorem parse_options_case_select_tracks (o : opts_s) (opt : Char) (optarg : CString)
    (hopt : opt ≠ 't') : (parse_options_case o opt optarg).select_tracks = o.select_tracks := by
  apply parse_options_case_cases (fun o1 => opt ≠ 't' → o1.select_tracks = o.select_tracks)
    o opt optarg
  any_goals (intro _; rfl)
  · intro h1 h2
    exact absurd h1 h2
  · exact hopt

theorem parse_options_loop_append (xs ys : List getopt_result) :
    ∀ o : opts_s, parse_options_loop o (xs ++ ys) =
      if (parse_options_loop o xs).1 = 0 then (0, (parse_options_loop o xs).2)
      else parse_options_loop (parse_options_loop o xs).2 ys := by
  induction xs with
  | nil => intro o; simp [parse_options_loop]
  | cons r rest ih =>
    intro o
    by_cases hr : r.opt = '?' ∨ r.opt = 'u'
    · simp [parse_options_loop, hr]
    · simp only [List.cons_append, parse_options_loop, hr, if_false]
      exact ih _

theorem parse_options_loop_select_tracks (args : List getopt_result)
    (hargs : ∀ r ∈ args, r.opt ≠ 't') :
    ∀ o : opts_s, (parse_options_loop o args).2.select_tracks = o.select_tracks := by
  induction args with
  | nil => intro o; rfl
  | cons r rest ih =>
    intro o
    by_cases hr : r.opt = '?' ∨ r.opt = 'u'
    · simp [parse_options_loop, hr]
    · simp only [parse_options_loop, hr, if_false]
      rw [ih (fun x hx => hargs x (List.mem_cons_of_mem _ hx)),
        parse_options_case_select_tracks o r.opt r.optarg (hargs r (List.mem_cons_self _ _))]

/-- The copy of `remaining_arg` to `output_file` writes that field only, as `strcpy` does
for an argument shorter than the 512 bytes of the field, so `select_tracks` is what
the option loop leaves. -/
theorem parse_options_select_tracks (o : opts_s) (args : List getopt_result)
    (remaining_arg : Option CString) :
    (parse_options o args remaining_arg).2.select_tracks =
      (parse_options_loop o args).2.select_tracks := by
  unfold parse_options
  dsimp only
  split_ifs
  · rfl
  · cases remaining_arg <;> rfl

theorem parse_options_ret (o : opts_s) (args : List getopt_result)
    (remaining_arg : Option CString) (hret : (parse_options o args remaining_arg).1 ≠ 0) :
    (parse_options_loop o args).1 ≠ 0 := by
  intro h0
  apply hret
  unfold parse_options
  dsimp only
  rw [if_pos h0]

/-- When the last `-t` option has a token with non-zero value and `parse_options`
returns 1, it leaves `select_tracks = 1`. -/
theorem parse_options_select_tracks_set (pre post : List getopt_result) (optarg : CString)
    (remaining_arg : Option CString)
    (htok : ∃ t ∈ strtok_all [' ', ','] optarg [], atoi t ≠ 0)
    (hpost : ∀ r ∈ post, r.opt ≠ 't')
    (hret : (parse_options init (pre ++ ⟨'t', optarg⟩ :: post) remaining_arg).1 ≠ 0) :
    (parse_options init (pre ++ ⟨'t', optarg⟩ :: post) remaining_arg).2.select_tracks = 1 := by
  have hl := parse_options_ret _ _ _ hret
  rw [parse_options_select_tracks]
  rw [parse_options_loop_append] at hl ⊢
  by_cases hpre : (parse_options_loop init pre).1 = 0
  · rw [if_pos hpre] at hl; exact absurd rfl hl
  · rw [if_neg hpre]
    have hstep : parse_options_loop (parse_options_loop init pre).2 (⟨'t', optarg⟩ :: post) =
        parse_options_loop (parse_options_case (parse_options_loop init pre).2 't' optarg)
          post := by
      simp [parse_options_loop]
    rw [hstep, parse_options_loop_select_tracks post hpost]
    exact (parse_select_track_flag _ optarg).1 htok

theorem default_channel_select_tracks (o : opts_s) :
    (default_channel o).select_tracks = o.select_tracks := by
  unfold default_channel
  split_ifs <;> rfl

/-- The jobs of `main` are those of a plan for the options `parse_options` leaves,
with the two-channel default applied; there are none when `parse_options`
returns 0. -/
theorem main_jobs {σ ρ : Type} (E : collaborators σ ρ) (SL : Bool)
    (args : List getopt_result) (remaining_arg : Option CString) (w : σ) (x : job)
    (hx : x ∈ (main E SL args remaining_arg w).1) :
    (parse_options init args remaining_arg).1 ≠ 0 ∧
    ∃ (h : scarletbook_handle_t) (T : Nat),
      x ∈ (plan E SL (default_channel (parse_options init args remaining_arg).2) h T w).1 := by
  unfold main at hx
  dsimp only at hx
  by_cases hret : (parse_options init args remaining_arg).1 = 0
  · rw [if_pos hret] at hx; exact absurd hx (by simp)
  · rw [if_neg hret] at hx
    refine ⟨hret, ?_⟩
    by_cases hnogo :
        nogo_checks E (default_channel (parse_options init args remaining_arg).2) w = true
    · rw [if_pos hnogo] at hx; exact absurd hx (by simp)
    · rw [if_neg hnogo] at hx
      unfold main_open at hx
      cases hopen : E.sacd_open w
          (default_channel (parse_options init args remaining_arg).2).input_device with
      | none => rw [hopen] at hx; exact absurd hx (by simp)
      | some r =>
        rw [hopen] at hx
        dsimp only at hx
        cases hsb : E.scarletbook_open r with
        | none => rw [hsb] at hx; exact absurd hx (by simp)
        | some h =>
          rw [hsb] at hx
          dsimp only at hx
          split_ifs at hx
          · exact ⟨h, _, hx⟩
          · exact absurd hx (by simp)

/-- When the last `-t` option has no token with non-zero value and `parse_options`
returns 1, it leaves `select_tracks = 0`, whatever the `-t` options before it
selected. -/
theorem parse_options_select_tracks_clear (pre post : List getopt_result) (optarg : CString)
    (remaining_arg : Option CString)
    (hno : ¬ ∃ t ∈ strtok_all [' ', ','] optarg [], atoi t ≠ 0)
    (hpost : ∀ r ∈ post, r.opt ≠ 't')
    (hret : (parse_options init (pre ++ ⟨'t', optarg⟩ :: post) remaining_arg).1 ≠ 0) :
    (parse_options init (pre ++ ⟨'t', optarg⟩ :: post) remaining_arg).2.select_tracks = 0 := by
  have hl := parse_options_ret _ _ _ hret
  rw [parse_options_select_tracks]
  rw [parse_options_loop_append] at hl ⊢
  by_cases hpre : (parse_options_loop init pre).1 = 0
  · rw [if_pos hpre] at hl; exact absurd rfl hl
  · rw [if_neg hpre]
    have hstep : parse_options_loop (parse_options_loop init pre).2 (⟨'t', optarg⟩ :: post) =
        parse_options_loop (parse_options_case (parse_options_loop init pre).2 't' optarg)
          post := by
      simp [parse_options_loop]
    rw [hstep, parse_options_loop_select_tracks post hpost]
    exact (parse_select_track_flag _ optarg).2 hno

/-- The switch of `parse_options` never clears `dsf_nopad`, and `case 'z'` sets it. -/
theorem parse_options_case_dsf_nopad (o : opts_s) (opt : Char) (optarg : CString) :
    (o.dsf_nopad = 1 → (parse_options_case o opt optarg).dsf_nopad = 1) ∧
    (opt = 'z' → (parse_options_case o opt optarg).dsf_nopad = 1) := by
  constructor
  · intro h1
    apply parse_options_case_cases (fun o1 => o1.dsf_nopad = 1) o opt optarg
    any_goals exact h1
    · intro _; exact h1
    · rfl
  · intro hz
    subst hz
    simp [parse_options_case]

theorem parse_options_loop_dsf_nopad_keeps (args : List getopt_result) :
    ∀ o : opts_s, o.dsf_nopad = 1 → (parse_options_loop o args).2.dsf_nopad = 1 := by
  induction args with
  | nil => intro o ho; exact ho
  | cons r rest ih =>
    intro o ho
    by_cases hr : r.opt = '?' ∨ r.opt = 'u'
    · simp [parse_options_loop, hr, ho]
    · simp only [parse_options_loop, hr, if_false]
      exact ih _ ((parse_options_case_dsf_nopad o r.opt r.optarg).1 ho)

theorem parse_options_loop_dsf_nopad (args : List getopt_result) :
    ∀ o : opts_s, (∃ r ∈ args, r.opt = 'z') → (parse_options_loop o args).1 ≠ 0 →
      (parse_options_loop o args).2.dsf_nopad = 1 := by
  induction args with
  | nil => intro o hz; obtain ⟨r, hr, _⟩ := hz; exact absurd hr (by simp)
  | cons r rest ih =>
    intro o hz hret
    by_cases hr : r.opt = '?' ∨ r.opt = 'u'
    · simp [parse_options_loop, hr] at hret
    · simp only [parse_options_loop, hr, if_false] at hret ⊢
      by_cases hrz : r.opt = 'z'
      · exact parse_options_loop_dsf_nopad_keeps rest _
          ((parse_options_case_dsf_nopad o r.opt r.optarg).2 hrz)
      · apply ih _ _ hret
        obtain ⟨r1, hr1, hz1⟩ := hz
        rw [List.mem_cons] at hr1
        rcases hr1 with rfl | hr1
        · exact absurd hz1 hrz
        · exact ⟨r1, hr1, hz1⟩

/-- When `parse_options` returns 1 and some option is `-z`, it leaves `dsf_nopad = 1`. -/
theorem parse_options_dsf_nopad_set (args : List getopt_result)
    (remaining_arg : Option CString) (hz : ∃ r ∈ args, r.opt = 'z')
    (hret : (parse_options init args remaining_arg).1 ≠ 0) :
    (parse_options init args remaining_arg).2.dsf_nopad = 1 := by
  have hl := parse_options_ret _ _ _ hret
  have h1 : (parse_options init args remaining_arg).2.dsf_nopad =
      (parse_options_loop init args).2.dsf_nopad := by
    unfold parse_options
    dsimp only
    split_ifs
    · rfl
    · cases remaining_arg <;> rfl
  rw [h1]
  exact parse_options_loop_dsf_nopad args init hz hl

theorem default_channel_dsf_nopad (o : opts_s) :
    (default_channel o).dsf_nopad = o.dsf_nopad := by
  unfold default_channel
  split_ifs <;> rfl

set_option maxRecDepth 100000 in
/-- C9, the claim as stated fails: in `sacd_extract -z -s -t 1,5,13 -t 0` the option
`-t 1,5,13` has contributing tokens (it sets the flags of the tracks 1, 5 and 13),
but the later `-t 0` has none and `case 't'` ends with
`opts.select_tracks = count != 0`, which clears `select_tracks`.  So `main` enqueues all
14 tracks of the two-channel area and every job carries the padding argument 1. -/
theorem padding_flag_counterexample :
    (∃ t ∈ strtok_all [' ', ','] "1,5,13".toList [], atoi t ≠ 0) ∧
    (parse_options init
      [⟨'z', []⟩, ⟨'s', []⟩, ⟨'t', "1,5,13".toList⟩, ⟨'t', "0".toList⟩] none).2.select_tracks = 0 ∧
    ((parse_options init
      [⟨'z', []⟩, ⟨'s', []⟩, ⟨'t', "1,5,13".toList⟩, ⟨'t', "0".toList⟩]
        none).2.selected_tracks.getD 0 0 = 1 ∧
     (parse_options init
      [⟨'z', []⟩, ⟨'s', []⟩, ⟨'t', "1,5,13".toList⟩, ⟨'t', "0".toList⟩]
        none).2.selected_tracks.getD 4 0 = 1 ∧
     (parse_options init
      [⟨'z', []⟩, ⟨'s', []⟩, ⟨'t', "1,5,13".toList⟩, ⟨'t', "0".toList⟩]
        none).2.selected_tracks.getD 12 0 = 1) ∧
    job.TrackTranscode 0 0 "Album/001.dsf".toList "dsf".toList 1 1 0 ∈
      (main example_collaborators false
        [⟨'z', []⟩, ⟨'s', []⟩, ⟨'t', "1,5,13".toList⟩, ⟨'t', "0".toList⟩] none ()).1 ∧
    track_ids (main example_collaborators false
        [⟨'z', []⟩, ⟨'s', []⟩, ⟨'t', "1,5,13".toList⟩, ⟨'t', "0".toList⟩] none ()).1 =
      (List.range 14).map (fun i => ((0 : Int), i)) ∧
    pad_args (main example_collaborators false
        [⟨'z', []⟩, ⟨'s', []⟩, ⟨'t', "1,5,13".toList⟩, ⟨'t', "0".toList⟩] none ()).1 =
      List.replicate 14 1 := by
  decide

/-- C9 as amended: the padding argument of the track jobs.  In every plan
(concurrent or non-concurrent branch) a DSF job carries `dsf_nopad && !select_tracks`,
a DSDIFF job carries 0, and with `select_tracks` set every track job carries 0.
`case 't'` sets `select_tracks` to 1 when a token of its argument has a non-zero value
and to 0 otherwise, so after `parse_options` the field `select_tracks` is what the last
`-t` option leaves.  Hence, for a command line whose `outfile` argument fits
`output_file`: when the last `-t` option has a token of non-zero value, every track
job of `main` carries the padding argument 0, whether `-z` was given or not; when
the last `-t` option has no such token, `select_tracks` is 0 again and a DSF job
carries 1 exactly when `dsf_nopad` is set, as it is when `-z` was given. -/
theorem padding_flag_rule {σ ρ : Type} (E : collaborators σ ρ) (SL : Bool) :
    (∀ (o : opts_s) (h : scarletbook_handle_t) (T : Nat) (w : σ)
        (a : Int) (i : Nat) (p f : CString) (d g c : Int),
      job.TrackTranscode a i p f d g c ∈ (plan E SL o h T w).1 →
        (f = "dsf".toList → g = if o.dsf_nopad ≠ 0 ∧ o.select_tracks = 0 then 1 else 0) ∧
        (f = "dsdiff".toList → g = 0) ∧
        (o.select_tracks ≠ 0 → g = 0)) ∧
    (∀ (o : opts_s) (optarg : CString),
      ((∃ t ∈ strtok_all [' ', ','] optarg [], atoi t ≠ 0) →
        (parse_options_case o 't' optarg).select_tracks = 1) ∧
      ((¬ ∃ t ∈ strtok_all [' ', ','] optarg [], atoi t ≠ 0) →
        (parse_options_case o 't' optarg).select_tracks = 0)) ∧
    (∀ (pre post : List getopt_result) (optarg : CString) (remaining_arg : Option CString),
      (∀ s : CString, remaining_arg = some s → s.length < 512) →
      (∀ r ∈ post, r.opt ≠ 't') →
      (parse_options init (pre ++ ⟨'t', optarg⟩ :: post) remaining_arg).1 ≠ 0 →
      ((∃ t ∈ strtok_all [' ', ','] optarg [], atoi t ≠ 0) →
        (parse_options init (pre ++ ⟨'t', optarg⟩ :: post) remaining_arg).2.select_tracks
          = 1) ∧
      ((¬ ∃ t ∈ strtok_all [' ', ','] optarg [], atoi t ≠ 0) →
        (parse_options init (pre ++ ⟨'t', optarg⟩ :: post) remaining_arg).2.select_tracks
          = 0)) ∧
    (∀ (pre post : List getopt_result) (optarg : CString) (remaining_arg : Option CString)
        (w : σ) (a : Int) (i : Nat) (p f : CString) (d g c : Int),
      (∀ s : CString, remaining_arg = some s → s.length < 512) →
      (∃ t ∈ strtok_all [' ', ','] optarg [], atoi t ≠ 0) →
      (∀ r ∈ post, r.opt ≠ 't') →
      job.TrackTranscode a i p f d g c ∈
        (main E SL (pre ++ ⟨'t', optarg⟩ :: post) remaining_arg w).1 →
      g = 0) ∧
    (∀ (pre post : List getopt_result) (optarg : CString) (remaining_arg : Option CString)
        (w : σ) (a : Int) (i : Nat) (p : CString) (d g c : Int),
      (∀ s : CString, remaining_arg = some s → s.length < 512) →
      (¬ ∃ t ∈ strtok_all [' ', ','] optarg [], atoi t ≠ 0) →
      (∀ r ∈ post, r.opt ≠ 't') →
      job.TrackTranscode a i p "dsf".toList d g c ∈
        (main E SL (pre ++ ⟨'t', optarg⟩ :: post) remaining_arg w).1 →
      (g = if (parse_options init (pre ++ ⟨'t', optarg⟩ :: post) remaining_arg).2.dsf_nopad ≠ 0
        then 1 else 0) ∧
      ((∃ r ∈ pre ++ ⟨'t', optarg⟩ :: post, r.opt = 'z') → g = 1)) := by
  have hne1 : "dsdiff".toList ≠ "dsf".toList := by decide
  have hne2 : "dsdiff_edit_master".toList ≠ "dsf".toList := by decide
  have hne3 : "dsf".toList ≠ "dsdiff".toList := by decide
  have key : ∀ (o : opts_s) (h : scarletbook_handle_t) (T : Nat) (w : σ)
      (a : Int) (i : Nat) (p f : CString) (d g c : Int),
      job.TrackTranscode a i p f d g c ∈ (plan E SL o h T w).1 →
        (f = "dsf".toList → g = if o.dsf_nopad ≠ 0 ∧ o.select_tracks = 0 then 1 else 0) ∧
        (f = "dsdiff".toList → g = 0) ∧
        (o.select_tracks ≠ 0 → g = 0) := by
    intro o h T w a i p f d g c hx
    rcases plan_track_job_args E SL o h T w a i p f d g c hx with
      ⟨hf, _, _, hg⟩ | ⟨hf, _, _, hg⟩ | ⟨hf, _, _, hg, _⟩
    · subst hf
      refine ⟨fun _ => hg, fun hh => absurd hh hne3, ?_⟩
      intro hs
      rw [hg, pad_arg, if_neg (fun hh => hs hh.2)]
    · subst hf
      exact ⟨fun hh => absurd hh hne1, fun _ => hg, fun _ => hg⟩
    · subst hf
      exact ⟨fun hh => absurd hh hne2, fun _ => hg, fun _ => hg⟩
  refine ⟨key, fun o optarg => parse_select_track_flag o optarg, ?_, ?_, ?_⟩
  · intro pre post optarg remaining_arg _ hpost hret
    exact ⟨fun htok => parse_options_select_tracks_set pre post optarg remaining_arg htok
        hpost hret,
      fun hno => parse_options_select_tracks_clear pre post optarg remaining_arg hno
        hpost hret⟩
  · intro pre post optarg remaining_arg w a i p f d g c _ htok hpost hx
    obtain ⟨hret, h, T, hmem⟩ := main_jobs E SL _ remaining_arg w _ hx
    have hs := parse_options_select_tracks_set pre post optarg remaining_arg htok hpost hret
    apply (key _ h T w a i p f d g c hmem).2.2
    rw [default_channel_select_tracks, hs]
    decide
  · intro pre post optarg remaining_arg w a i p d g c _ hno hpost hx
    obtain ⟨hret, h, T, hmem⟩ := main_jobs E SL _ remaining_arg w _ hx
    have hs := parse_options_select_tracks_clear pre post optarg remaining_arg hno hpost hret
    have hg := (key _ h T w a i p _ d g c hmem).1 rfl
    rw [default_channel_select_tracks, default_channel_dsf_nopad, hs] at hg
    have hg1 : g = if (parse_options init (pre ++ ⟨'t', optarg⟩ :: post)
        remaining_arg).2.dsf_nopad ≠ 0 then 1 else 0 := by
      rw [hg]
      by_cases hz : (parse_options init (pre ++ ⟨'t', optarg⟩ :: post)
          remaining_arg).2.dsf_nopad ≠ 0
      · rw [if_pos hz, if_pos ⟨hz, rfl⟩]
      · rw [if_neg hz, if_neg (fun hh => hz hh.1)]
    refine ⟨hg1, ?_⟩
    intro hz
    rw [hg1, parse_options_dsf_nopad_set _ remaining_arg hz hret]
    rfl

/-- Instance of the amended C9: `sacd_extract -z -t 1,5,13 -s Out` on the example disc;
the DSF job of track 1 is enqueued, and the padding argument of such a job can
only be 0. -/
theorem padding_flag_rule_witness :
    (∀ s : CString, some "Out".toList = some s → s.length < 512) ∧
    (∃ t ∈ strtok_all [' ', ','] "1,5,13".toList [], atoi t ≠ 0) ∧
    (∀ r ∈ [(⟨'s', []⟩ : getopt_result)], r.opt ≠ 't') ∧
    job.TrackTranscode 0 0 "Out/001.dsf".toList "dsf".toList 1 0 0 ∈
      (main example_collaborators false
        ([⟨'z', []⟩] ++ ⟨'t', "1,5,13".toList⟩ :: [⟨'s', []⟩]) (some "Out".toList) ()).1 ∧
    (∀ g : Int, job.TrackTranscode 0 0 "Out/001.dsf".toList "dsf".toList 1 g 0 ∈
      (main example_collaborators false
        ([⟨'z', []⟩] ++ ⟨'t', "1,5,13".toList⟩ :: [⟨'s', []⟩]) (some "Out".toList) ()).1 →
      g = 0) :=
  ⟨fun s hs => by cases hs; decide, by decide, by decide, by decide, fun g hg =>
    (padding_flag_rule example_collaborators false).2.2.2.1 [⟨'z', []⟩] [⟨'s', []⟩]
      "1,5,13".toList (some "Out".toList) () 0 0 "Out/001.dsf".toList "dsf".toList 1 g 0
      (fun s hs => by cases hs; decide) (by decide) (by decide) hg⟩

/-! ## Names of the outputs -/

theorem cue_loop_mem {σ ρ : Type} (E : collaborators σ ρ) (o : opts_s)
    (h : scarletbook_handle_t) (albumdir : CString) (n : Nat) (areas : List Int) :
    ∀ (j : Nat) (w : σ) (x : job), x ∈ (cue_loop E o h albumdir n j areas w).1 →
      ∃ (k : Nat) (a : Int) (w1 : σ), areas[k]? = some a ∧
        x = job.CueExport a
          (E.get_unique_path w1 o.output_dir (albumdir_loc albumdir n (j + k)) "cue".toList) := by
  induction areas with
  | nil => intro j w x hx; simp [cue_loop] at hx
  | cons a rest ih =>
    intro j w x hx
    simp only [cue_loop, List.mem_cons] at hx
    rcases hx with rfl | hx
    · exact ⟨0, a, w, by simp, by rw [Nat.add_zero]⟩
    · obtain ⟨k, a1, w1, hk, hmem⟩ := ih _ _ x hx
      refine ⟨k + 1, a1, w1, by simpa using hk, ?_⟩
      have e : j + (k + 1) = j + 1 + k := by ring
      rw [e]; exact hmem

/-- The queue that `plan_queue` fills holds raw-image and track jobs only. -/
theorem plan_queue_kinds {σ ρ : Type} (E : collaborators σ ρ) (SL : Bool) (o : opts_s)
    (h : scarletbook_handle_t) (albumdir : CString) (areas : List Int) (T : Nat) (w : σ)
    (x : job) (hx : x ∈ (plan_queue E SL o h albumdir areas T w).1) :
    is_raw x = true ∨ is_track x = true := by
  unfold plan_queue at hx
  by_cases hiso : o.output_iso ≠ 0
  · rw [if_pos hiso] at hx
    by_cases hsplit : SL = true ∧ FAT32_SECTOR_LIMIT < T
    · obtain ⟨hsl, hgt⟩ := hsplit
      subst hsl
      rw [plan_iso_split E o h _ _ T w hgt] at hx
      exact Or.inl (split_loop_is_raw _ T 1 0 _ hx)
    · obtain ⟨tracks, htr, _, _, hsingle⟩ := plan_iso_single E SL o h albumdir areas T w hsplit
      rw [hsingle, List.mem_cons] at hx
      rcases hx with rfl | hx
      · exact Or.inl rfl
      · exact Or.inr (htr _ hx)
  · rw [if_neg hiso] at hx
    by_cases hem : o.output_dsdiff_em ≠ 0
    · rw [if_pos hem] at hx
      exact Or.inr (edit_master_loop_is_track E o h _ _ w _ 0 _ hx)
    · rw [if_neg hem] at hx
      by_cases hf : ¬ (o.output_iso ≠ 0 ∧ o.concurrent ≠ 0) ∧
          (o.output_dsf ≠ 0 ∨ o.output_dsdiff ≠ 0)
      · rw [if_pos hf] at hx
        exact Or.inr (track_area_loop_is_track E o h _ _ _ _ _ 0 w _ hx)
      · rw [if_neg hf] at hx; exact absurd hx (by simp)

/-- A cue export of a plan is a job of the cue loop. -/
theorem plan_cue_job {σ ρ : Type} (E : collaborators σ ρ) (SL : Bool) (o : opts_s)
    (h : scarletbook_handle_t) (T : Nat) (w : σ) (x : job)
    (hx : x ∈ (plan E SL o h T w).1) (hcue : is_cue x = true) :
    o.export_cue_sheet ≠ 0 ∧
    x ∈ (cue_loop E o h (albumdir_of E o h) (select_areas E o h).length 0
      (select_areas E o h) w).1 := by
  have hq : ∀ w1 : σ,
      x ∉ (plan_queue E SL o h (albumdir_of E o h) (select_areas E o h) T w1).1 := by
    intro w1 hmem
    rcases plan_queue_kinds E SL o h _ _ T w1 x hmem with hr | ht
    · have := not_raw_of_cue x hcue
      rw [hr] at this; exact absurd this (by simp)
    · have := not_track_of_cue x hcue
      rw [ht] at this; exact absurd this (by simp)
  unfold plan at hx
  dsimp only at hx
  by_cases hc : o.export_cue_sheet ≠ 0
  · rw [if_pos hc, List.mem_append] at hx
    rcases hx with hx | hx
    · exact ⟨hc, hx⟩
    · exact absurd hx (hq _)
  · rw [if_neg hc, List.nil_append] at hx
    exact absurd hx (hq _)

/-- A raw-image job of a plan is a job of the splitting loop or the single job for
the whole image. -/
theorem plan_raw_job {σ ρ : Type} (E : collaborators σ ρ) (SL : Bool) (o : opts_s)
    (h : scarletbook_handle_t) (T : Nat) (w : σ) (x : job)
    (hx : x ∈ (plan E SL o h T w).1) (hraw : is_raw x = true) :
    (∃ k : Nat, x = nth_split_job
      (E.make_filename o.output_dir none (albumdir_of E o h) "iso".toList) 1 0 T k) ∨
    (∃ w1 : σ, x = job.RawSectorRange 0 T
      (E.get_unique_path w1 o.output_dir (albumdir_of E o h) "iso".toList) "iso".toList) := by
  obtain ⟨cue, w1, hcue, _, hp⟩ := plan_eq E SL o h T w
  rw [hp, List.mem_append] at hx
  rcases hx with hx | hx
  · have := not_raw_of_cue x (hcue x hx)
    rw [hraw] at this; exact absurd this (by simp)
  · unfold plan_queue at hx
    by_cases hiso : o.output_iso ≠ 0
    · rw [if_pos hiso] at hx
      by_cases hsplit : SL = true ∧ FAT32_SECTOR_LIMIT < T
      · obtain ⟨hsl, hgt⟩ := hsplit
        subst hsl
        rw [plan_iso_split E o h _ _ T w1 hgt, split_loop_closed _ T 1 0 (by norm_num),
          List.mem_map] at hx
        obtain ⟨k, _, hk⟩ := hx
        exact Or.inl ⟨k, hk.symm⟩
      · obtain ⟨tracks, htr, _, _, hsingle⟩ :=
          plan_iso_single E SL o h (albumdir_of E o h) (select_areas E o h) T w1 hsplit
        rw [hsingle, List.mem_cons] at hx
        rcases hx with rfl | hx
        · exact Or.inr ⟨w1, rfl⟩
        · have := not_raw_of_track x (htr x hx)
          rw [hraw] at this; exact absurd this (by simp)
    · rw [if_neg hiso] at hx
      exfalso
      have hnr : is_raw x = false := by
        by_cases hem : o.output_dsdiff_em ≠ 0
        · rw [if_pos hem] at hx
          exact not_raw_of_track x (edit_master_loop_is_track E o h _ _ w1 _ 0 _ hx)
        · rw [if_neg hem] at hx
          by_cases hf : ¬ (o.output_iso ≠ 0 ∧ o.concurrent ≠ 0) ∧
              (o.output_dsf ≠ 0 ∨ o.output_dsdiff ≠ 0)
          · rw [if_pos hf] at hx
            exact not_raw_of_track x (track_area_loop_is_track E o h _ _ _ _ _ 0 w1 _ hx)
          · rw [if_neg hf] at hx; exact absurd hx (by simp)
      rw [hraw] at hnr; exact absurd hnr (by simp)

/-- Every job of a plan, by kind: a raw-image job is named from the album name
itself; a cue export or track job belongs to the area at some position `k` of the
selected areas and is named from `albumdir_loc` at `k`. -/
theorem plan_job_names {σ ρ : Type} (E : collaborators σ ρ) (SL : Bool) (o : opts_s)
    (h : scarletbook_handle_t) (T : Nat) (w : σ) (x : job)
    (hx : x ∈ (plan E SL o h T w).1) :
    (is_raw x = true ∧ named_from E o h (albumdir_of E o h) x) ∨
    (is_raw x = false ∧ ∃ (k : Nat) (a : Int), (select_areas E o h)[k]? = some a ∧
      job_area x = some a ∧
      named_from E o h (albumdir_loc (albumdir_of E o h) (select_areas E o h).length k) x) := by
  cases hkind : x with
  | CueExport a p =>
    right
    subst hkind
    refine ⟨rfl, ?_⟩
    obtain ⟨_, hmem⟩ := plan_cue_job E SL o h T w _ hx rfl
    obtain ⟨k, a1, w1, hk, heq⟩ := cue_loop_mem E o h _ _ _ 0 w _ hmem
    rw [Nat.zero_add] at heq
    injection heq with e1 e2
    subst e1
    exact ⟨k, a, hk, rfl, ⟨w1, e2⟩⟩
  | RawSectorRange offset length p kind =>
    left
    subst hkind
    refine ⟨rfl, ?_⟩
    rcases plan_raw_job E SL o h T w _ hx rfl with ⟨k, hk⟩ | ⟨w1, hw1⟩
    · unfold nth_split_job at hk
      injection hk with e1 e2 e3 e4
      exact Or.inr ⟨1 + k, e3⟩
    · injection hw1 with e1 e2 e3 e4
      exact Or.inl ⟨w1, e3⟩
  | TrackTranscode a i p f d g c =>
    right
    subst hkind
    refine ⟨rfl, ?_⟩
    obtain ⟨k, a1, w1, hk, hcase⟩ := plan_track_job_cases E SL o h T w _ hx rfl
    have hloop : ∀ (dir : Option CString) (c0 : Int),
        job.TrackTranscode a i p f d g c ∈ track_loop E o h a1
          (E.get_unique_dir w1 dir
            (albumdir_loc (albumdir_of E o h) (select_areas E o h).length k)).1 c0 →
        a = a1 ∧ named_from E o h
          (albumdir_loc (albumdir_of E o h) (select_areas E o h).length k)
          (job.TrackTranscode a i p f d g c) := by
      intro dir c0 hmem
      obtain ⟨i1, _, _, hc⟩ := track_loop_mem E o h a1 _ c0 _ hmem
      rcases hc with ⟨_, heq⟩ | ⟨_, _, heq⟩
      · injection heq with e1 e2 e3 e4 e5 e6 e7
        subst e1 e2
        exact ⟨rfl, Or.inr ⟨w1, dir, _, e3⟩⟩
      · injection heq with e1 e2 e3 e4 e5 e6 e7
        subst e1 e2
        exact ⟨rfl, Or.inr ⟨w1, dir, _, e3⟩⟩
    rcases hcase with ⟨_, _, heq⟩ | ⟨_, _, hmem⟩ | ⟨_, _, _, hmem⟩
    · injection heq with e1 e2 e3 e4 e5 e6 e7
      subst e1
      exact ⟨k, a, hk, rfl, Or.inl ⟨w1, e3⟩⟩
    · obtain ⟨ha, hn⟩ := hloop _ _ hmem
      subst ha
      exact ⟨k, a, hk, rfl, hn⟩
    · obtain ⟨ha, hn⟩ := hloop _ _ hmem
      subst ha
      exact ⟨k, a, hk, rfl, hn⟩

/-- C10, the claim as stated fails: `sacd_extract -I -C -2 -m` on the example disc
processes two areas; the cue sheets are named `Album [stereo].cue` and
`Album [multi].cue`, but the raw-image job is named `Album.iso`, from the album
name without an area qualifier. -/
theorem area_qualifier_counterexample :
    (main example_collaborators false
        [⟨'I', []⟩, ⟨'C', []⟩, ⟨'2', []⟩, ⟨'m', []⟩] none ()).1 =
      [job.CueExport 0 "Album [stereo].cue".toList,
       job.CueExport 1 "Album [multi].cue".toList,
       job.RawSectorRange 0 3000000 "Album.iso".toList "iso".toList] ∧
    (select_areas example_collaborators
      (default_channel (parse_options init [⟨'I', []⟩, ⟨'C', []⟩, ⟨'2', []⟩, ⟨'m', []⟩] none).2)
      example_disc).length = 2 := by
  decide

/-- C10 as amended: at most two areas are selected.  When two are, they are the
two-channel area followed by the multi-channel area, every cue export, edit-master
job and per-track job belongs to one of them and is named from the album name
extended with ` [stereo]` for the two-channel area and with ` [multi]` for the
multi-channel area, while every raw-image job is named from the album name
without a qualifier.  When exactly one area is selected every job is named from
the album name without a qualifier. -/
theorem area_qualified_names {σ ρ : Type} (E : collaborators σ ρ) (SL : Bool) (o : opts_s)
    (h : scarletbook_handle_t) (T : Nat) (w : σ) :
    (select_areas E o h).length ≤ 2 ∧
    (1 < (select_areas E o h).length →
      select_areas E o h = [h.twoch_area_idx, h.mulch_area_idx] ∧
      ∀ x ∈ (plan E SL o h T w).1,
        (is_raw x = true ∧ named_from E o h (albumdir_of E o h) x) ∨
        (job_area x = some h.twoch_area_idx ∧
          named_from E o h (albumdir_of E o h ++ " [stereo]".toList) x) ∨
        (job_area x = some h.mulch_area_idx ∧
          named_from E o h (albumdir_of E o h ++ " [multi]".toList) x)) ∧
    ((select_areas E o h).length = 1 →
      ∀ x ∈ (plan E SL o h T w).1, named_from E o h (albumdir_of E o h) x) := by
  have hlen : (select_areas E o h).length ≤ 2 := by
    unfold select_areas
    split_ifs <;> simp
  refine ⟨hlen, ?_, ?_⟩
  · intro h1
    have hareas : select_areas E o h = [h.twoch_area_idx, h.mulch_area_idx] := by
      unfold select_areas at h1 ⊢
      split_ifs at h1 ⊢ <;> simp at h1 ⊢
    refine ⟨hareas, ?_⟩
    intro x hx
    rcases plan_job_names E SL o h T w x hx with ⟨hr, hn⟩ | ⟨_, k, a, hk, ha, hn⟩
    · exact Or.inl ⟨hr, hn⟩
    · right
      rw [hareas] at hk hn
      match k, hk, hn with
      | 0, hk, hn =>
        left
        have : a = h.twoch_area_idx := by simpa using hk.symm
        subst this
        exact ⟨ha, by simpa [albumdir_loc] using hn⟩
      | 1, hk, hn =>
        right
        have : a = h.mulch_area_idx := by simpa using hk.symm
        subst this
        exact ⟨ha, by simpa [albumdir_loc] using hn⟩
      | k + 2, hk, _ => simp at hk
  · intro h1 x hx
    rcases plan_job_names E SL o h T w x hx with ⟨_, hn⟩ | ⟨_, k, a, _, _, hn⟩
    · exact hn
    · rw [h1] at hn
      simpa [albumdir_loc] using hn

/-- Instance of the amended C10: `sacd_extract -C -s -2 -m` on the example disc
processes two areas, and the DSF job of the first track of the multi-channel
area is in the plan. -/
theorem area_qualified_names_witness :
    1 < (select_areas example_collaborators
      (parse_options init [⟨'C', []⟩, ⟨'s', []⟩, ⟨'2', []⟩, ⟨'m', []⟩] none).2
      example_disc).length ∧
    job.TrackTranscode 1 0 "Album [multi]/001.dsf".toList "dsf".toList 1 0 0 ∈
      (plan example_collaborators false
        (parse_options init [⟨'C', []⟩, ⟨'s', []⟩, ⟨'2', []⟩, ⟨'m', []⟩] none).2
        example_disc 3000000 ()).1 ∧
    select_areas example_collaborators
      (parse_options init [⟨'C', []⟩, ⟨'s', []⟩, ⟨'2', []⟩, ⟨'m', []⟩] none).2
      example_disc = [example_disc.twoch_area_idx, example_disc.mulch_area_idx] :=
  ⟨by decide, by decide,
    ((area_qualified_names example_collaborators false
      (parse_options init [⟨'C', []⟩, ⟨'s', []⟩, ⟨'2', []⟩, ⟨'m', []⟩] none).2
      example_disc 3000000 ()).2.1 (by decide)).1⟩

/-! ## Area selection -/

/-- C11: area selection.  For every disc and every pair of user flags, the list of
areas `main` processes (the selection applied after the two-channel default) is
the two-channel area, if the disc has one and two-channel is requested or
neither flag was given, followed by the multi-channel area, if the disc has one
and multi-channel is requested.  So the list has at most two entries, it is a
sublist of (two-channel area, multi-channel area), every entry is one of these
two areas, no area occurs twice when the two areas differ, and when both are
selected the two-channel area comes first. -/
theorem area_selection {σ ρ : Type} (E : collaborators σ ρ) (o : opts_s)
    (h : scarletbook_handle_t) :
    select_areas E (default_channel o) h =
      (if E.has_two_channel h = true ∧
          (o.two_channel ≠ 0 ∨ (o.two_channel = 0 ∧ o.multi_channel = 0)) then
        [h.twoch_area_idx] else []) ++
      (if E.has_multi_channel h = true ∧ o.multi_channel ≠ 0 then [h.mulch_area_idx]
        else []) ∧
    (select_areas E (default_channel o) h).length ≤ 2 ∧
    (select_areas E (default_channel o) h).Sublist [h.twoch_area_idx, h.mulch_area_idx] ∧
    (∀ a ∈ select_areas E (default_channel o) h,
      (a = h.twoch_area_idx ∧ E.has_two_channel h = true) ∨
      (a = h.mulch_area_idx ∧ E.has_multi_channel h = true)) ∧
    (h.twoch_area_idx ≠ h.mulch_area_idx → (select_areas E (default_channel o) h).Nodup) ∧
    ((select_areas E (default_channel o) h).length = 2 →
      select_areas E (default_channel o) h = [h.twoch_area_idx, h.mulch_area_idx]) := by
  have hform : select_areas E (default_channel o) h =
      (if E.has_two_channel h = true ∧
          (o.two_channel ≠ 0 ∨ (o.two_channel = 0 ∧ o.multi_channel = 0)) then
        [h.twoch_area_idx] else []) ++
      (if E.has_multi_channel h = true ∧ o.multi_channel ≠ 0 then [h.mulch_area_idx]
        else []) := by
    unfold select_areas default_channel
    by_cases hd : o.two_channel = 0 ∧ o.multi_channel = 0
    · rw [if_pos hd]
      dsimp only
      congr 1
      by_cases h2ch : E.has_two_channel h = true
      · rw [if_pos ⟨h2ch, by decide⟩, if_pos ⟨h2ch, Or.inr hd⟩]
      · rw [if_neg (fun hh => h2ch hh.1), if_neg (fun hh => h2ch hh.1)]
    · rw [if_neg hd]
      congr 1
      by_cases h2ch : E.has_two_channel h = true ∧ o.two_channel ≠ 0
      · rw [if_pos h2ch, if_pos ⟨h2ch.1, Or.inl h2ch.2⟩]
      · rw [if_neg h2ch, if_neg]
        rintro ⟨ha, hb | hb⟩
        · exact h2ch ⟨ha, hb⟩
        · exact hd hb
  refine ⟨hform, ?_, ?_, ?_, ?_, ?_⟩
  · rw [hform]
    split_ifs <;> simp
  · rw [hform]
    split_ifs <;> simp
  · intro a ha
    rw [hform] at ha
    split_ifs at ha with c1 c2 c2 <;> simp at ha
    · rcases ha with rfl | rfl
      · exact Or.inl ⟨rfl, c1.1⟩
      · exact Or.inr ⟨rfl, c2.1⟩
    · exact Or.inl ⟨ha, c1.1⟩
    · exact Or.inr ⟨ha, c2.1⟩
  · intro hne
    rw [hform]
    split_ifs <;> simp [hne]
  · intro hlen
    rw [hform] at hlen ⊢
    split_ifs at hlen ⊢ <;> simp at hlen ⊢

/-! ## Track numbers outside 1..256 -/

set_option maxRecDepth 100000 in
/-- C12, the claim as stated fails: the option arguments `257`, `300` and `-1`, each
on the initial options (no flag set), set the flags 0, 43 and 254 and leave
`select_tracks` set, although the values lie outside 1..256. -/
theorem out_of_range_track_counterexample :
    (atoi "257".toList = 257 ∧
      (List.range 256).filter (fun i => decide
        ((parse_options_case init 't' "257".toList).selected_tracks.getD i 0 ≠ 0)) = [0] ∧
      (parse_options_case init 't' "257".toList).select_tracks = 1) ∧
    (atoi "300".toList = 300 ∧
      (List.range 256).filter (fun i => decide
        ((parse_options_case init 't' "300".toList).selected_tracks.getD i 0 ≠ 0)) = [43]) ∧
    (atoi "-1".toList = -1 ∧
      (List.range 256).filter (fun i => decide
        ((parse_options_case init 't' "-1".toList).selected_tracks.getD i 0 ≠ 0)) = [254]) ∧
    (List.range 256).filter (fun i => decide (init.selected_tracks.getD i 0 ≠ 0)) = [] := by
  decide

/-- C12 as amended: a token whose value `n` lies outside 1..256 leaves the array and
`count` as they were only when `n = 0`.  For every other such value (257, 300, a
negative number) the token is reduced modulo 256: it sets the flag at index
`(n - 1) mod 256`, which lies inside the 256-entry array and is the flag of a
track number in 1..256 other than `n`, changes no other flag and counts as a
contributing token, so that `select_tracks` is set.  The parsing step is defined
for every token: nothing aborts. -/
theorem out_of_range_track_wraps (t : CString) (sel : List Nat) (count : Int)
    (hlen : sel.length = 256) (hout : atoi t < 1 ∨ 256 < atoi t) :
    (atoi t = 0 → select_track_loop [t] (sel, count) = (sel, count)) ∧
    (atoi t ≠ 0 →
      ((atoi t - 1) % 256).toNat < 256 ∧
      ((((atoi t - 1) % 256).toNat : Int) + 1 ≠ atoi t) ∧
      select_track_loop [t] (sel, count) = (sel.set ((atoi t - 1) % 256).toNat 1, count + 1) ∧
      (select_track_loop [t] (sel, count)).1.length = 256 ∧
      (select_track_loop [t] (sel, count)).1.getD ((atoi t - 1) % 256).toNat 0 = 1 ∧
      (∀ i : Nat, i ≠ ((atoi t - 1) % 256).toNat →
        (select_track_loop [t] (sel, count)).1.getD i 0 = sel.getD i 0)) ∧
    (atoi t ≠ 0 → ∀ (o : opts_s) (optarg : CString),
      strtok_all [' ', ','] optarg [] = [t] →
      (parse_options_case o 't' optarg).select_tracks = 1) := by
  have hidx : and_0xff (atoi t - 1) = ((atoi t - 1) % 256).toNat := and_0xff_eq _
  refine ⟨?_, ?_, ?_⟩
  · intro h0
    rw [select_track_loop_cons, if_pos h0, select_track_loop_nil]
  · intro hne
    have hstep : select_track_loop [t] (sel, count) =
        (sel.set ((atoi t - 1) % 256).toNat 1, count + 1) := by
      rw [select_track_loop_cons, if_neg hne, select_track_loop_nil, hidx]
    have hlt : ((atoi t - 1) % 256).toNat < 256 := by omega
    refine ⟨hlt, by omega, hstep, ?_, ?_, ?_⟩
    · rw [hstep]
      simp only [List.length_set, hlen]
    · rw [hstep]
      show (sel.set ((atoi t - 1) % 256).toNat 1).getD ((atoi t - 1) % 256).toNat 0 = 1
      rw [getD_set_eq, if_pos ⟨rfl, by rw [hlen]; exact hlt⟩]
    · intro i hi
      rw [hstep]
      show (sel.set ((atoi t - 1) % 256).toNat 1).getD i 0 = sel.getD i 0
      rw [getD_set_eq, if_neg (fun hh => hi hh.1.symm)]
  · intro hne o optarg htok
    apply (parse_select_track_flag o optarg).1
    rw [htok]
    exact ⟨t, List.mem_singleton.mpr rfl, hne⟩

set_option maxRecDepth 100000 in
/-- Instance of the amended C12 at the token `257` on the cleared array. -/
theorem out_of_range_track_wraps_witness :
    (List.replicate 256 0).length = 256 ∧
    (atoi "257".toList < 1 ∨ 256 < atoi "257".toList) ∧
    atoi "257".toList ≠ 0 ∧
    (((atoi "257".toList - 1) % 256).toNat < 256 ∧
      ((((atoi "257".toList - 1) % 256).toNat : Int) + 1 ≠ atoi "257".toList) ∧
      select_track_loop ["257".toList] (List.replicate 256 0, 0) =
        ((List.replicate 256 0).set ((atoi "257".toList - 1) % 256).toNat 1, 0 + 1) ∧
      (select_track_loop ["257".toList] (List.replicate 256 0, 0)).1.length = 256 ∧
      (select_track_loop ["257".toList] (List.replicate 256 0, 0)).1.getD
        ((atoi "257".toList - 1) % 256).toNat 0 = 1 ∧
      (∀ i : Nat, i ≠ ((atoi "257".toList - 1) % 256).toNat →
        (select_track_loop ["257".toList] (List.replicate 256 0, 0)).1.getD i 0 =
          (List.replicate 256 0).getD i 0)) :=
  ⟨by decide, by decide, by decide,
    (out_of_range_track_wraps "257".toList (List.replicate 256 0) 0 (by decide)
      (by decide)).2.1 (by decide)⟩

/-! ## Planning with no selected area -/

/-- C13, the claim as stated fails: on a disc with a two-channel area only,
`sacd_extract -I -m` selects no area, yet `main` enqueues the raw-image job for the
whole disc and calls `scarletbook_output_start`; `sacd_extract -s -m` selects no
area and enqueues nothing, and `main` still calls `scarletbook_output_start`. -/
theorem zero_areas_counterexample :
    select_areas example_stereo_collaborators
      (default_channel (parse_options init [⟨'I', []⟩, ⟨'m', []⟩] none).2)
      example_stereo_disc = [] ∧
    main example_stereo_collaborators false [⟨'I', []⟩, ⟨'m', []⟩] none () =
      ([job.RawSectorRange 0 3000000 "Album.iso".toList "iso".toList], true) ∧
    select_areas example_stereo_collaborators
      (default_channel (parse_options init [⟨'s', []⟩, ⟨'m', []⟩] none).2)
      example_stereo_disc = [] ∧
    main example_stereo_collaborators false [⟨'s', []⟩, ⟨'m', []⟩] none () = ([], true) := by
  decide

/-- C13 as amended: with an empty list of selected areas the run is not aborted.
No cue export and no track job is produced, but a requested raw-image output is
planned as for any other selection (the volumes of the splitting loop, or the
single job for the whole image), and without `output_iso` the plan is empty.
Whenever the reader and the disc open and some output was requested, `main`
goes on to call `scarletbook_output_start` on that plan. -/
theorem zero_areas_plan {σ ρ : Type} (E : collaborators σ ρ) (SL : Bool) (o : opts_s)
    (h : scarletbook_handle_t) (T : Nat) (w : σ) (hempty : select_areas E o h = []) :
    (plan E SL o h T w).1 =
      (if o.output_iso ≠ 0 then
        (if SL = true ∧ FAT32_SECTOR_LIMIT < T then
          split_loop (E.make_filename o.output_dir none (albumdir_of E o h) "iso".toList) 1 0 T
        else
          [job.RawSectorRange 0 T
            (E.get_unique_path w o.output_dir (albumdir_of E o h) "iso".toList) "iso".toList])
       else []) ∧
    (∀ x ∈ (plan E SL o h T w).1, is_raw x = true) ∧
    track_jobs (plan E SL o h T w).1 = [] ∧
    (o.output_iso = 0 → (plan E SL o h T w).1 = []) ∧
    (o.output_iso ≠ 0 → raw_jobs (plan E SL o h T w).1 ≠ []) ∧
    (∀ r : ρ, E.sacd_open w o.input_device = some r → E.scarletbook_open r = some h →
      (o.output_dsf ≠ 0 ∨ o.output_iso ≠ 0 ∨ o.output_dsdiff ≠ 0 ∨ o.output_dsdiff_em ≠ 0
        ∨ o.export_cue_sheet ≠ 0) →
      main_open E SL o w =
        ((plan E SL o h (E.sacd_get_total_sectors r % 2 ^ 32) w).1, true)) := by
  have hform : (plan E SL o h T w).1 =
      (if o.output_iso ≠ 0 then
        (if SL = true ∧ FAT32_SECTOR_LIMIT < T then
          split_loop (E.make_filename o.output_dir none (albumdir_of E o h) "iso".toList) 1 0 T
        else
          [job.RawSectorRange 0 T
            (E.get_unique_path w o.output_dir (albumdir_of E o h) "iso".toList) "iso".toList])
       else []) := by
    have hcue : (if o.export_cue_sheet ≠ 0 then
          cue_loop E o h (albumdir_of E o h) (select_areas E o h).length 0 (select_areas E o h) w
        else ([], w)) = ([], w) := by
      rw [hempty]
      split_ifs <;> rfl
    unfold plan
    dsimp only
    rw [hcue, List.nil_append]
    unfold plan_queue
    by_cases hiso : o.output_iso ≠ 0
    · rw [if_pos hiso, if_pos hiso]
      by_cases hsplit : SL = true ∧ FAT32_SECTOR_LIMIT < T
      · rw [if_pos hsplit]
        obtain ⟨hsl, hgt⟩ := hsplit
        subst hsl
        exact plan_iso_split E o h _ _ T w hgt
      · rw [if_neg hsplit]
        unfold plan_iso
        rw [if_neg (by simpa using hsplit), hempty]
        split_ifs <;> rfl
    · rw [if_neg hiso, if_neg hiso, hempty]
      split_ifs <;> rfl
  have hraw : ∀ x ∈ (plan E SL o h T w).1, is_raw x = true := by
    intro x hx
    rw [hform] at hx
    by_cases hiso : o.output_iso ≠ 0
    · rw [if_pos hiso] at hx
      by_cases hsplit : SL = true ∧ FAT32_SECTOR_LIMIT < T
      · rw [if_pos hsplit] at hx
        exact split_loop_is_raw _ T 1 0 x hx
      · rw [if_neg hsplit, List.mem_singleton] at hx
        subst hx; rfl
    · rw [if_neg hiso] at hx; exact absurd hx (by simp)
  refine ⟨hform, hraw, ?_, ?_, ?_, ?_⟩
  · exact track_jobs_of_not_track _ (fun x hx => not_track_of_raw x (hraw x hx))
  · intro hiso
    rw [hform, if_neg (by omega)]
  · intro hiso
    rw [raw_jobs_of_raw _ hraw, hform, if_pos hiso]
    by_cases hsplit : SL = true ∧ FAT32_SECTOR_LIMIT < T
    · rw [if_pos hsplit]
      have hT : T ≠ 0 := by
        have := FAT32_SECTOR_LIMIT_eq
        omega
      rw [split_loop_pos _ 1 0 T hT]
      exact List.cons_ne_nil _ _
    · rw [if_neg hsplit]
      exact List.cons_ne_nil _ _
  · intro r hopen hsb hreq
    unfold main_open
    rw [hopen]
    dsimp only
    rw [hsb]
    dsimp only
    rw [if_pos hreq]

/-- Instance of the amended C13: `sacd_extract -I -m` on the disc with a two-channel
area only. -/
theorem zero_areas_plan_witness :
    select_areas example_stereo_collaborators
      (default_channel (parse_options init [⟨'I', []⟩, ⟨'m', []⟩] none).2)
      example_stereo_disc = [] ∧
    raw_jobs (plan example_stereo_collaborators false
      (default_channel (parse_options init [⟨'I', []⟩, ⟨'m', []⟩] none).2)
      example_stereo_disc 3000000 ()).1 ≠ [] :=
  ⟨by decide,
    (zero_areas_plan example_stereo_collaborators false
      (default_channel (parse_options init [⟨'I', []⟩, ⟨'m', []⟩] none).2)
      example_stereo_disc 3000000 () (by decide)).2.2.2.2.1 (by decide)⟩

/-! ## Raw-image output and track jobs -/

/-- Options other than `-w` leave `concurrent` as it is. -/
theorem parse_options_case_concurrent (o : opts_s) (opt : Char) (optarg : CString)
    (hopt : opt ≠ 'w') : (parse_options_case o opt optarg).concurrent = o.concurrent := by
  unfold parse_options_case
  by_cases c_2 : opt = '2'
  · rw [if_pos c_2]
  rw [if_neg c_2]
  by_cases c_m : opt = 'm'
  · rw [if_pos c_m]
  rw [if_neg c_m]
  by_cases c_e : opt = 'e'
  · rw [if_pos c_e]
  rw [if_neg c_e]
  by_cases c_p : opt = 'p'
  · rw [if_pos c_p]
  rw [if_neg c_p]
  by_cases c_s : opt = 's'
  · rw [if_pos c_s]
  rw [if_neg c_s]
  by_cases c_t : opt = 't'
  · rw [if_pos c_t]; rfl
  rw [if_neg c_t]
  by_cases c_z : opt = 'z'
  · rw [if_pos c_z]
  rw [if_neg c_z]
  by_cases c_I : opt = 'I'
  · rw [if_pos c_I]
  rw [if_neg c_I]
  by_cases c_w : opt = 'w'
  · exact absurd c_w hopt
  rw [if_neg c_w]
  by_cases c_c : opt = 'c'
  · rw [if_pos c_c]
  rw [if_neg c_c]
  by_cases c_C : opt = 'C'
  · rw [if_pos c_C]
  rw [if_neg c_C]
  by_cases c_i : opt = 'i'
  · rw [if_pos c_i]
  rw [if_neg c_i]
  by_cases c_o : opt = 'o'
  · rw [if_pos c_o]
  rw [if_neg c_o]
  by_cases c_y : opt = 'y'
  · rw [if_pos c_y]
  rw [if_neg c_y]
  by_cases c_P : opt = 'P'
  · rw [if_pos c_P]
  rw [if_neg c_P]
  by_cases c_v : opt = 'v'
  · rw [if_pos c_v]
  rw [if_neg c_v]

theorem parse_options_loop_concurrent (args : List getopt_result)
    (hargs : ∀ r ∈ args, r.opt ≠ 'w') :
    ∀ o : opts_s, (parse_options_loop o args).2.concurrent = o.concurrent := by
  induction args with
  | nil => intro o; rfl
  | cons r rest ih =>
    intro o
    by_cases hr : r.opt = '?' ∨ r.opt = 'u'
    · simp [parse_options_loop, hr]
    · simp only [parse_options_loop, hr, if_false]
      rw [ih (fun x hx => hargs x (List.mem_cons_of_mem _ hx)),
        parse_options_case_concurrent o r.opt r.optarg (hargs r (List.mem_cons_self _ _))]

/-- When `getopt_long` never returns `'w'`, as in a SECTOR_LIMIT build, whose option
string and option table do not have that option, `main` plans with
`concurrent = 0`. -/
theorem parse_options_concurrent_clear (args : List getopt_result)
    (remaining_arg : Option CString) (hargs : ∀ r ∈ args, r.opt ≠ 'w') :
    (default_channel (parse_options init args remaining_arg).2).concurrent = 0 := by
  have h1 : (default_channel (parse_options init args remaining_arg).2).concurrent =
      (parse_options init args remaining_arg).2.concurrent := by
    unfold default_channel
    split_ifs <;> rfl
  have h2 : (parse_options init args remaining_arg).2.concurrent =
      (parse_options_loop init args).2.concurrent := by
    unfold parse_options
    dsimp only
    split_ifs
    · rfl
    · cases remaining_arg <;> rfl
  rw [h1, h2, parse_options_loop_concurrent args hargs]
  rfl

theorem track_ids_length (l : List job) : (track_ids l).length = (track_jobs l).length := by
  induction l with
  | nil => rfl
  | cons x xs ih =>
    cases x with
    | CueExport a p => exact ih
    | RawSectorRange a b c d => exact ih
    | TrackTranscode a i p f d g c =>
      show ((a, i) :: track_ids xs).length =
        (job.TrackTranscode a i p f d g c :: track_jobs xs).length
      rw [List.length_cons, List.length_cons, ih]

/-- The track jobs of a plan in a per-track branch, by area and track index. -/
theorem plan_track_ids {σ ρ : Type} (E : collaborators σ ρ) (SL : Bool) (o : opts_s)
    (h : scarletbook_handle_t) (T : Nat) (w : σ)
    (hfmt : o.output_dsf ≠ 0 ∨ o.output_dsdiff ≠ 0)
    (hbranch : (o.output_iso = 0 ∧ o.output_dsdiff_em = 0) ∨
      (o.output_iso ≠ 0 ∧ o.concurrent ≠ 0 ∧ ¬ (SL = true ∧ FAT32_SECTOR_LIMIT < T))) :
    track_ids (plan E SL o h T w).1 =
      (select_areas E o h).flatMap (fun a =>
        ((List.range (h.area a).track_count).filter
          (fun i => decide (o.select_tracks = 0 ∨ o.selected_tracks.getD i 0 ≠ 0))).map
          (fun i => (a, i))) := by
  obtain ⟨w1, hw1⟩ := plan_per_track E SL o h T w hfmt hbranch
  rw [← track_ids_track_jobs, hw1, track_ids_track_area_loop E o h _ _ _ _ hfmt]

/-- With `output_iso` set, a plan has no track job unless `concurrent` and a
per-track format are set and the image is not split. -/
theorem plan_iso_no_tracks {σ ρ : Type} (E : collaborators σ ρ) (SL : Bool) (o : opts_s)
    (h : scarletbook_handle_t) (T : Nat) (w : σ) (hiso : o.output_iso ≠ 0)
    (hnot : ¬ (o.concurrent ≠ 0 ∧ (o.output_dsf ≠ 0 ∨ o.output_dsdiff ≠ 0) ∧
      ¬ (SL = true ∧ FAT32_SECTOR_LIMIT < T))) :
    track_jobs (plan E SL o h T w).1 = [] := by
  apply track_jobs_of_not_track
  intro x hx
  by_contra hcon
  have htrack : is_track x = true := by simpa using hcon
  obtain ⟨k, a, w1, _, hcase⟩ := plan_track_job_cases E SL o h T w x hx htrack
  rcases hcase with ⟨h0, _⟩ | ⟨h0, _⟩ | ⟨_, hc, hsplit, hmem⟩
  · exact hiso h0
  · exact hiso h0
  · obtain ⟨i, _, _, hfm⟩ := track_loop_mem E o h a _ 1 x hmem
    apply hnot
    refine ⟨hc, ?_, hsplit⟩
    rcases hfm with ⟨hd, _⟩ | ⟨_, hp, _⟩
    · exact Or.inl hd
    · exact Or.inr hp

/-- With `output_iso` set a plan has a raw-image job. -/
theorem plan_iso_has_raw {σ ρ : Type} (E : collaborators σ ρ) (SL : Bool) (o : opts_s)
    (h : scarletbook_handle_t) (T : Nat) (w : σ) (hiso : o.output_iso ≠ 0) :
    raw_jobs (plan E SL o h T w).1 ≠ [] := by
  obtain ⟨w1, _, _, _, hj⟩ := plan_raw_view E SL o h T w hiso
  rw [hj]
  by_cases hsplit : SL = true ∧ FAT32_SECTOR_LIMIT < T
  · obtain ⟨hsl, hgt⟩ := hsplit
    subst hsl
    have hT : T ≠ 0 := by
      have := FAT32_SECTOR_LIMIT_eq
      omega
    rw [plan_iso_split E o h _ _ T w1 hgt, split_loop_pos _ 1 0 T hT]
    simp [raw_jobs, is_raw]
  · obtain ⟨tracks, _, _, _, hsingle⟩ :=
      plan_iso_single E SL o h (albumdir_of E o h) (select_areas E o h) T w1 hsplit
    rw [hsingle]
    simp [raw_jobs, is_raw]

/-- C14, the claim as stated fails in one direction: `sacd_extract -I -w -s -t 200` on
the example disc (no area has 200 tracks) and `sacd_extract -I -w -s -m` on the
disc without a multi-channel area both plan with `output_iso`, `concurrent` and
`output_dsf` set and an image that is not split, yet `main` enqueues the raw-image
job only and no track job. -/
theorem raw_image_tracks_counterexample :
    (main example_collaborators false
        [⟨'I', []⟩, ⟨'w', []⟩, ⟨'s', []⟩, ⟨'t', "200".toList⟩] none ()).1 =
      [job.RawSectorRange 0 3000000 "Album.iso".toList "iso".toList] ∧
    (default_channel (parse_options init
      [⟨'I', []⟩, ⟨'w', []⟩, ⟨'s', []⟩, ⟨'t', "200".toList⟩] none).2).output_iso ≠ 0 ∧
    (default_channel (parse_options init
      [⟨'I', []⟩, ⟨'w', []⟩, ⟨'s', []⟩, ⟨'t', "200".toList⟩] none).2).concurrent ≠ 0 ∧
    (default_channel (parse_options init
      [⟨'I', []⟩, ⟨'w', []⟩, ⟨'s', []⟩, ⟨'t', "200".toList⟩] none).2).output_dsf ≠ 0 ∧
    (main example_stereo_collaborators false
        [⟨'I', []⟩, ⟨'w', []⟩, ⟨'s', []⟩, ⟨'m', []⟩] none ()).1 =
      [job.RawSectorRange 0 3000000 "Album.iso".toList "iso".toList] ∧
    (default_channel (parse_options init
      [⟨'I', []⟩, ⟨'w', []⟩, ⟨'s', []⟩, ⟨'m', []⟩] none).2).concurrent ≠ 0 ∧
    (default_channel (parse_options init
      [⟨'I', []⟩, ⟨'w', []⟩, ⟨'s', []⟩, ⟨'m', []⟩] none).2).output_dsf ≠ 0 := by
  decide

/-- C14 as amended: raw-image output suppresses per-track output unless concurrency
is on.  For every option set with `output_iso` set: when `concurrent` is set, a
per-track format (`output_dsf` or `output_dsdiff`) is set and the image is not
split, `main` enqueues the per-track jobs, one for each selected track of each
selected area; in every other case it enqueues no track job.  So the plan holds
a track job if and only if these three conditions hold and some selected area
has a track that passes the track selection.  In particular with `concurrent`
clear the plan has no track job, it has a raw-image job, and it consists of
raw-image jobs and, when a cue sheet was requested, the cue exports that `main`
writes itself; and when `getopt_long` never returns `'w'`, as in a SECTOR_LIMIT
build, no run of `main` with `output_iso` set has a track job. -/
theorem raw_image_suppresses_tracks {σ ρ : Type} (E : collaborators σ ρ) (SL : Bool)
    (o : opts_s) (h : scarletbook_handle_t) (T : Nat) (w : σ) (hiso : o.output_iso ≠ 0) :
    (o.concurrent ≠ 0 ∧ (o.output_dsf ≠ 0 ∨ o.output_dsdiff ≠ 0) ∧
        ¬ (SL = true ∧ FAT32_SECTOR_LIMIT < T) →
      track_ids (plan E SL o h T w).1 =
        (select_areas E o h).flatMap (fun a =>
          ((List.range (h.area a).track_count).filter
            (fun i => decide (o.select_tracks = 0 ∨ o.selected_tracks.getD i 0 ≠ 0))).map
            (fun i => (a, i)))) ∧
    (¬ (o.concurrent ≠ 0 ∧ (o.output_dsf ≠ 0 ∨ o.output_dsdiff ≠ 0) ∧
        ¬ (SL = true ∧ FAT32_SECTOR_LIMIT < T)) →
      track_jobs (plan E SL o h T w).1 = []) ∧
    (track_jobs (plan E SL o h T w).1 ≠ [] ↔
      (o.concurrent ≠ 0 ∧ (o.output_dsf ≠ 0 ∨ o.output_dsdiff ≠ 0) ∧
        ¬ (SL = true ∧ FAT32_SECTOR_LIMIT < T)) ∧
      ∃ a ∈ select_areas E o h, ∃ i : Nat, i < (h.area a).track_count ∧
        (o.select_tracks = 0 ∨ o.selected_tracks.getD i 0 ≠ 0)) ∧
    (o.concurrent = 0 →
      track_jobs (plan E SL o h T w).1 = [] ∧
      raw_jobs (plan E SL o h T w).1 ≠ [] ∧
      (∀ x ∈ (plan E SL o h T w).1, is_raw x = true ∨ is_cue x = true) ∧
      (o.export_cue_sheet = 0 → ∀ x ∈ (plan E SL o h T w).1, is_raw x = true)) ∧
    (∀ (args : List getopt_result) (remaining_arg : Option CString) (w0 : σ),
      (∀ r ∈ args, r.opt ≠ 'w') →
      (parse_options init args remaining_arg).2.output_iso ≠ 0 →
      ∀ x ∈ (main E SL args remaining_arg w0).1, is_track x = false) := by
  have hyes : o.concurrent ≠ 0 ∧ (o.output_dsf ≠ 0 ∨ o.output_dsdiff ≠ 0) ∧
        ¬ (SL = true ∧ FAT32_SECTOR_LIMIT < T) →
      track_ids (plan E SL o h T w).1 =
        (select_areas E o h).flatMap (fun a =>
          ((List.range (h.area a).track_count).filter
            (fun i => decide (o.select_tracks = 0 ∨ o.selected_tracks.getD i 0 ≠ 0))).map
            (fun i => (a, i))) := by
    rintro ⟨hc, hf, hs⟩
    exact plan_track_ids E SL o h T w hf (Or.inr ⟨hiso, hc, hs⟩)
  have hno := plan_iso_no_tracks E SL o h T w hiso
  refine ⟨hyes, hno, ?_, ?_, ?_⟩
  · constructor
    · intro hne
      by_cases hcond : o.concurrent ≠ 0 ∧ (o.output_dsf ≠ 0 ∨ o.output_dsdiff ≠ 0) ∧
          ¬ (SL = true ∧ FAT32_SECTOR_LIMIT < T)
      · refine ⟨hcond, ?_⟩
        have hids : track_ids (plan E SL o h T w).1 ≠ [] := by
          intro hnil
          apply hne
          apply List.eq_nil_of_length_eq_zero
          rw [← track_ids_length, hnil]
          rfl
        rw [hyes hcond] at hids
        obtain ⟨p, hp⟩ := List.exists_mem_of_ne_nil _ hids
        rw [List.mem_flatMap] at hp
        obtain ⟨a, ha, hp⟩ := hp
        rw [List.mem_map] at hp
        obtain ⟨i, hi, _⟩ := hp
        rw [List.mem_filter, List.mem_range] at hi
        exact ⟨a, ha, i, hi.1, of_decide_eq_true hi.2⟩
      · exact absurd (hno hcond) hne
    · rintro ⟨hcond, a, ha, i, hi, hsel⟩ hnil
      have hids : track_ids (plan E SL o h T w).1 = [] := by
        apply List.eq_nil_of_length_eq_zero
        rw [track_ids_length, hnil]
        rfl
      rw [hyes hcond] at hids
      have hmem : (a, i) ∈ (select_areas E o h).flatMap (fun a =>
          ((List.range (h.area a).track_count).filter
            (fun i => decide (o.select_tracks = 0 ∨ o.selected_tracks.getD i 0 ≠ 0))).map
            (fun i => (a, i))) := by
        rw [List.mem_flatMap]
        refine ⟨a, ha, ?_⟩
        rw [List.mem_map]
        refine ⟨i, ?_, rfl⟩
        rw [List.mem_filter, List.mem_range]
        exact ⟨hi, decide_eq_true hsel⟩
      rw [hids] at hmem
      exact absurd hmem (by simp)
  · intro hconc
    have htr : track_jobs (plan E SL o h T w).1 = [] := hno (fun hh => hh.1 hconc)
    have hkinds : ∀ x ∈ (plan E SL o h T w).1, is_raw x = true ∨ is_cue x = true := by
      intro x hx
      cases hk : x with
      | CueExport a p => exact Or.inr rfl
      | RawSectorRange a b c d => exact Or.inl rfl
      | TrackTranscode a i p f d g c =>
        exfalso
        subst hk
        have : job.TrackTranscode a i p f d g c ∈ track_jobs (plan E SL o h T w).1 := by
          unfold track_jobs
          rw [List.mem_filter]
          exact ⟨hx, rfl⟩
        rw [htr] at this
        exact absurd this (by simp)
    refine ⟨htr, plan_iso_has_raw E SL o h T w hiso, hkinds, ?_⟩
    intro hcue x hx
    rcases hkinds x hx with hr | hc
    · exact hr
    · exact absurd (plan_cue_job E SL o h T w x hx hc).1 (by omega)
  · intro args remaining_arg w0 hargs hiso2 x hx
    obtain ⟨_, h1, T1, hmem⟩ := main_jobs E SL args remaining_arg w0 x hx
    have hc := parse_options_concurrent_clear args remaining_arg hargs
    have hi : (default_channel (parse_options init args remaining_arg).2).output_iso ≠ 0 := by
      have : (default_channel (parse_options init args remaining_arg).2).output_iso =
          (parse_options init args remaining_arg).2.output_iso := by
        unfold default_channel
        split_ifs <;> rfl
      rw [this]; exact hiso2
    have hnil := plan_iso_no_tracks E SL _ h1 T1 w0 hi (fun hh => hh.1 hc)
    by_contra hcon
    have htrack : is_track x = true := by simpa using hcon
    have : x ∈ track_jobs (plan E SL
        (default_channel (parse_options init args remaining_arg).2) h1 T1 w0).1 := by
      unfold track_jobs
      rw [List.mem_filter]
      exact ⟨hmem, htrack⟩
    rw [hnil] at this
    exact absurd this (by simp)

/-- Instance of the amended C14: `sacd_extract -I -s` on the example disc plans the raw-image job
only. -/
theorem raw_image_suppresses_tracks_witness :
    (default_channel (parse_options init [⟨'I', []⟩, ⟨'s', []⟩] none).2).output_iso ≠ 0 ∧
    (default_channel (parse_options init [⟨'I', []⟩, ⟨'s', []⟩] none).2).concurrent = 0 ∧
    (plan example_collaborators false
      (default_channel (parse_options init [⟨'I', []⟩, ⟨'s', []⟩] none).2)
      example_disc 3000000 ()).1 =
        [job.RawSectorRange 0 3000000 "Album.iso".toList "iso".toList] ∧
    track_jobs (plan example_collaborators false
      (default_channel (parse_options init [⟨'I', []⟩, ⟨'s', []⟩] none).2)
      example_disc 3000000 ()).1 = [] :=
  ⟨by decide, by decide, by decide,
    ((raw_image_suppresses_tracks example_collaborators false
      (default_channel (parse_options init [⟨'I', []⟩, ⟨'s', []⟩] none).2)
      example_disc 3000000 () (by decide)).2.2.2.1 (by decide)).1⟩

end SacdExtract
